import Mathlib

/-!
# Emulated EEPROM on XMC4000 flash (`xmc4_e_eeprom.c`)

A shallow embedding of the recovery scan, the erase state machine and the write
rotation of the emulated EEPROM driver, together with theorems about them.

Conventions of the embedding

* Memory (flash and the RAM mirror) is byte addressed: a memory is a function from
  a byte address to a byte.  The Cortex-M4 core of the XMC4000 is little endian, so
  the 32-bit word at address `a` is made of the bytes at `a`, `a+1`, `a+2`, `a+3`
  with the least significant byte first.
* `uint32_t` values are natural numbers; every operation of the source that can
  wrap is written with an explicit `% 2^32`, and `x - c` on `uint32_t` is
  `(2^32 - c + x) % 2^32`.  In a sum of a constant and a variable the constant is
  written first, which keeps definitional unfolding of the sum short.
* The flash base address, the CRC engine and the outcome of the flash commands are
  not part of the C file; they are parameters (`Device`, `Outcomes`).
-/

namespace EEPROM

/-! ## Constants of the source -/

@[simp] def E_EEPROM_XMC4_MAX_SECTORS : Nat := 4
@[simp] def E_EEPROM_XMC4_BCC_OFFSET : Nat := 1
@[simp] def E_EEPROM_XMC4_DATA_OFFSET : Nat := 2
@[simp] def E_EEPROM_XMC4_EMPTY : Nat := 0
@[simp] def E_EEPROM_XMC4_ALL_SECTORS_FILLED : Nat := 0x0F
@[simp] def E_EEPROM_XMC4_MIN_WORDS_PER_PAGE : Nat := 64
@[simp] def E_EEPROM_XMC4_SECTOR_SIZE : Nat := 0x4000
@[simp] def E_EEPROM_XMC4_SECTOR_POSITION_MASK : Nat := 0xC000
@[simp] def E_EEPROM_XMC4_SECTOR_POSITION : Nat := 14
@[simp] def E_EEPROM_XMC4_ACTUAL_FLASH_BLOCK_SIZE : Nat := 8192
@[simp] def E_EEPROM_XMC4_WORKING_BUFFER_SIZE : Nat := E_EEPROM_XMC4_ACTUAL_FLASH_BLOCK_SIZE - 8
@[simp] def E_EEPROM_XMC4_DATA_SIZE_FOR_CRC : Nat := E_EEPROM_XMC4_ACTUAL_FLASH_BLOCK_SIZE - 4
@[simp] def E_EEPROM_XMC4_MAX_PAGES : Nat := E_EEPROM_XMC4_ACTUAL_FLASH_BLOCK_SIZE >>> 8
@[simp] def E_EEPROM_XMC4_MAX_WORDS : Nat := E_EEPROM_XMC4_ACTUAL_FLASH_BLOCK_SIZE >>> 2

/-- The modulus of `uint32_t` arithmetic. -/
@[simp] def U32 : Nat := 4294967296

/-- Number of bytes of one flash page (`E_EEPROM_XMC4_MIN_WORDS_PER_PAGE` words of 4 bytes). -/
@[simp] def PAGE_BYTES : Nat := 4 * E_EEPROM_XMC4_MIN_WORDS_PER_PAGE

/-! ## External collaborators -/

/-- The parts of the platform the C file takes from the device headers and the
peripheral library: the base address of the uncached flash window
(`XMC_FLASH_UNCACHED_BASE`) and the CRC-32 kernel of the FCE
(`XMC_FCE_CalculateCRC32` after `XMC_FCE_InitializeSeedValue`), as a function of the
bytes it is run over. -/
structure Device where
  XMC_FLASH_UNCACHED_BASE : Nat
  XMC_FCE_CalculateCRC32 : List Nat → Nat

/-- The flash window is placed so that the four sectors do not wrap around the
32-bit address space and sector 0 starts on a 64 KiB boundary (as it does on the
XMC4000, where the base is `0x0C000000`). -/
def Device.placed (d : Device) : Prop :=
  d.XMC_FLASH_UNCACHED_BASE % 65536 = 0 ∧ 0x20000 + d.XMC_FLASH_UNCACHED_BASE < U32

instance (d : Device) : Decidable d.placed := by
  unfold Device.placed; exact inferInstance

def E_EEPROM_XMC4_SECTOR0_START_ADDR (d : Device) : Nat := (0x10000 + d.XMC_FLASH_UNCACHED_BASE) % U32
def E_EEPROM_XMC4_SECTOR1_START_ADDR (d : Device) : Nat := (0x14000 + d.XMC_FLASH_UNCACHED_BASE) % U32
def E_EEPROM_XMC4_SECTOR2_START_ADDR (d : Device) : Nat := (0x18000 + d.XMC_FLASH_UNCACHED_BASE) % U32
def E_EEPROM_XMC4_SECTOR3_START_ADDR (d : Device) : Nat := (0x1C000 + d.XMC_FLASH_UNCACHED_BASE) % U32
def E_EEPROM_XMC4_SECTOR4_START_ADDR (d : Device) : Nat := (0x20000 + d.XMC_FLASH_UNCACHED_BASE) % U32

/-- Status codes of the API (`E_EEPROM_XMC4_STATUS_t`). -/
inductive E_EEPROM_XMC4_STATUS_t where
  | OK
  | ERROR_PARAM
  | ERROR_OLD_DATA
  | ERASE_ERROR
  | WRITE_ERROR
  deriving DecidableEq

open E_EEPROM_XMC4_STATUS_t

/-- A command sent to the flash module. -/
inductive FlashOp where
  | erase (addr : Nat)
  | program (addr : Nat)
  deriving DecidableEq

/-- The flash as the driver sees it: its bytes, and the commands issued so far
(oldest first). -/
structure Hw where
  mem : Nat → Nat
  ops : List FlashOp

/-- What the flash module does with the commands of one API call.  Within one call
each sector is erased at most once and each page of the block is programmed at most
once, so the outcomes are indexed by sector number and by page number.  `junk` gives
the byte found afterwards at an address touched by a command that did not verify. -/
structure Outcomes where
  eraseOk : Nat → Bool
  verifyOk : Nat → Bool
  junk : Nat → Nat

/-- Model of `XMC_FLASH_ProgramPage`: one page (256 bytes) of `src` goes to `address`; when the
program does not verify the page holds `junk`. -/
def XMC_FLASH_ProgramPage (ok : Bool) (junk : Nat → Nat) (address : Nat) (src : Nat → Nat)
    (hw : Hw) : Hw :=
  { mem := fun a =>
      if address ≤ a ∧ a < address + PAGE_BYTES then
        (if ok then src (a - address) % 256 else junk a)
      else hw.mem a
    ops := hw.ops ++ [FlashOp.program address] }

/-- Model of `XMC_FLASH_EraseSector`: the 16 KiB physical sector at `address` reads as zero
after an erase that verifies, and holds `junk` otherwise. -/
def XMC_FLASH_EraseSector (ok : Bool) (junk : Nat → Nat) (address : Nat) (hw : Hw) : Hw :=
  { mem := fun a =>
      if address ≤ a ∧ a < address + E_EEPROM_XMC4_SECTOR_SIZE then
        (if ok then 0 else junk a)
      else hw.mem a
    ops := hw.ops ++ [FlashOp.erase address] }

/-! ## Data structures of the source -/

/-- The 32-bit word stored at byte address `a` (little endian). -/
def readWord (mem : Nat → Nat) (a : Nat) : Nat :=
  mem a % 256 + 256 * (mem (a + 1) % 256) + 65536 * (mem (a + 2) % 256)
    + 16777216 * (mem (a + 3) % 256)

/-- Byte `i` (0 is the least significant) of the word `w`. -/
def wordByte (w i : Nat) : Nat := w / 256 ^ i % 256

/-- Structure `E_EEPROM_XMC4_SECTOR_INFO_t` of the source. -/
structure E_EEPROM_XMC4_SECTOR_INFO_t where
  next_free_start_addr : Nat
  flash_data_addr : Nat
  current_sector : Nat
  erase_state : Nat

/-- Structure `E_EEPROM_XMC4_RAM_BUFFER_t` of the source; `eeprom_data i` is meaningful for
`i < E_EEPROM_XMC4_WORKING_BUFFER_SIZE`. -/
structure E_EEPROM_XMC4_RAM_BUFFER_t where
  crc : Nat
  block_cycle_count : Nat
  eeprom_data : Nat → Nat
  len : Nat

/-- The RAM buffer read as bytes from its first byte, in the layout of the struct:
`crc`, `block_cycle_count`, `eeprom_data`, `len`. -/
def ramByte (b : E_EEPROM_XMC4_RAM_BUFFER_t) (i : Nat) : Nat :=
  if i < 4 then wordByte b.crc i
  else if i < 8 then wordByte b.block_cycle_count (i - 4)
  else if i < 8 + E_EEPROM_XMC4_WORKING_BUFFER_SIZE then b.eeprom_data (i - 8) % 256
  else wordByte b.len (i - (8 + E_EEPROM_XMC4_WORKING_BUFFER_SIZE))

/-- The whole state the driver works on: the two static structures, the
`initialized` flag of the handle and the flash. -/
structure State where
  e_eeprom_xmc4_data_buffer : E_EEPROM_XMC4_RAM_BUFFER_t
  e_eeprom_xmc4_sector_info : E_EEPROM_XMC4_SECTOR_INFO_t
  initialized : Bool
  hw : Hw

/-- The state after reset on a given flash image: the statics hold their
initialisers (zero, and `0xFFFFFFFF` for `current_sector`) and the handle is not
initialised. -/
def powerOn (flash : Nat → Nat) : State :=
  { e_eeprom_xmc4_data_buffer := { crc := 0, block_cycle_count := 0, eeprom_data := fun _ => 0, len := 0 }
    e_eeprom_xmc4_sector_info :=
      { next_free_start_addr := 0, flash_data_addr := 0, current_sector := 0xFFFFFFFF, erase_state := 0 }
    initialized := false
    hw := { mem := flash, ops := [] } }

/-! ## Local functions of the source -/

/-- Function `E_EEPROM_XMC4_lCalculateCRC`: the CRC of the `E_EEPROM_XMC4_DATA_SIZE_FOR_CRC`
bytes found from `data_start_addr` on in `mem`. -/
def E_EEPROM_XMC4_lCalculateCRC (d : Device) (mem : Nat → Nat) (data_start_addr : Nat) : Nat :=
  d.XMC_FCE_CalculateCRC32
    ((List.range E_EEPROM_XMC4_DATA_SIZE_FOR_CRC).map (fun i => mem (data_start_addr + i) % 256)) % U32

/-- The page loop of `E_EEPROM_XMC4_lWriteToFlash`: `n` pages remain, `page_index` is
the next one. -/
def programPages (o : Outcomes) (ram : Nat → Nat) (dst : Nat) :
    Nat → Nat → Hw → E_EEPROM_XMC4_STATUS_t × Hw
  | 0, _, hw => (OK, hw)
  | n + 1, page_index, hw =>
    let hw1 := XMC_FLASH_ProgramPage (o.verifyOk page_index) o.junk
      (dst + PAGE_BYTES * page_index) (fun i => ram (PAGE_BYTES * page_index + i)) hw
    if o.verifyOk page_index = false then (WRITE_ERROR, hw1)
    else programPages o ram dst n (page_index + 1) hw1

/-- Function `E_EEPROM_XMC4_lWriteToFlash`: the checksum of the mirror is stored in it,
then the block is programmed page by page at `next_free_start_addr`. -/
def E_EEPROM_XMC4_lWriteToFlash (d : Device) (o : Outcomes) (s : State) :
    E_EEPROM_XMC4_STATUS_t × State :=
  let buf := { s.e_eeprom_xmc4_data_buffer with
    crc := E_EEPROM_XMC4_lCalculateCRC d (ramByte s.e_eeprom_xmc4_data_buffer) 4 }
  let r := programPages o (ramByte buf) s.e_eeprom_xmc4_sector_info.next_free_start_addr
    E_EEPROM_XMC4_MAX_PAGES 0 s.hw
  (r.1, { s with e_eeprom_xmc4_data_buffer := buf, hw := r.2 })

/-- Function `E_EEPROM_XMC4_lCopyFlashToRam`: `E_EEPROM_XMC4_MAX_WORDS` words go from the block
at `flash_data_addr` to the start of the RAM buffer. -/
def E_EEPROM_XMC4_lCopyFlashToRam (s : State) : State :=
  let a := s.e_eeprom_xmc4_sector_info.flash_data_addr
  { s with e_eeprom_xmc4_data_buffer :=
    { crc := readWord s.hw.mem a
      block_cycle_count := readWord s.hw.mem (a + 4)
      eeprom_data := fun i =>
        if i < E_EEPROM_XMC4_WORKING_BUFFER_SIZE then s.hw.mem (a + 8 + i) % 256
        else s.e_eeprom_xmc4_data_buffer.eeprom_data i
      len := s.e_eeprom_xmc4_data_buffer.len } }

/-- The state after `erase_state |= 1 << sector`. -/
def markSector (sector : Nat) (s : State) : State :=
  { s with e_eeprom_xmc4_sector_info := { s.e_eeprom_xmc4_sector_info with
      erase_state := s.e_eeprom_xmc4_sector_info.erase_state ||| ((1 <<< sector) % U32) } }

/-- The four assignments made when a block is taken as the latest one. -/
def adoptBlock (sector block_read_addr free_block_addr block_cycle_count : Nat) (s : State) : State :=
  { s with
    e_eeprom_xmc4_data_buffer := { s.e_eeprom_xmc4_data_buffer with block_cycle_count := block_cycle_count }
    e_eeprom_xmc4_sector_info := { s.e_eeprom_xmc4_sector_info with
      current_sector := sector
      flash_data_addr := block_read_addr
      next_free_start_addr := free_block_addr } }

/-- The `do ... while` loop of `E_EEPROM_XMC4_lInitReadSectorInfo`.  The first
argument bounds the number of iterations; `none` means the bound was reached before
the loop ended. -/
def scanLoop (d : Device) (sector sector_start_addr : Nat) :
    Nat → Nat → Nat → State → Option State
  | 0, _, _, _ => none
  | n + 1, block_read_addr, free_block_addr, s =>
    let block_cycle_count := readWord s.hw.mem (block_read_addr + 4 * E_EEPROM_XMC4_BCC_OFFSET)
    let next_addr := (U32 - E_EEPROM_XMC4_ACTUAL_FLASH_BLOCK_SIZE + block_read_addr) % U32
    if block_cycle_count ≠ E_EEPROM_XMC4_EMPTY then
      let s1 := markSector sector s
      let free1 := if free_block_addr = E_EEPROM_XMC4_EMPTY
        then (E_EEPROM_XMC4_ACTUAL_FLASH_BLOCK_SIZE + block_read_addr) % U32 else free_block_addr
      if E_EEPROM_XMC4_lCalculateCRC d s.hw.mem (block_read_addr + 4 * E_EEPROM_XMC4_BCC_OFFSET)
            = readWord s.hw.mem block_read_addr
          ∧ block_cycle_count > s.e_eeprom_xmc4_data_buffer.block_cycle_count then
        some (adoptBlock sector block_read_addr free1 block_cycle_count s1)
      else if next_addr ≥ sector_start_addr then
        scanLoop d sector sector_start_addr n next_addr free1 s1
      else some s1
    else if next_addr ≥ sector_start_addr then
      scanLoop d sector sector_start_addr n next_addr free_block_addr s
    else some s

/-- Function `E_EEPROM_XMC4_lInitReadSectorInfo`, with a bound on the iterations of its loop. -/
def E_EEPROM_XMC4_lInitReadSectorInfo (d : Device) (fuel : Nat) (sector : Nat) (s : State) :
    Option State :=
  let sector_start_addr := (E_EEPROM_XMC4_SECTOR0_START_ADDR d + (E_EEPROM_XMC4_SECTOR_SIZE * sector) % U32) % U32
  let block_read_addr :=
    (U32 - E_EEPROM_XMC4_ACTUAL_FLASH_BLOCK_SIZE + (E_EEPROM_XMC4_SECTOR_SIZE + sector_start_addr) % U32) % U32
  scanLoop d sector sector_start_addr fuel block_read_addr E_EEPROM_XMC4_EMPTY s

/-- The `do ... while` loop of `E_EEPROM_XMC4_lInitEraseStateMachine`: `n` sectors
remain, `sector_count` is the next one. -/
def eraseLoop (d : Device) (o : Outcomes) : Nat → Nat → State → E_EEPROM_XMC4_STATUS_t × State
  | 0, _, s => (OK, s)
  | n + 1, sector_count, s =>
    if s.e_eeprom_xmc4_sector_info.current_sector ≠ sector_count
        ∧ (s.e_eeprom_xmc4_sector_info.erase_state >>> sector_count) &&& 1 ≠ 0 then
      let sector_start_addr :=
        (E_EEPROM_XMC4_SECTOR0_START_ADDR d + (E_EEPROM_XMC4_SECTOR_SIZE * sector_count) % U32) % U32
      let hw1 := XMC_FLASH_EraseSector (o.eraseOk sector_count) o.junk sector_start_addr s.hw
      if o.eraseOk sector_count = false then (ERASE_ERROR, { s with hw := hw1 })
      else eraseLoop d o n (sector_count + 1)
        { s with
          hw := hw1
          e_eeprom_xmc4_sector_info := { s.e_eeprom_xmc4_sector_info with
            erase_state := s.e_eeprom_xmc4_sector_info.erase_state
              &&& (U32 - 1 - (1 <<< sector_count) % U32) } }
    else eraseLoop d o n (sector_count + 1) s

/-- Function `E_EEPROM_XMC4_lInitEraseStateMachine`. -/
def E_EEPROM_XMC4_lInitEraseStateMachine (d : Device) (o : Outcomes) (s : State) :
    E_EEPROM_XMC4_STATUS_t × State :=
  eraseLoop d o E_EEPROM_XMC4_MAX_SECTORS 0 s

/-! ## API of the source -/

/-- The `for` loop of `E_EEPROM_XMC4_Init` over the sectors: `n` sectors remain,
`sector_count` is the next one. -/
def scanSectors (d : Device) (fuel : Nat) : Nat → Nat → State → Option State
  | 0, _, s => some s
  | n + 1, sector_count, s =>
    match E_EEPROM_XMC4_lInitReadSectorInfo d fuel sector_count s with
    | none => none
    | some s1 => scanSectors d fuel n (sector_count + 1) s1

/-- The three assignments `E_EEPROM_XMC4_Init` makes before the scan:
`block_cycle_count = 0`, `flash_data_addr = E_EEPROM_XMC4_EMPTY`, `len = len`. -/
def scanStart (len : Nat) (s : State) : State :=
  { s with
    e_eeprom_xmc4_data_buffer := { s.e_eeprom_xmc4_data_buffer with block_cycle_count := 0, len := len }
    e_eeprom_xmc4_sector_info := { s.e_eeprom_xmc4_sector_info with flash_data_addr := E_EEPROM_XMC4_EMPTY } }

/-- The part of `E_EEPROM_XMC4_Init` from the reset of the bookkeeping to the end of
the sector loop, with the value the local `status` has there. -/
def initScan (d : Device) (fuel : Nat) (len : Nat) (s : State) :
    Option (E_EEPROM_XMC4_STATUS_t × State) :=
  match scanSectors d fuel E_EEPROM_XMC4_MAX_SECTORS 0 (scanStart len s) with
  | none => none
  | some s1 => some (OK, s1)

/-- The part of `E_EEPROM_XMC4_Init` after the sector loop. -/
def initFinish (d : Device) (o : Outcomes) (status : E_EEPROM_XMC4_STATUS_t) (s1 : State) :
    E_EEPROM_XMC4_STATUS_t × State :=
  if status = OK then
    let r := E_EEPROM_XMC4_lInitEraseStateMachine d o s1
    if r.1 = OK then
      if r.2.e_eeprom_xmc4_sector_info.flash_data_addr = E_EEPROM_XMC4_EMPTY then
        (OK, { r.2 with
          e_eeprom_xmc4_sector_info := { r.2.e_eeprom_xmc4_sector_info with
            current_sector := 0
            next_free_start_addr := E_EEPROM_XMC4_SECTOR0_START_ADDR d }
          initialized := true })
      else
        let s3 := E_EEPROM_XMC4_lCopyFlashToRam r.2
        let nf := s3.e_eeprom_xmc4_sector_info.next_free_start_addr
        let status3 :=
          if (nf + U32 - s3.e_eeprom_xmc4_sector_info.flash_data_addr) % U32
              ≠ (s3.e_eeprom_xmc4_data_buffer.len * 2) % U32
          then ERROR_OLD_DATA else OK
        (status3, { s3 with
          e_eeprom_xmc4_sector_info := { s3.e_eeprom_xmc4_sector_info with
            next_free_start_addr :=
              if nf ≥ E_EEPROM_XMC4_SECTOR4_START_ADDR d then E_EEPROM_XMC4_SECTOR0_START_ADDR d else nf }
          initialized := true })
    else (r.1, { r.2 with initialized := true })
  else (status, { s1 with initialized := true })

/-- Function `E_EEPROM_XMC4_Init`; `fuel` bounds the iterations of each sector scan. -/
def E_EEPROM_XMC4_Init (d : Device) (o : Outcomes) (fuel : Nat) (len : Nat) (s : State) :
    Option (E_EEPROM_XMC4_STATUS_t × State) :=
  if s.initialized = false then
    if len > E_EEPROM_XMC4_WORKING_BUFFER_SIZE then some (ERROR_PARAM, s)
    else
      match initScan d fuel len s with
      | none => none
      | some r => some (initFinish d o r.1 r.2)
  else some (OK, s)

/-- The condition of the `XMC_ASSERT` of the single byte accessors. -/
def byteAssert (offset_address len : Nat) : Prop := offset_address < len

/-- The conditions of the two `XMC_ASSERT`s of the array accessors. -/
def arrayAssert (offset_address length len : Nat) : Prop :=
  offset_address < len ∧ offset_address + length < len

instance (a b : Nat) : Decidable (byteAssert a b) := by unfold byteAssert; exact inferInstance

instance (a b c : Nat) : Decidable (arrayAssert a b c) := by unfold arrayAssert; exact inferInstance

/-- Function `E_EEPROM_XMC4_WriteByte` (the `XMC_ASSERT` expands to nothing unless assertions
are compiled in; its condition is `byteAssert`). -/
def E_EEPROM_XMC4_WriteByte (offset_address value : Nat) (s : State) : Bool × State :=
  (decide (s.e_eeprom_xmc4_data_buffer.eeprom_data offset_address % 256 ≠ value % 256),
   { s with e_eeprom_xmc4_data_buffer := { s.e_eeprom_xmc4_data_buffer with
      eeprom_data := fun i =>
        if i = offset_address then value % 256 else s.e_eeprom_xmc4_data_buffer.eeprom_data i } })

/-- Function `E_EEPROM_XMC4_WriteArray`: `data i` for `i < length` is the caller's array. -/
def E_EEPROM_XMC4_WriteArray (offset_address : Nat) (data : Nat → Nat) (length : Nat) (s : State) :
    Bool × State :=
  ((List.range length).any (fun i =>
      decide (s.e_eeprom_xmc4_data_buffer.eeprom_data (offset_address + i) % 256 ≠ data i % 256)),
   { s with e_eeprom_xmc4_data_buffer := { s.e_eeprom_xmc4_data_buffer with
      eeprom_data := fun i =>
        if offset_address ≤ i ∧ i < offset_address + length then data (i - offset_address) % 256
        else s.e_eeprom_xmc4_data_buffer.eeprom_data i } })

/-- Function `E_EEPROM_XMC4_ReadByte`. -/
def E_EEPROM_XMC4_ReadByte (offset_address : Nat) (s : State) : Nat :=
  s.e_eeprom_xmc4_data_buffer.eeprom_data offset_address % 256

/-- Function `E_EEPROM_XMC4_ReadArray`: the bytes copied to the caller's array. -/
def E_EEPROM_XMC4_ReadArray (offset_address length : Nat) (s : State) : List Nat :=
  (List.range length).map (fun i => s.e_eeprom_xmc4_data_buffer.eeprom_data (offset_address + i) % 256)

/-- The state after `next_free_start_addr += E_EEPROM_XMC4_ACTUAL_FLASH_BLOCK_SIZE`
and the relocation to sector 0 when the cursor reaches the end of sector 3. -/
def advanceCursor (d : Device) (s : State) : State :=
  let nf := (E_EEPROM_XMC4_ACTUAL_FLASH_BLOCK_SIZE + s.e_eeprom_xmc4_sector_info.next_free_start_addr) % U32
  { s with e_eeprom_xmc4_sector_info := { s.e_eeprom_xmc4_sector_info with
      next_free_start_addr :=
        if nf ≥ E_EEPROM_XMC4_SECTOR4_START_ADDR d then E_EEPROM_XMC4_SECTOR0_START_ADDR d else nf } }

/-- The second `if (status == E_EEPROM_XMC4_STATUS_OK)` block of
`E_EEPROM_XMC4_UpdateFlashContents`: the cycle counter is incremented, the block is
written, `flash_data_addr` follows the cursor when the write succeeded, and the cursor
moves on. -/
def updateWrite (d : Device) (o : Outcomes) (s : State) : E_EEPROM_XMC4_STATUS_t × State :=
  let s2 : State := { s with e_eeprom_xmc4_data_buffer := { s.e_eeprom_xmc4_data_buffer with
    block_cycle_count := (s.e_eeprom_xmc4_data_buffer.block_cycle_count + 1) % U32 } }
  let r2 := E_EEPROM_XMC4_lWriteToFlash d o s2
  let s3 : State :=
    if r2.1 = OK then
      { r2.2 with e_eeprom_xmc4_sector_info := { r2.2.e_eeprom_xmc4_sector_info with
          flash_data_addr := r2.2.e_eeprom_xmc4_sector_info.next_free_start_addr } }
    else r2.2
  (r2.1, advanceCursor d s3)

/-- The state handed to the erase state machine when all sectors are found filled:
`current_sector` is taken from `flash_data_addr` by mask and shift, and all four
sectors are marked. -/
def markAllFilled (s : State) : State :=
  { s with e_eeprom_xmc4_sector_info := { s.e_eeprom_xmc4_sector_info with
      current_sector := (s.e_eeprom_xmc4_sector_info.flash_data_addr
        &&& E_EEPROM_XMC4_SECTOR_POSITION_MASK) >>> E_EEPROM_XMC4_SECTOR_POSITION
      erase_state := E_EEPROM_XMC4_ALL_SECTORS_FILLED } }

/-- The test of the first `if` of `E_EEPROM_XMC4_UpdateFlashContents`: the cursor is
at the start of the active sector and the mirror's cycle counter is not zero. -/
def ringFilled (d : Device) (s : State) : Prop :=
  s.e_eeprom_xmc4_sector_info.next_free_start_addr
      = (E_EEPROM_XMC4_SECTOR0_START_ADDR d
          + (E_EEPROM_XMC4_SECTOR_SIZE * s.e_eeprom_xmc4_sector_info.current_sector) % U32) % U32
    ∧ s.e_eeprom_xmc4_data_buffer.block_cycle_count ≠ 0

instance (d : Device) (s : State) : Decidable (ringFilled d s) := by
  unfold ringFilled; exact inferInstance

/-- Function `E_EEPROM_XMC4_UpdateFlashContents`. -/
def E_EEPROM_XMC4_UpdateFlashContents (d : Device) (o : Outcomes) (s : State) :
    E_EEPROM_XMC4_STATUS_t × State :=
  let r1 : E_EEPROM_XMC4_STATUS_t × State :=
    if ringFilled d s then E_EEPROM_XMC4_lInitEraseStateMachine d o (markAllFilled s)
    else (OK, s)
  if r1.1 = OK then updateWrite d o r1.2 else r1

/-- Function `E_EEPROM_XMC4_IsFlashEmpty`. -/
def E_EEPROM_XMC4_IsFlashEmpty (s : State) : Bool :=
  if s.e_eeprom_xmc4_sector_info.flash_data_addr = 0 then true else false

/-! ## Blocks of the ring -/


/-- Address of block `i` of the ring (`i < 8`); blocks `2k` and `2k+1` make sector `k`. -/
def blockAddr (d : Device) (i : Nat) : Nat :=
  E_EEPROM_XMC4_SECTOR0_START_ADDR d + E_EEPROM_XMC4_ACTUAL_FLASH_BLOCK_SIZE * i

/-- The cycle counter stored in the block at `a`. -/
def cycleCount (mem : Nat → Nat) (a : Nat) : Nat := readWord mem (a + 4)

/-- The stored checksum of the block at `a` equals the checksum computed over the
rest of the block. -/
def crcOk (d : Device) (mem : Nat → Nat) (a : Nat) : Prop :=
  E_EEPROM_XMC4_lCalculateCRC d mem (a + 4) = readWord mem a

instance (d : Device) (mem : Nat → Nat) (a : Nat) : Decidable (crcOk d mem a) := by
  unfold crcOk; exact inferInstance

/-- A block the scan can take: written (non-zero cycle counter) and with a matching
checksum. -/
def validBlock (d : Device) (mem : Nat → Nat) (a : Nat) : Prop :=
  cycleCount mem a ≠ 0 ∧ crcOk d mem a

instance (d : Device) (mem : Nat → Nat) (a : Nat) : Decidable (validBlock d mem a) := by
  unfold validBlock; exact inferInstance

/-- What one call of `E_EEPROM_XMC4_lInitReadSectorInfo` leaves, written out for the
two blocks of the sector. -/
def scanned (d : Device) (sector : Nat) (s : State) : State :=
  let lo := blockAddr d (2 * sector)
  let hi := blockAddr d (2 * sector + 1)
  let b := s.e_eeprom_xmc4_data_buffer.block_cycle_count
  if cycleCount s.hw.mem hi ≠ 0 then
    if crcOk d s.hw.mem hi ∧ cycleCount s.hw.mem hi > b then
      adoptBlock sector hi (8192 + hi) (cycleCount s.hw.mem hi) (markSector sector s)
    else if cycleCount s.hw.mem lo ≠ 0 then
      if crcOk d s.hw.mem lo ∧ cycleCount s.hw.mem lo > b then
        adoptBlock sector lo (8192 + hi) (cycleCount s.hw.mem lo)
          (markSector sector (markSector sector s))
      else markSector sector (markSector sector s)
    else markSector sector s
  else if cycleCount s.hw.mem lo ≠ 0 then
    if crcOk d s.hw.mem lo ∧ cycleCount s.hw.mem lo > b then
      adoptBlock sector lo (8192 + lo) (cycleCount s.hw.mem lo) (markSector sector s)
    else markSector sector s
  else s

/-- The mirror's cycle counter. -/
abbrev State.bcc (s : State) : Nat := s.e_eeprom_xmc4_data_buffer.block_cycle_count

/-- The address of the latest block (`flash_data_addr`). -/
abbrev State.fda (s : State) : Nat := s.e_eeprom_xmc4_sector_info.flash_data_addr

/-- The write cursor (`next_free_start_addr`). -/
abbrev State.nf (s : State) : Nat := s.e_eeprom_xmc4_sector_info.next_free_start_addr

/-- The active sector (`current_sector`). -/
abbrev State.cs (s : State) : Nat := s.e_eeprom_xmc4_sector_info.current_sector

/-- The dirty mask (`erase_state`). -/
abbrev State.es (s : State) : Nat := s.e_eeprom_xmc4_sector_info.erase_state

/-- What the scan guarantees on every flash image once it has gone through the
sectors below `k`: nothing has been taken yet, or the latest block is a written block
of those sectors with a matching checksum, its counter is the mirror's, its sector is
the active one and the cursor is the block after the highest written block met in
that sector. -/
def ScanBasic (d : Device) (mem : Nat → Nat) (k : Nat) (s : State) : Prop :=
  s.hw.mem = mem ∧
  ((s.fda = 0 ∧ s.bcc = 0) ∨
    ∃ j, j < 2 * k ∧ s.fda = blockAddr d j ∧ validBlock d mem (blockAddr d j)
      ∧ cycleCount mem (blockAddr d j) = s.bcc ∧ s.cs = j / 2
      ∧ (s.nf = blockAddr d (2 * (j / 2) + 2)
          ∨ (j = 2 * (j / 2) ∧ cycleCount mem (blockAddr d (j + 1)) = 0 ∧ s.nf = blockAddr d (j + 1))))

/-- Append-only image: in every sector, when both blocks are written with matching
checksums the cycle counter of the lower block is smaller than that of the upper. -/
def appendOnly (d : Device) (mem : Nat → Nat) : Prop :=
  ∀ k, k < 4 → validBlock d mem (blockAddr d (2 * k)) → validBlock d mem (blockAddr d (2 * k + 1)) →
    cycleCount mem (blockAddr d (2 * k)) < cycleCount mem (blockAddr d (2 * k + 1))

instance (d : Device) (mem : Nat → Nat) : Decidable (appendOnly d mem) := by
  unfold appendOnly; exact inferInstance

/-- On an append-only image, after the sectors below `k`: the mirror's counter bounds
the counter of every valid block of those sectors, and no valid block with that
counter lies in a sector below the active one. -/
def ScanMax (d : Device) (mem : Nat → Nat) (k : Nat) (s : State) : Prop :=
  (∀ i, i < 2 * k → validBlock d mem (blockAddr d i) → cycleCount mem (blockAddr d i) ≤ s.bcc) ∧
  (∀ i, i < 2 * k → validBlock d mem (blockAddr d i) → cycleCount mem (blockAddr d i) = s.bcc →
    s.cs ≤ i / 2)

attribute [irreducible] E_EEPROM_XMC4_lCalculateCRC blockAddr

/-- The state after the four sector scans of `E_EEPROM_XMC4_Init`. -/
def scannedAll (d : Device) (len : Nat) (s : State) : State :=
  scanned d 3 (scanned d 2 (scanned d 1 (scanned d 0 (scanStart len s))))

/-- A device for concrete runs: the XMC4500 flash window, and the sum of the bytes as
a stand-in for the CRC kernel. -/
def sumDevice : Device :=
  { XMC_FLASH_UNCACHED_BASE := 0x0C000000
    XMC_FCE_CalculateCRC32 := fun bs => bs.foldl (fun a b => a + b) 0 }

/-- Outcomes of a flash module on which every command verifies. -/
def allOk : Outcomes :=
  { eraseOk := fun _ => true, verifyOk := fun _ => true, junk := fun _ => 0 }

/-- A flash image with one written block: block 0 of the ring carries cycle counter 1
and checksum 1 (its checksum under `sumDevice`), everything else is erased. -/
def oneBlockImage : Nat → Nat :=
  fun a => if a = 0x0C010000 ∨ a = 0x0C010004 then 1 else 0

/-- A call of the API that changes the state after initialisation. -/
inductive Action where
  | writeByte (offset_address value : Nat)
  | writeArray (offset_address : Nat) (data : Nat → Nat) (length : Nat)
  | persist (o : Outcomes)

/-- The state after one call. -/
def step (d : Device) (a : Action) (s : State) : State :=
  match a with
  | Action.writeByte off v => (E_EEPROM_XMC4_WriteByte off v s).2
  | Action.writeArray off data n => (E_EEPROM_XMC4_WriteArray off data n s).2
  | Action.persist o => (E_EEPROM_XMC4_UpdateFlashContents d o s).2

/-- The state after a sequence of calls. -/
def run (d : Device) : List Action → State → State
  | [], s => s
  | a :: as, s => run d as (step d a s)

/-- The status returned by, and the state left by, each `E_EEPROM_XMC4_UpdateFlashContents`
of a sequence of calls, in order. -/
def persists (d : Device) : List Action → State → List (E_EEPROM_XMC4_STATUS_t × State)
  | [], _ => []
  | Action.persist o :: as, s =>
    E_EEPROM_XMC4_UpdateFlashContents d o s :: persists d as (E_EEPROM_XMC4_UpdateFlashContents d o s).2
  | a :: as, s => persists d as (step d a s)

/-- Outcomes of a flash module on which every erase verifies and every page program
verifies except that of page `k`, which is left as it was found erased. -/
def failAt (k : Nat) : Outcomes :=
  { eraseOk := fun _ => true, verifyOk := fun j => decide (j ≠ k), junk := fun _ => 0 }

/-- Erased ring: the cycle counter of each of the eight blocks is zero. -/
def erasedRing (d : Device) (mem : Nat → Nat) : Prop :=
  ∀ i, i < 8 → cycleCount mem (blockAddr d i) = 0

instance (d : Device) (mem : Nat → Nat) : Decidable (erasedRing d mem) := by
  unfold erasedRing; exact inferInstance

/-- The state `E_EEPROM_XMC4_Init` leaves on an erased ring. -/
def freshState (d : Device) (len : Nat) (flash : Nat → Nat) : State :=
  { e_eeprom_xmc4_data_buffer := { crc := 0, block_cycle_count := 0, eeprom_data := fun _ => 0, len := len }
    e_eeprom_xmc4_sector_info :=
      { next_free_start_addr := E_EEPROM_XMC4_SECTOR0_START_ADDR d, flash_data_addr := 0,
        current_sector := 0, erase_state := 0 }
    initialized := true
    hw := { mem := flash, ops := [] } }

/-- A short client session: a persist, a change of the first payload byte, a second
persist; every flash command verifies. -/
def twoPersists : List Action :=
  [Action.persist allOk, Action.writeByte 0 7, Action.persist allOk]

/-- The cursor is one of the eight block addresses of the ring. -/
def inRing (d : Device) (s : State) : Prop :=
  ∃ p, p < 8 ∧ s.nf = blockAddr d p

/-- The bookkeeping after `n` successful persists on a ring that was erased at
initialisation, for `n ≤ 9`: the cursor is block `n mod 8`, the latest block is block
`(n-1) mod 8`, the active sector is 0 until the ninth persist finds all sectors filled
and takes sector 3, and that persist has sent an erase command for sector 0. -/
def RingAt (d : Device) (n : Nat) (s : State) : Prop :=
  s.nf = blockAddr d (n % 8) ∧ s.bcc = n ∧
  (n = 0 → s.fda = 0) ∧ (0 < n → s.fda = blockAddr d ((n - 1) % 8)) ∧
  s.cs = (if n = 9 then 3 else 0) ∧
  (n < 9 → ∀ a, FlashOp.erase a ∉ s.hw.ops) ∧
  (n = 9 → FlashOp.erase (blockAddr d 0) ∈ s.hw.ops)

/-- Nine persists in a row on a flash module on which every command verifies. -/
def ninePersists : List Action :=
  List.replicate 9 (Action.persist allOk)

/-- Two memories hold the same bytes in the block at `a`. -/
def sameBlock (mem1 mem2 : Nat → Nat) (a : Nat) : Prop :=
  ∀ x, a ≤ x → x < a + 8192 → mem1 x = mem2 x

/-- The sector with number `m` is dirty in the mask `es` (the test made by the erase
state machine). -/
def dirty (es m : Nat) : Prop := (es >>> m) &&& 1 ≠ 0

instance (es m : Nat) : Decidable (dirty es m) := by
  unfold dirty; exact inferInstance

/-- The byte address `a` lies in sector `m` of the ring. -/
def inSector (d : Device) (m a : Nat) : Prop :=
  blockAddr d (2 * m) ≤ a ∧ a < blockAddr d (2 * m) + E_EEPROM_XMC4_SECTOR_SIZE

instance (d : Device) (m a : Nat) : Decidable (inSector d m a) := by
  unfold inSector; exact inferInstance

/-- The dirty mask once the scan has gone through the sectors below `k` from an
all-clear mask: no bit from `k` on is set, and a sector below `k` is dirty exactly when
one of its two blocks has a non-zero cycle counter. -/
def ScanDirty (d : Device) (mem : Nat → Nat) (k : Nat) (s : State) : Prop :=
  s.es < 2 ^ k ∧
  ∀ m, m < k → (dirty s.es m ↔
    (cycleCount mem (blockAddr d (2 * m)) ≠ 0 ∨ cycleCount mem (blockAddr d (2 * m + 1)) ≠ 0))

/-- The latest record of a settled ring: `flash_data_addr` is block `q`, that block is
valid and carries the mirror's cycle counter, every other valid block of the ring has
a smaller counter, and the cursor `p` is the block after `q`, or the first block of the
next sector when `q` is the first block of the active sector and the block above it
is not empty. -/
def Recorded (d : Device) (s : State) (p q : Nat) : Prop :=
  q < 8 ∧ s.fda = blockAddr d q ∧ validBlock d s.hw.mem (blockAddr d q) ∧
  cycleCount s.hw.mem (blockAddr d q) = s.bcc ∧
  (∀ i, i < 8 → i ≠ q → validBlock d s.hw.mem (blockAddr d i) →
    cycleCount s.hw.mem (blockAddr d i) < s.bcc) ∧
  (p = (q + 1) % 8 ∨ (q = 2 * s.cs ∧ p = (q + 2) % 8))

/-- The state of the driver and the flash after an initialisation whose erases
verified and any number of successful persists: the image is append-only, the cursor
is a block `p` of the ring, the blocks from the cursor up to the start of the active
sector (going round the ring) are empty, and either nothing has been recorded and the
ring is erased, or there is a latest record as in `Recorded`. -/
def Settled (d : Device) (s : State) : Prop :=
  appendOnly d s.hw.mem ∧ s.cs < 4 ∧
  ∃ p, p < 8 ∧ s.nf = blockAddr d p ∧
    (∀ j, j < (2 * s.cs + 8 - p) % 8 → cycleCount s.hw.mem (blockAddr d ((p + j) % 8)) = 0) ∧
    ((s.bcc = 0 ∧ s.fda = 0 ∧ p = 0 ∧ s.cs = 0 ∧ erasedRing d s.hw.mem) ∨
     (s.bcc ≠ 0 ∧ ∃ q, Recorded d s p q))

/-- The status and the state `E_EEPROM_XMC4_Init` leaves when it is called after reset
on the flash image `flash` with a record length `len` within the buffer size. -/
def booted (d : Device) (o : Outcomes) (len : Nat) (flash : Nat → Nat) :
    E_EEPROM_XMC4_STATUS_t × State :=
  initFinish d o OK (scannedAll d len (powerOn flash))

/-- A flash image whose sector 3 holds two blocks with matching checksums (under
`sumDevice`) in the wrong order of age: the lower block (at `0x0C01C000`) carries cycle
counter 100 and first payload byte 9, the upper block (at `0x0C01E000`) carries cycle
counter 3 and a zero payload.  Everything else is erased. -/
def staleImage : Nat → Nat :=
  fun a =>
    if a = 0x0C01C000 then 109
    else if a = 0x0C01C004 then 100
    else if a = 0x0C01C008 then 9
    else if a = 0x0C01E000 ∨ a = 0x0C01E004 then 3
    else 0

/-- The flash of `s` with the lowest bit of the first byte of the stored checksum of
the latest block inverted. -/
def flipChecksum (s : State) : Nat → Nat :=
  fun a =>
    if a = s.fda then (if s.hw.mem a % 2 = 0 then s.hw.mem a + 1 else s.hw.mem a - 1)
    else s.hw.mem a

/-- The sectors among `k, ..., k + n - 1`, in ascending order, that are marked in
`erase_state` and are not `current_sector`: the sectors an erase state machine run
that meets no error erases once it stands at sector `k` with `n` sectors to go. -/
def sectorsToErase (s : State) (k n : Nat) : List Nat :=
  (List.range' k n).filter (fun m => decide (m ≠ s.cs ∧ dirty s.es m))

/-- The state a persist hands to the erase state machine when it finds the ring
filled right after initialisation on an erased ring: all four sectors marked, sector 0
active. -/
def markedState : State :=
  markAllFilled (freshState sumDevice 16 (fun _ => 0))

/-- Outcomes of a flash module on which the erase of sector `k` does not verify and
every other command does. -/
def eraseFailsAt (k : Nat) : Outcomes :=
  { eraseOk := fun m => decide (m ≠ k), verifyOk := fun _ => true, junk := fun _ => 0 }

/-- The state after initialisation on an erased ring and eight persists whose first
page program does not verify: the cursor is back at the start of the active sector 0
and the cycle counter is 8. -/
def wrappedState : State :=
  run sumDevice (List.replicate 8 (Action.persist (failAt 0))) (freshState sumDevice 16 (fun _ => 0))

/-- A flash image with one written block that does not pass the checksum test: block 0
of the ring carries cycle counter 5 and a stored checksum of 0; everything else is
erased. -/
def garbageImage : Nat → Nat :=
  fun a => if a = 0x0C010004 then 5 else 0

/-- Three persists in a row on a flash module on which every command verifies. -/
def threePersists : List Action :=
  List.replicate 3 (Action.persist allOk)

/-- The three tests a block at `a` passes to be taken by the sector scan in the state
`s`: non-zero cycle counter, matching checksum, cycle counter above the mirror's. -/
def adoptable (d : Device) (s : State) (a : Nat) : Prop :=
  cycleCount s.hw.mem a ≠ 0 ∧ crcOk d s.hw.mem a ∧ cycleCount s.hw.mem a > s.bcc

instance (d : Device) (s : State) (a : Nat) : Decidable (adoptable d s a) := by
  unfold adoptable; exact inferInstance

/-- A flash image in which the upper block of sector 0 is written but does not pass the
checksum test (cycle counter 5, stored checksum 0) above a valid lower block (cycle
counter 1, checksum 1 under `sumDevice`); everything else is erased. -/
def shadowedImage : Nat → Nat :=
  fun a => if a = 0x0C010000 ∨ a = 0x0C010004 then 1 else if a = 0x0C012004 then 5 else 0

/-- Eight persists in a row on a flash module on which every command verifies. -/
def eightPersists : List Action :=
  List.replicate 8 (Action.persist allOk)

/-- The number of persists in a row that have ended in `WRITE_ERROR` when a sequence
of calls is over, `c` being that number before the sequence: a persist that returns
`OK` sets it to 0, a persist that returns `WRITE_ERROR` adds 1, and a persist that
returns `ERASE_ERROR` (no write was tried) and the writes to the mirror leave it. -/
def writeErrorRun (d : Device) : List Action → State → Nat → Nat
  | [], _, c => c
  | Action.persist o :: as, s, c =>
    writeErrorRun d as (E_EEPROM_XMC4_UpdateFlashContents d o s).2
      (if (E_EEPROM_XMC4_UpdateFlashContents d o s).1 = OK then 0
        else if (E_EEPROM_XMC4_UpdateFlashContents d o s).1 = WRITE_ERROR then c + 1 else c)
  | Action.writeByte off v :: as, s, c => writeErrorRun d as (E_EEPROM_XMC4_WriteByte off v s).2 c
  | Action.writeArray off data n :: as, s, c =>
    writeErrorRun d as (E_EEPROM_XMC4_WriteArray off data n s).2 c

/-- The cursor is a block of the ring and, when there is a latest block, it is `c + 1`
blocks ahead of it, going round the ring of eight blocks. -/
def Ahead (d : Device) (s : State) (c : Nat) : Prop :=
  ∃ p, p < 8 ∧ s.nf = blockAddr d p ∧
    (s.fda = 0 ∨ ∃ q, q < 8 ∧ s.fda = blockAddr d q ∧ p = (q + c + 1) % 8)

/-- A persist that verifies followed by seven persists whose first page program does
not verify. -/
def sevenWriteErrors : List Action :=
  Action.persist allOk :: List.replicate 7 (Action.persist (failAt 0))

/-- The count of write errors a run of calls starts from in the state `s` an
initialisation leaves: 1 when there is a latest block and the cursor is not the block
after it (it is then the first block of the next sector, two blocks on), 0 otherwise.
The block after the latest block is what `advanceCursor` gives from a cursor on it. -/
def startErrors (d : Device) (s : State) : Nat :=
  if s.fda ≠ 0 ∧ s.nf ≠ (advanceCursor d { s with e_eeprom_xmc4_sector_info :=
      { s.e_eeprom_xmc4_sector_info with next_free_start_addr := s.fda } }).nf
  then 1 else 0

/-- Six persists whose first page program does not verify. -/
def sixWriteErrors : List Action :=
  List.replicate 6 (Action.persist (failAt 0))

/-- A persist that verifies followed by eight persists whose first page program does
not verify. -/
def eightWriteErrors : List Action :=
  Action.persist allOk :: List.replicate 8 (Action.persist (failAt 0))

/-- The cursor comes round to the latest block.  On the byte-sum device, after an
initialisation on an erased ring that returns `OK`, a persist returns `OK` and records
block 0; seven persists whose first page program does not verify return `WRITE_ERROR`
and bring the cursor back to block 0, which is still `flash_data_addr`; the persist
that follows, with every command verifying, sends a program command for that
address. -/
theorem sevenWriteErrors_on_latest :
    (booted sumDevice allOk 16 (fun _ => 0)).1 = OK ∧
      (persists sumDevice sevenWriteErrors (booted sumDevice allOk 16 (fun _ => 0)).2).map
          (fun r => r.1)
        = [OK, WRITE_ERROR, WRITE_ERROR, WRITE_ERROR, WRITE_ERROR, WRITE_ERROR, WRITE_ERROR,
            WRITE_ERROR] ∧
      writeErrorRun sumDevice sevenWriteErrors (booted sumDevice allOk 16 (fun _ => 0)).2
        (startErrors sumDevice (booted sumDevice allOk 16 (fun _ => 0)).2) = 7 ∧
      (run sumDevice sevenWriteErrors (booted sumDevice allOk 16 (fun _ => 0)).2).fda
        = E_EEPROM_XMC4_SECTOR0_START_ADDR sumDevice ∧
      (run sumDevice sevenWriteErrors (booted sumDevice allOk 16 (fun _ => 0)).2).nf
        = (run sumDevice sevenWriteErrors (booted sumDevice allOk 16 (fun _ => 0)).2).fda ∧
      FlashOp.program (run sumDevice sevenWriteErrors (booted sumDevice allOk 16 (fun _ => 0)).2).fda
        ∈ ((E_EEPROM_XMC4_UpdateFlashContents sumDevice allOk
            (run sumDevice sevenWriteErrors (booted sumDevice allOk 16 (fun _ => 0)).2)).2.hw.ops.drop
          (run sumDevice sevenWriteErrors (booted sumDevice allOk 16 (fun _ => 0)).2).hw.ops.length) := by
  decide!

/-- The cursor comes round to the latest block after a start two blocks ahead.  On the
byte-sum device the initialisation on `shadowedImage` returns `ERROR_OLD_DATA` with
block 0 as the latest block and the cursor on block 2; six persists whose first page
program does not verify bring the cursor back to block 0, and the persist that follows
sends a program command for `flash_data_addr`. -/
theorem shadowed_sixWriteErrors_on_latest :
    (booted sumDevice allOk 16 shadowedImage).1 = ERROR_OLD_DATA ∧
      (booted sumDevice allOk 16 shadowedImage).2.fda = E_EEPROM_XMC4_SECTOR0_START_ADDR sumDevice ∧
      (booted sumDevice allOk 16 shadowedImage).2.nf = E_EEPROM_XMC4_SECTOR1_START_ADDR sumDevice ∧
      (persists sumDevice sixWriteErrors (booted sumDevice allOk 16 shadowedImage).2).map
          (fun r => r.1)
        = [WRITE_ERROR, WRITE_ERROR, WRITE_ERROR, WRITE_ERROR, WRITE_ERROR, WRITE_ERROR] ∧
      writeErrorRun sumDevice sixWriteErrors (booted sumDevice allOk 16 shadowedImage).2
        (startErrors sumDevice (booted sumDevice allOk 16 shadowedImage).2) = 7 ∧
      (run sumDevice sixWriteErrors (booted sumDevice allOk 16 shadowedImage).2).fda
        = E_EEPROM_XMC4_SECTOR0_START_ADDR sumDevice ∧
      (run sumDevice sixWriteErrors (booted sumDevice allOk 16 shadowedImage).2).nf
        = (run sumDevice sixWriteErrors (booted sumDevice allOk 16 shadowedImage).2).fda ∧
      FlashOp.program (run sumDevice sixWriteErrors (booted sumDevice allOk 16 shadowedImage).2).fda
        ∈ ((E_EEPROM_XMC4_UpdateFlashContents sumDevice allOk
            (run sumDevice sixWriteErrors (booted sumDevice allOk 16 shadowedImage).2)).2.hw.ops.drop
          (run sumDevice sixWriteErrors (booted sumDevice allOk 16 shadowedImage).2).hw.ops.length) := by
  decide!

/-- The initialisation on `shadowedImage` returns `ERROR_OLD_DATA` and starts the count
of write errors at 1: after five persists whose first page program does not verify it
is 6. -/
theorem shadowed_fiveWriteErrors :
    (booted sumDevice allOk 16 shadowedImage).1 = ERROR_OLD_DATA ∧
    writeErrorRun sumDevice (List.replicate 5 (Action.persist (failAt 0)))
      (booted sumDevice allOk 16 shadowedImage).2
      (startErrors sumDevice (booted sumDevice allOk 16 shadowedImage).2) = 6 := by
  decide!

theorem base_lt {d : Device} (hd : d.placed) : d.XMC_FLASH_UNCACHED_BASE + 131072 < 4294967296 := by
  obtain ⟨_, h2⟩ := hd
  simp only [U32] at h2
  omega

theorem sector0_eq {d : Device} (hd : d.placed) :
    E_EEPROM_XMC4_SECTOR0_START_ADDR d = d.XMC_FLASH_UNCACHED_BASE + 0x10000 := by
  have h2 := base_lt hd
  simp only [E_EEPROM_XMC4_SECTOR0_START_ADDR, U32]
  omega

theorem sector4_eq {d : Device} (hd : d.placed) :
    E_EEPROM_XMC4_SECTOR4_START_ADDR d = d.XMC_FLASH_UNCACHED_BASE + 0x20000 := by
  have h2 := base_lt hd
  simp only [E_EEPROM_XMC4_SECTOR4_START_ADDR, U32]
  omega

theorem blockAddr_eq {d : Device} (hd : d.placed) (i : Nat) :
    blockAddr d i = d.XMC_FLASH_UNCACHED_BASE + 0x10000 + 8192 * i := by
  simp only [blockAddr, sector0_eq hd, E_EEPROM_XMC4_ACTUAL_FLASH_BLOCK_SIZE]

theorem sectorStart_eq {d : Device} (hd : d.placed) (k : Nat) (hk : k < 4) :
    (E_EEPROM_XMC4_SECTOR0_START_ADDR d + (E_EEPROM_XMC4_SECTOR_SIZE * k) % U32) % U32
      = blockAddr d (2 * k) := by
  have h2 := base_lt hd
  simp only [blockAddr_eq hd, sector0_eq hd, U32, E_EEPROM_XMC4_SECTOR_SIZE]
  omega

@[simp] theorem markSector_hw (k : Nat) (s : State) : (markSector k s).hw = s.hw := rfl

@[simp] theorem markSector_buf (k : Nat) (s : State) :
    (markSector k s).e_eeprom_xmc4_data_buffer = s.e_eeprom_xmc4_data_buffer := rfl

@[simp] theorem markSector_initialized (k : Nat) (s : State) :
    (markSector k s).initialized = s.initialized := rfl

theorem markSector_idem (k : Nat) (s : State) : markSector k (markSector k s) = markSector k s := by
  simp only [markSector, Nat.or_assoc, Nat.or_self]

/-- With a placed flash window the loop of the sector scan ends after its two
blocks, for every bound of at least two iterations. -/
theorem readSector_eq {d : Device} (hd : d.placed) (n sector : Nat) (hk : sector < 4) (s : State) :
    E_EEPROM_XMC4_lInitReadSectorInfo d (n + 2) sector s = some (scanned d sector s) := by
  have hb := blockAddr_eq hd
  have h2 := base_lt hd
  have e1 := sectorStart_eq hd sector hk
  have e2 : (U32 - E_EEPROM_XMC4_ACTUAL_FLASH_BLOCK_SIZE
      + (E_EEPROM_XMC4_SECTOR_SIZE + blockAddr d (2 * sector)) % U32) % U32
      = blockAddr d (2 * sector + 1) := by
    simp only [hb, U32, E_EEPROM_XMC4_SECTOR_SIZE, E_EEPROM_XMC4_ACTUAL_FLASH_BLOCK_SIZE]
    omega
  have e3 : (U32 - E_EEPROM_XMC4_ACTUAL_FLASH_BLOCK_SIZE + blockAddr d (2 * sector + 1)) % U32
      = blockAddr d (2 * sector) := by
    simp only [hb, U32, E_EEPROM_XMC4_ACTUAL_FLASH_BLOCK_SIZE]
    omega
  have e4 : ¬ (blockAddr d (2 * sector)
      ≤ (U32 - E_EEPROM_XMC4_ACTUAL_FLASH_BLOCK_SIZE + blockAddr d (2 * sector)) % U32) := by
    simp only [hb, U32, E_EEPROM_XMC4_ACTUAL_FLASH_BLOCK_SIZE]
    omega
  have e5 : (E_EEPROM_XMC4_ACTUAL_FLASH_BLOCK_SIZE + blockAddr d (2 * sector + 1)) % U32
      = 8192 + blockAddr d (2 * sector + 1) := by
    simp only [hb, U32, E_EEPROM_XMC4_ACTUAL_FLASH_BLOCK_SIZE]
    omega
  have e6 : (E_EEPROM_XMC4_ACTUAL_FLASH_BLOCK_SIZE + blockAddr d (2 * sector)) % U32
      = 8192 + blockAddr d (2 * sector) := by
    simp only [hb, U32, E_EEPROM_XMC4_ACTUAL_FLASH_BLOCK_SIZE]
    omega
  have e7 : 8192 + blockAddr d (2 * sector + 1) ≠ 0 := by
    omega
  have e8 : blockAddr d (2 * sector) ≤ blockAddr d (2 * sector + 1) := by
    simp only [hb]; omega
  unfold E_EEPROM_XMC4_lInitReadSectorInfo
  simp only [e1, e2]
  unfold scanLoop
  simp only [e3, e5, e8, E_EEPROM_XMC4_BCC_OFFSET, E_EEPROM_XMC4_EMPTY, Nat.mul_one, if_true, ge_iff_le]
  unfold scanLoop
  simp only [e4, e6, e7, E_EEPROM_XMC4_BCC_OFFSET, E_EEPROM_XMC4_EMPTY, Nat.mul_one, if_true, if_false,
    ge_iff_le, markSector_hw, markSector_buf, scanned, cycleCount, crcOk, le_refl]
  split_ifs <;> rfl

/-- The sector loop of `E_EEPROM_XMC4_Init` with enough fuel. -/
theorem scanSectors_eq {d : Device} (hd : d.placed) (n : Nat) (s : State) :
    scanSectors d (n + 2) 4 0 s
      = some (scanned d 3 (scanned d 2 (scanned d 1 (scanned d 0 s)))) := by
  simp only [scanSectors, readSector_eq hd n _ (by decide : (0:Nat) < 4),
    readSector_eq hd n _ (by decide : (0 + 1 : Nat) < 4),
    readSector_eq hd n _ (by decide : (0 + 1 + 1 : Nat) < 4),
    readSector_eq hd n _ (by decide : (0 + 1 + 1 + 1 : Nat) < 4)]

theorem scanned_hw (d : Device) (k : Nat) (s : State) : (scanned d k s).hw = s.hw := by
  unfold scanned
  simp only []
  split_ifs <;> rfl

theorem scanBasic_step {d : Device} {mem : Nat → Nat} {k : Nat} {s : State}
    (h : ScanBasic d mem k s) : ScanBasic d mem (k + 1) (scanned d k s) := by
  obtain ⟨hm, hl⟩ := h
  refine ⟨by rw [scanned_hw]; exact hm, ?_⟩
  have hold : (s.fda = 0 ∧ s.bcc = 0) ∨
    ∃ j, j < 2 * (k + 1) ∧ s.fda = blockAddr d j ∧ validBlock d mem (blockAddr d j)
      ∧ cycleCount mem (blockAddr d j) = s.bcc ∧ s.cs = j / 2
      ∧ (s.nf = blockAddr d (2 * (j / 2) + 2)
          ∨ (j = 2 * (j / 2) ∧ cycleCount mem (blockAddr d (j + 1)) = 0 ∧ s.nf = blockAddr d (j + 1))) := by
    rcases hl with hl | ⟨j, hj, rest⟩
    · exact Or.inl hl
    · exact Or.inr ⟨j, by omega, rest⟩
  have hdiv1 : (2 * k + 1) / 2 = k := by omega
  have hdiv0 : (2 * k) / 2 = k := by omega
  unfold scanned
  simp only [hm]
  split_ifs with h1 h2 h3 h4 h5 h6
  · refine Or.inr ⟨2 * k + 1, by omega, rfl, ⟨h1, h2.1⟩, rfl, ?_, Or.inl ?_⟩
    · simp only [adoptBlock, State.cs, hdiv1]
    · simp only [adoptBlock, State.nf, hdiv1, blockAddr, E_EEPROM_XMC4_ACTUAL_FLASH_BLOCK_SIZE]; omega
  · refine Or.inr ⟨2 * k, by omega, rfl, ⟨h3, h4.1⟩, rfl, ?_, Or.inl ?_⟩
    · simp only [adoptBlock, State.cs, hdiv0]
    · simp only [adoptBlock, State.nf, hdiv0, blockAddr, E_EEPROM_XMC4_ACTUAL_FLASH_BLOCK_SIZE]; omega
  · exact hold
  · exact hold
  · refine Or.inr ⟨2 * k, by omega, rfl, ⟨h5, h6.1⟩, rfl, ?_, Or.inr ⟨by omega, ?_, ?_⟩⟩
    · simp only [adoptBlock, State.cs, hdiv0]
    · simpa using h1
    · simp only [adoptBlock, State.nf, blockAddr, E_EEPROM_XMC4_ACTUAL_FLASH_BLOCK_SIZE]; omega
  · exact hold
  · exact hold

theorem scanMax_step {d : Device} {mem : Nat → Nat} {k : Nat} {s : State} (hk : k < 4)
    (happ : appendOnly d mem) (hb : ScanBasic d mem k s) (h : ScanMax d mem k s) :
    ScanMax d mem (k + 1) (scanned d k s) := by
  obtain ⟨hm, hl⟩ := hb
  obtain ⟨hmax, htie⟩ := h
  have happk := happ k hk
  have hcs : s.bcc ≠ 0 → s.cs < k := by
    intro hne
    rcases hl with hl | ⟨j, hj, _, _, _, hcs, _⟩
    · exact absurd hl.2 hne
    · rw [hcs]; omega
  have hdiv1 : (2 * k + 1) / 2 = k := by omega
  have hdiv0 : (2 * k) / 2 = k := by omega
  have hcase : ∀ i, i < 2 * (k + 1) → i < 2 * k ∨ i = 2 * k ∨ i = 2 * k + 1 := by
    intro i hi; omega
  simp only [validBlock] at happk
  unfold scanned
  simp only [hm]
  by_cases hch : crcOk d mem (blockAddr d (2 * k + 1)) <;>
  by_cases hcl : crcOk d mem (blockAddr d (2 * k)) <;>
  simp only [hch, hcl, true_and, false_and, and_true, and_false, if_false, imp_false,
    false_implies, true_implies] at happk ⊢ <;>
  split_ifs
  all_goals
    refine ⟨?_, ?_⟩
    all_goals
      intro i hi hv
      have hmi := hmax i
      have hti := htie i
      rcases hcase i hi with hi | hi | hi
  all_goals simp only [adoptBlock, markSector, State.bcc, State.cs] at hv hmi hti hcs ⊢
  all_goals first
    | (have h1 := hmi hi hv; have h2 := hti hi hv; omega)
    | (subst hi; exact (hch hv.2).elim)
    | (subst hi; exact (hcl hv.2).elim)
    | (subst hi; have h1 := hv.1; omega)

theorem initScan_eq {d : Device} (hd : d.placed) (n len : Nat) (s : State) :
    initScan d (n + 2) len s = some (OK, scannedAll d len s) := by
  simp only [initScan, E_EEPROM_XMC4_MAX_SECTORS, scanSectors_eq hd, scannedAll]

theorem scanBasic_all (d : Device) (len : Nat) (s : State) :
    ScanBasic d s.hw.mem 4 (scannedAll d len s) := by
  have h0 : ScanBasic d s.hw.mem 0 (scanStart len s) := ⟨rfl, Or.inl ⟨rfl, rfl⟩⟩
  exact scanBasic_step (scanBasic_step (scanBasic_step (scanBasic_step h0)))

theorem scanMax_all {d : Device} (len : Nat) (s : State) (happ : appendOnly d s.hw.mem) :
    ScanMax d s.hw.mem 4 (scannedAll d len s) := by
  have b0 : ScanBasic d s.hw.mem 0 (scanStart len s) := ⟨rfl, Or.inl ⟨rfl, rfl⟩⟩
  have m0 : ScanMax d s.hw.mem 0 (scanStart len s) :=
    ⟨fun i hi => absurd hi (by omega), fun i hi => absurd hi (by omega)⟩
  have b1 := scanBasic_step b0
  have b2 := scanBasic_step b1
  have b3 := scanBasic_step b2
  exact scanMax_step (by decide) happ b3 (scanMax_step (by decide) happ b2
    (scanMax_step (by decide) happ b1 (scanMax_step (by decide) happ b0 m0)))

theorem scannedAll_hw (d : Device) (len : Nat) (s : State) : (scannedAll d len s).hw = s.hw := by
  simp only [scannedAll, scanned_hw, scanStart]

theorem eraseLoop_status (d : Device) (o : Outcomes) (n k : Nat) (s : State) :
    (eraseLoop d o n k s).1 = OK ∨ (eraseLoop d o n k s).1 = ERASE_ERROR := by
  induction n generalizing k s with
  | zero => exact Or.inl rfl
  | succ n ih =>
    unfold eraseLoop
    simp only []
    split_ifs
    · exact Or.inr rfl
    · exact ih _ _
    · exact ih _ _

theorem initFinish_status (d : Device) (o : Outcomes) (s : State) :
    (initFinish d o OK s).1 ≠ ERROR_PARAM ∧ (initFinish d o OK s).1 ≠ WRITE_ERROR := by
  unfold initFinish
  simp only [if_true, E_EEPROM_XMC4_lInitEraseStateMachine]
  rcases eraseLoop_status d o E_EEPROM_XMC4_MAX_SECTORS 0 s with h | h
  · simp only [h, if_true]
    split_ifs <;> simp
  · simp only [h]
    simp

theorem initFinish_initialized (d : Device) (o : Outcomes) (st : E_EEPROM_XMC4_STATUS_t) (s : State) :
    (initFinish d o st s).2.initialized = true := by
  unfold initFinish
  simp only []
  split_ifs <;> rfl

theorem init_eq {d : Device} (hd : d.placed) (o : Outcomes) (n len : Nat) (s : State)
    (hs : s.initialized = false) (hlen : len ≤ E_EEPROM_XMC4_WORKING_BUFFER_SIZE) :
    E_EEPROM_XMC4_Init d o (n + 2) len s = some (initFinish d o OK (scannedAll d len s)) := by
  unfold E_EEPROM_XMC4_Init
  simp only [hs, if_true, initScan_eq hd, Nat.not_lt.mpr hlen, if_false]

theorem eraseLoop_frame (d : Device) (o : Outcomes) (n k : Nat) (s : State) :
    (eraseLoop d o n k s).2.e_eeprom_xmc4_data_buffer = s.e_eeprom_xmc4_data_buffer ∧
    (eraseLoop d o n k s).2.nf = s.nf ∧ (eraseLoop d o n k s).2.fda = s.fda ∧
    (eraseLoop d o n k s).2.cs = s.cs ∧ (eraseLoop d o n k s).2.initialized = s.initialized := by
  induction n generalizing k s with
  | zero => exact ⟨rfl, rfl, rfl, rfl, rfl⟩
  | succ n ih =>
    unfold eraseLoop
    simp only []
    split_ifs
    · exact ⟨rfl, rfl, rfl, rfl, rfl⟩
    · exact ih _ _
    · exact ih _ _

theorem programPages_status (o : Outcomes) (ram : Nat → Nat) (dst n k : Nat) (hw : Hw) :
    ((programPages o ram dst n k hw).1 = OK ∧ ∀ j, k ≤ j → j < k + n → o.verifyOk j = true) ∨
    ((programPages o ram dst n k hw).1 = WRITE_ERROR ∧ ∃ j, k ≤ j ∧ j < k + n ∧ o.verifyOk j = false) := by
  induction n generalizing k hw with
  | zero => exact Or.inl ⟨rfl, fun j h1 h2 => absurd h2 (by omega)⟩
  | succ n ih =>
    unfold programPages
    simp only []
    split_ifs with h
    · exact Or.inr ⟨rfl, k, le_refl _, by omega, h⟩
    · rcases ih (k + 1) _ with ⟨h1, h2⟩ | ⟨h1, j, h2, h3, h4⟩
      · refine Or.inl ⟨h1, fun j hj1 hj2 => ?_⟩
        by_cases hjk : j = k
        · subst hjk; simpa using h
        · exact h2 j (by omega) (by omega)
      · exact Or.inr ⟨h1, j, by omega, by omega, h4⟩

theorem advanceCursor_frame (d : Device) (s : State) :
    (advanceCursor d s).e_eeprom_xmc4_data_buffer = s.e_eeprom_xmc4_data_buffer ∧
    (advanceCursor d s).hw = s.hw ∧ (advanceCursor d s).initialized = s.initialized ∧
    (advanceCursor d s).fda = s.fda ∧ (advanceCursor d s).cs = s.cs ∧
    (advanceCursor d s).es = s.es ∧
    (advanceCursor d s).nf =
      (if (8192 + s.nf) % U32 ≥ E_EEPROM_XMC4_SECTOR4_START_ADDR d
        then E_EEPROM_XMC4_SECTOR0_START_ADDR d else (8192 + s.nf) % U32) :=
  ⟨rfl, rfl, rfl, rfl, rfl, rfl, rfl⟩

theorem writeToFlash_frame (d : Device) (o : Outcomes) (s : State) :
    (E_EEPROM_XMC4_lWriteToFlash d o s).2.e_eeprom_xmc4_sector_info = s.e_eeprom_xmc4_sector_info ∧
    (E_EEPROM_XMC4_lWriteToFlash d o s).2.bcc = s.bcc ∧
    (E_EEPROM_XMC4_lWriteToFlash d o s).2.e_eeprom_xmc4_data_buffer.eeprom_data
      = s.e_eeprom_xmc4_data_buffer.eeprom_data ∧
    (E_EEPROM_XMC4_lWriteToFlash d o s).2.e_eeprom_xmc4_data_buffer.len
      = s.e_eeprom_xmc4_data_buffer.len ∧
    (E_EEPROM_XMC4_lWriteToFlash d o s).2.initialized = s.initialized :=
  ⟨rfl, rfl, rfl, rfl, rfl⟩

theorem writeToFlash_status (d : Device) (o : Outcomes) (s : State) :
    ((E_EEPROM_XMC4_lWriteToFlash d o s).1 = OK ∧ ∀ j, j < 32 → o.verifyOk j = true) ∨
    ((E_EEPROM_XMC4_lWriteToFlash d o s).1 = WRITE_ERROR ∧ ∃ j, j < 32 ∧ o.verifyOk j = false) := by
  unfold E_EEPROM_XMC4_lWriteToFlash
  simp only []
  rcases programPages_status o
      (ramByte { s.e_eeprom_xmc4_data_buffer with
        crc := E_EEPROM_XMC4_lCalculateCRC d (ramByte s.e_eeprom_xmc4_data_buffer) 4 })
      s.e_eeprom_xmc4_sector_info.next_free_start_addr E_EEPROM_XMC4_MAX_PAGES 0 s.hw
    with ⟨h1, h2⟩ | ⟨h1, j, _, h3, h4⟩
  · exact Or.inl ⟨h1, fun j hj => h2 j (Nat.zero_le _) (by simpa using hj)⟩
  · exact Or.inr ⟨h1, j, by simpa using h3, h4⟩

/-- The state handed to the block write: the mirror with its cycle counter incremented. -/
theorem updateWrite_fst (d : Device) (o : Outcomes) (s : State) :
    (updateWrite d o s).1 = (E_EEPROM_XMC4_lWriteToFlash d o { s with e_eeprom_xmc4_data_buffer :=
      { s.e_eeprom_xmc4_data_buffer with
        block_cycle_count := (s.e_eeprom_xmc4_data_buffer.block_cycle_count + 1) % U32 } }).1 := rfl

theorem updateWrite_status (d : Device) (o : Outcomes) (s : State) :
    ((updateWrite d o s).1 = OK ∧ ∀ j, j < 32 → o.verifyOk j = true) ∨
    ((updateWrite d o s).1 = WRITE_ERROR ∧ ∃ j, j < 32 ∧ o.verifyOk j = false) := by
  rw [updateWrite_fst]
  exact writeToFlash_status d o _

/-- The ring bookkeeping after the write part of a persist. -/
theorem updateWrite_info (d : Device) (o : Outcomes) (s : State) :
    (updateWrite d o s).2.bcc = (s.bcc + 1) % U32 ∧
    ((updateWrite d o s).1 = OK → (updateWrite d o s).2.fda = s.nf) ∧
    ((updateWrite d o s).1 ≠ OK → (updateWrite d o s).2.fda = s.fda) ∧
    (updateWrite d o s).2.nf =
      (if (8192 + s.nf) % U32 ≥ E_EEPROM_XMC4_SECTOR4_START_ADDR d
        then E_EEPROM_XMC4_SECTOR0_START_ADDR d else (8192 + s.nf) % U32) ∧
    (updateWrite d o s).2.cs = s.cs ∧ (updateWrite d o s).2.es = s.es ∧
    (updateWrite d o s).2.e_eeprom_xmc4_data_buffer.eeprom_data = s.e_eeprom_xmc4_data_buffer.eeprom_data ∧
    (updateWrite d o s).2.e_eeprom_xmc4_data_buffer.len = s.e_eeprom_xmc4_data_buffer.len ∧
    (updateWrite d o s).2.initialized = s.initialized := by
  have hf := updateWrite_fst d o s
  by_cases h : (updateWrite d o s).1 = OK
  · have h2 := hf ▸ h
    have e : (updateWrite d o s).2 = advanceCursor d
        { (E_EEPROM_XMC4_lWriteToFlash d o { s with e_eeprom_xmc4_data_buffer :=
            { s.e_eeprom_xmc4_data_buffer with
              block_cycle_count := (s.e_eeprom_xmc4_data_buffer.block_cycle_count + 1) % U32 } }).2 with
          e_eeprom_xmc4_sector_info := { s.e_eeprom_xmc4_sector_info with
            flash_data_addr := s.e_eeprom_xmc4_sector_info.next_free_start_addr } } := by
      unfold updateWrite
      simp only [h2, if_true]
      rfl
    rw [e]
    exact ⟨rfl, fun _ => rfl, fun hne => absurd h hne, rfl, rfl, rfl, rfl, rfl, rfl⟩
  · have h2 : ¬ _ := hf ▸ h
    have e : (updateWrite d o s).2 = advanceCursor d
        (E_EEPROM_XMC4_lWriteToFlash d o { s with e_eeprom_xmc4_data_buffer :=
            { s.e_eeprom_xmc4_data_buffer with
              block_cycle_count := (s.e_eeprom_xmc4_data_buffer.block_cycle_count + 1) % U32 } }).2 := by
      unfold updateWrite
      simp only [h2, if_false]
    rw [e]
    exact ⟨rfl, fun hh => absurd hh h, fun _ => rfl, rfl, rfl, rfl, rfl, rfl, rfl⟩

theorem markAllFilled_frame (s : State) :
    (markAllFilled s).e_eeprom_xmc4_data_buffer = s.e_eeprom_xmc4_data_buffer ∧
    (markAllFilled s).nf = s.nf ∧ (markAllFilled s).fda = s.fda ∧
    (markAllFilled s).hw = s.hw ∧ (markAllFilled s).initialized = s.initialized ∧
    (markAllFilled s).es = 15 ∧
    (markAllFilled s).cs = (s.fda &&& 0xC000) >>> 14 :=
  ⟨rfl, rfl, rfl, rfl, rfl, rfl, rfl⟩

theorem update_of_not_filled {d : Device} {s : State} (o : Outcomes) (h : ¬ ringFilled d s) :
    E_EEPROM_XMC4_UpdateFlashContents d o s = updateWrite d o s := by
  unfold E_EEPROM_XMC4_UpdateFlashContents
  simp only [h, if_false, if_true]

theorem update_of_filled {d : Device} {s : State} (o : Outcomes) (h : ringFilled d s) :
    E_EEPROM_XMC4_UpdateFlashContents d o s =
      if (eraseLoop d o 4 0 (markAllFilled s)).1 = OK
        then updateWrite d o (eraseLoop d o 4 0 (markAllFilled s)).2
        else eraseLoop d o 4 0 (markAllFilled s) := by
  unfold E_EEPROM_XMC4_UpdateFlashContents
  simp only [h, if_true, E_EEPROM_XMC4_lInitEraseStateMachine, E_EEPROM_XMC4_MAX_SECTORS]

/-- What a persist does to the bookkeeping, by returned status. -/
theorem update_spec (d : Device) (o : Outcomes) (s : State) :
    ((E_EEPROM_XMC4_UpdateFlashContents d o s).1 = ERASE_ERROR ∧ ringFilled d s ∧
      (E_EEPROM_XMC4_UpdateFlashContents d o s).2.e_eeprom_xmc4_data_buffer = s.e_eeprom_xmc4_data_buffer ∧
      (E_EEPROM_XMC4_UpdateFlashContents d o s).2.nf = s.nf ∧
      (E_EEPROM_XMC4_UpdateFlashContents d o s).2.fda = s.fda) ∨
    (((E_EEPROM_XMC4_UpdateFlashContents d o s).1 = OK ∧
        (E_EEPROM_XMC4_UpdateFlashContents d o s).2.fda = s.nf ∧ ∀ j, j < 32 → o.verifyOk j = true) ∨
      ((E_EEPROM_XMC4_UpdateFlashContents d o s).1 = WRITE_ERROR ∧
        (E_EEPROM_XMC4_UpdateFlashContents d o s).2.fda = s.fda ∧ ∃ j, j < 32 ∧ o.verifyOk j = false)) ∧
      (E_EEPROM_XMC4_UpdateFlashContents d o s).2.bcc = (s.bcc + 1) % U32 ∧
      (E_EEPROM_XMC4_UpdateFlashContents d o s).2.nf =
        (if (8192 + s.nf) % U32 ≥ E_EEPROM_XMC4_SECTOR4_START_ADDR d
          then E_EEPROM_XMC4_SECTOR0_START_ADDR d else (8192 + s.nf) % U32) := by
  have key : ∀ s1 : State, s1.nf = s.nf → s1.fda = s.fda → s1.bcc = s.bcc →
      (((updateWrite d o s1).1 = OK ∧
        (updateWrite d o s1).2.fda = s.nf ∧ ∀ j, j < 32 → o.verifyOk j = true) ∨
      ((updateWrite d o s1).1 = WRITE_ERROR ∧
        (updateWrite d o s1).2.fda = s.fda ∧ ∃ j, j < 32 ∧ o.verifyOk j = false)) ∧
      (updateWrite d o s1).2.bcc = (s.bcc + 1) % U32 ∧
      (updateWrite d o s1).2.nf =
        (if (8192 + s.nf) % U32 ≥ E_EEPROM_XMC4_SECTOR4_START_ADDR d
          then E_EEPROM_XMC4_SECTOR0_START_ADDR d else (8192 + s.nf) % U32) := by
    intro s1 h1 h2 h3
    obtain ⟨i1, i2, i3, i4, _⟩ := updateWrite_info d o s1
    rw [h3] at i1
    rw [h1] at i2 i4
    rw [h2] at i3
    refine ⟨?_, i1, i4⟩
    rcases updateWrite_status d o s1 with ⟨hs, hv⟩ | ⟨hs, hv⟩
    · exact Or.inl ⟨hs, i2 hs, hv⟩
    · exact Or.inr ⟨hs, i3 (by rw [hs]; decide), hv⟩
  by_cases hf : ringFilled d s
  · rw [update_of_filled o hf]
    obtain ⟨f1, f2, f3, _, _⟩ := eraseLoop_frame d o 4 0 (markAllFilled s)
    rcases eraseLoop_status d o 4 0 (markAllFilled s) with he | he
    · rw [if_pos he]
      exact Or.inr (key _ f2 f3 (by simp only [State.bcc, f1]; rfl))
    · rw [if_neg (by rw [he]; decide)]
      exact Or.inl ⟨he, hf, f1, f2, f3⟩
  · rw [update_of_not_filled o hf]
    exact Or.inr (key s rfl rfl rfl)

theorem scanned_empty {d : Device} (k : Nat) {s : State}
    (hlo : cycleCount s.hw.mem (blockAddr d (2 * k)) = 0)
    (hhi : cycleCount s.hw.mem (blockAddr d (2 * k + 1)) = 0) : scanned d k s = s := by
  unfold scanned
  simp only [hlo, hhi, ne_eq, not_true_eq_false, if_false]

theorem scannedAll_erased {d : Device} {len : Nat} {s : State} (h : erasedRing d s.hw.mem) :
    scannedAll d len s = scanStart len s := by
  have hm : (scanStart len s).hw.mem = s.hw.mem := rfl
  unfold scannedAll
  rw [scanned_empty 0 (by rw [hm]; exact h 0 (by decide)) (by rw [hm]; exact h 1 (by decide)),
    scanned_empty 1 (by rw [hm]; exact h 2 (by decide)) (by rw [hm]; exact h 3 (by decide)),
    scanned_empty 2 (by rw [hm]; exact h 4 (by decide)) (by rw [hm]; exact h 5 (by decide)),
    scanned_empty 3 (by rw [hm]; exact h 6 (by decide)) (by rw [hm]; exact h 7 (by decide))]

theorem eraseLoop_clean (d : Device) (o : Outcomes) (n k : Nat) (s : State) (h : s.es = 0) :
    eraseLoop d o n k s = (OK, s) := by
  induction n generalizing k with
  | zero => rfl
  | succ n ih =>
    unfold eraseLoop
    simp only [State.es] at h
    simp only [h, Nat.zero_shiftRight, Nat.zero_and, ne_eq, not_true_eq_false, and_false, if_false]
    exact ih _

/-- On an erased ring `E_EEPROM_XMC4_Init` returns `OK` and leaves `freshState`. -/
theorem init_erased {d : Device} (hd : d.placed) (o : Outcomes) (n len : Nat)
    (hlen : len ≤ E_EEPROM_XMC4_WORKING_BUFFER_SIZE) (flash : Nat → Nat)
    (h : erasedRing d flash) :
    E_EEPROM_XMC4_Init d o (n + 2) len (powerOn flash) = some (OK, freshState d len flash) := by
  rw [init_eq hd o n len _ rfl hlen, scannedAll_erased (by exact h)]
  unfold initFinish E_EEPROM_XMC4_lInitEraseStateMachine
  rw [eraseLoop_clean d o _ 0 _ rfl]
  rfl

theorem crc_congr (d : Device) {mem1 mem2 : Nat → Nat} {a1 a2 : Nat}
    (h : ∀ i, i < 8188 → mem1 (a1 + i) % 256 = mem2 (a2 + i) % 256) :
    E_EEPROM_XMC4_lCalculateCRC d mem1 a1 = E_EEPROM_XMC4_lCalculateCRC d mem2 a2 := by
  unfold E_EEPROM_XMC4_lCalculateCRC
  have e : (List.range E_EEPROM_XMC4_DATA_SIZE_FOR_CRC).map (fun i => mem1 (a1 + i) % 256)
      = (List.range E_EEPROM_XMC4_DATA_SIZE_FOR_CRC).map (fun i => mem2 (a2 + i) % 256) := by
    apply List.map_congr_left
    intro i hi
    exact h i (by simpa using hi)
  rw [e]

theorem crc_lt (d : Device) (mem : Nat → Nat) (a : Nat) : E_EEPROM_XMC4_lCalculateCRC d mem a < U32 := by
  unfold E_EEPROM_XMC4_lCalculateCRC
  exact Nat.mod_lt _ (by decide)

theorem readWord_congr {mem1 mem2 : Nat → Nat} {a1 a2 : Nat}
    (h : ∀ i, i < 4 → mem1 (a1 + i) % 256 = mem2 (a2 + i) % 256) :
    readWord mem1 a1 = readWord mem2 a2 := by
  unfold readWord
  have h0 := h 0 (by decide)
  have h1 := h 1 (by decide)
  have h2 := h 2 (by decide)
  have h3 := h 3 (by decide)
  simp only [Nat.add_zero] at h0
  rw [h0, h1, h2, h3]

theorem readWord_wordByte (w : Nat) (hw : w < U32) :
    readWord (fun i => wordByte w i) 0 = w := by
  simp only [U32] at hw
  simp only [readWord, wordByte, Nat.zero_add, Nat.pow_zero, Nat.div_one, Nat.pow_one]
  norm_num
  omega

theorem programPages_mem_ok (o : Outcomes) (ram : Nat → Nat) (dst : Nat) (n k : Nat) (hw : Hw)
    (h : ∀ j, k ≤ j → j < k + n → o.verifyOk j = true) (a : Nat) :
    (programPages o ram dst n k hw).2.mem a =
      if dst + 256 * k ≤ a ∧ a < dst + 256 * (k + n) then ram (a - dst) % 256 else hw.mem a := by
  induction n generalizing k hw with
  | zero =>
    have : ¬ (dst + 256 * k ≤ a ∧ a < dst + 256 * (k + 0)) := by omega
    simp only [programPages, this, if_false]
  | succ n ih =>
    unfold programPages
    have hk : o.verifyOk k = true := h k (le_refl _) (by omega)
    simp only [hk, Bool.true_eq_false, if_false]
    rw [ih (k + 1) _ (fun j h1 h2 => h j (by omega) (by omega))]
    simp only [XMC_FLASH_ProgramPage, PAGE_BYTES, E_EEPROM_XMC4_MIN_WORDS_PER_PAGE, if_true]
    by_cases c1 : dst + 256 * (k + 1) ≤ a ∧ a < dst + 256 * (k + 1 + n)
    · have c2 : dst + 256 * k ≤ a ∧ a < dst + 256 * (k + (n + 1)) := by omega
      simp only [c1, c2, and_self, if_true]
    · by_cases c3 : dst + 4 * 64 * k ≤ a ∧ a < dst + 4 * 64 * k + 4 * 64
      · have c2 : dst + 256 * k ≤ a ∧ a < dst + 256 * (k + (n + 1)) := by omega
        have e : 4 * 64 * k + (a - (dst + 4 * 64 * k)) = a - dst := by omega
        simp only [c1, c2, c3, and_self, if_true, if_false, e]
      · have c2 : ¬ (dst + 256 * k ≤ a ∧ a < dst + 256 * (k + (n + 1))) := by omega
        simp only [c1, c2, c3, if_false]

theorem ramByte_crc (b : E_EEPROM_XMC4_RAM_BUFFER_t) (i : Nat) (hi : i < 4) :
    ramByte b i = wordByte b.crc i := by
  simp only [ramByte, hi, if_true]

theorem ramByte_bcc (b : E_EEPROM_XMC4_RAM_BUFFER_t) (i : Nat) (hi : i < 4) :
    ramByte b (4 + i) = wordByte b.block_cycle_count i := by
  have h1 : ¬ (4 + i < 4) := by omega
  have h2 : 4 + i < 8 := by omega
  have h3 : 4 + i - 4 = i := by omega
  simp only [ramByte, h1, h2, h3, if_true, if_false]

theorem ramByte_data (b : E_EEPROM_XMC4_RAM_BUFFER_t) (i : Nat) (hi : i < 8184) :
    ramByte b (8 + i) = b.eeprom_data i % 256 := by
  have h1 : ¬ (8 + i < 4) := by omega
  have h2 : ¬ (8 + i < 8) := by omega
  have h3 : 8 + i < 8 + 8184 := by omega
  have h4 : 8 + i - 8 = i := by omega
  simp only [ramByte, h1, h2, h3, h4, if_true, if_false, E_EEPROM_XMC4_WORKING_BUFFER_SIZE,
    E_EEPROM_XMC4_ACTUAL_FLASH_BLOCK_SIZE]

theorem ramByte_crc_irrelevant (b : E_EEPROM_XMC4_RAM_BUFFER_t) (c i : Nat) (hi : 4 ≤ i) :
    ramByte { b with crc := c } i = ramByte b i := by
  have h1 : ¬ (i < 4) := by omega
  simp only [ramByte, h1, if_false]

theorem wordByte_mod (w i : Nat) : wordByte w i % 256 = wordByte w i := by
  unfold wordByte
  exact Nat.mod_mod _ _

theorem readWord_of_bytes {mem : Nat → Nat} {a w : Nat} (hw : w < U32)
    (h : ∀ i, i < 4 → mem (a + i) % 256 = wordByte w i) : readWord mem a = w := by
  rw [← readWord_wordByte w hw]
  apply readWord_congr
  intro i hi
  rw [h i hi, Nat.zero_add, wordByte_mod]

theorem writeToFlash_mem_ok (d : Device) (o : Outcomes) (s : State)
    (h : ∀ j, j < 32 → o.verifyOk j = true) (a : Nat) :
    (E_EEPROM_XMC4_lWriteToFlash d o s).2.hw.mem a =
      if s.nf ≤ a ∧ a < s.nf + 8192 then
        ramByte { s.e_eeprom_xmc4_data_buffer with
          crc := E_EEPROM_XMC4_lCalculateCRC d (ramByte s.e_eeprom_xmc4_data_buffer) 4 } (a - s.nf) % 256
      else s.hw.mem a := by
  unfold E_EEPROM_XMC4_lWriteToFlash
  simp only []
  rw [programPages_mem_ok o _ _ _ 0 _ (fun j _ hj => h j (by simpa using hj))]
  have e32 : (8192 : Nat) >>> 8 = 32 := by decide
  simp only [E_EEPROM_XMC4_MAX_PAGES, E_EEPROM_XMC4_ACTUAL_FLASH_BLOCK_SIZE, State.nf, e32,
    Nat.mul_zero, Nat.add_zero, Nat.zero_add]

/-- The block a successful `E_EEPROM_XMC4_lWriteToFlash` leaves at the cursor: it
carries the mirror's cycle counter, a matching checksum and the mirror's payload. -/
theorem writeToFlash_block (d : Device) (o : Outcomes) (s : State)
    (h : ∀ j, j < 32 → o.verifyOk j = true) (hb : s.bcc < U32) :
    cycleCount (E_EEPROM_XMC4_lWriteToFlash d o s).2.hw.mem s.nf = s.bcc ∧
    crcOk d (E_EEPROM_XMC4_lWriteToFlash d o s).2.hw.mem s.nf ∧
    (∀ i, i < 8184 → (E_EEPROM_XMC4_lWriteToFlash d o s).2.hw.mem (s.nf + 8 + i) % 256
      = s.e_eeprom_xmc4_data_buffer.eeprom_data i % 256) ∧
    (∀ a, ¬ (s.nf ≤ a ∧ a < s.nf + 8192) → (E_EEPROM_XMC4_lWriteToFlash d o s).2.hw.mem a = s.hw.mem a) := by
  have hm := writeToFlash_mem_ok d o s h
  refine ⟨?_, ?_, ?_, ?_⟩
  · unfold cycleCount
    apply readWord_of_bytes hb
    intro i hi
    have c : s.nf ≤ s.nf + 4 + i ∧ s.nf + 4 + i < s.nf + 8192 := by omega
    have e : s.nf + 4 + i - s.nf = 4 + i := by omega
    rw [hm, if_pos c, e, ramByte_bcc _ i hi, Nat.mod_mod, wordByte_mod]
  · unfold crcOk
    have e1 : readWord (E_EEPROM_XMC4_lWriteToFlash d o s).2.hw.mem s.nf
        = E_EEPROM_XMC4_lCalculateCRC d (ramByte s.e_eeprom_xmc4_data_buffer) 4 := by
      apply readWord_of_bytes (crc_lt _ _ _)
      intro i hi
      have c : s.nf ≤ s.nf + i ∧ s.nf + i < s.nf + 8192 := by omega
      have e : s.nf + i - s.nf = i := by omega
      rw [hm, if_pos c, e, ramByte_crc _ i hi, Nat.mod_mod, wordByte_mod]
    rw [e1]
    apply crc_congr
    intro i hi
    have c : s.nf ≤ s.nf + 4 + i ∧ s.nf + 4 + i < s.nf + 8192 := by omega
    have e : s.nf + 4 + i - s.nf = 4 + i := by omega
    rw [hm, if_pos c, e, ramByte_crc_irrelevant _ _ _ (by omega), Nat.mod_mod]
  · intro i hi
    have c : s.nf ≤ s.nf + 8 + i ∧ s.nf + 8 + i < s.nf + 8192 := by omega
    have e : s.nf + 8 + i - s.nf = 8 + i := by omega
    rw [hm, if_pos c, e, ramByte_data _ i hi, Nat.mod_mod, Nat.mod_mod]
  · intro a ha
    rw [hm, if_neg ha]

theorem updateWrite_hw (d : Device) (o : Outcomes) (s : State) :
    (updateWrite d o s).2.hw = (E_EEPROM_XMC4_lWriteToFlash d o { s with e_eeprom_xmc4_data_buffer :=
      { s.e_eeprom_xmc4_data_buffer with
        block_cycle_count := (s.e_eeprom_xmc4_data_buffer.block_cycle_count + 1) % U32 } }).2.hw := by
  unfold updateWrite
  simp only []
  split_ifs <;> rfl

/-- The block a persist that returns `OK` leaves at the place of the cursor. -/
theorem updateWrite_block (d : Device) (o : Outcomes) (s : State)
    (h : (updateWrite d o s).1 = OK) :
    cycleCount (updateWrite d o s).2.hw.mem s.nf = (s.bcc + 1) % U32 ∧
    crcOk d (updateWrite d o s).2.hw.mem s.nf ∧
    (∀ i, i < 8184 → (updateWrite d o s).2.hw.mem (s.nf + 8 + i) % 256
      = s.e_eeprom_xmc4_data_buffer.eeprom_data i % 256) ∧
    (∀ a, ¬ (s.nf ≤ a ∧ a < s.nf + 8192) → (updateWrite d o s).2.hw.mem a = s.hw.mem a) := by
  have hv : ∀ j, j < 32 → o.verifyOk j = true := by
    rcases updateWrite_status d o s with ⟨_, hv⟩ | ⟨hs, _⟩
    · exact hv
    · rw [h] at hs; exact absurd hs (by decide)
  rw [updateWrite_hw]
  exact writeToFlash_block d o _ hv (Nat.mod_lt _ (by decide))

theorem update_ok_block (d : Device) (o : Outcomes) (s : State)
    (h : (E_EEPROM_XMC4_UpdateFlashContents d o s).1 = OK) :
    (E_EEPROM_XMC4_UpdateFlashContents d o s).2.fda = s.nf ∧
    (E_EEPROM_XMC4_UpdateFlashContents d o s).2.bcc = (s.bcc + 1) % U32 ∧
    cycleCount (E_EEPROM_XMC4_UpdateFlashContents d o s).2.hw.mem s.nf = (s.bcc + 1) % U32 ∧
    crcOk d (E_EEPROM_XMC4_UpdateFlashContents d o s).2.hw.mem s.nf ∧
    (∀ i, i < 8184 → (E_EEPROM_XMC4_UpdateFlashContents d o s).2.hw.mem (s.nf + 8 + i) % 256
      = s.e_eeprom_xmc4_data_buffer.eeprom_data i % 256) := by
  have key : ∀ s1 : State, s1.nf = s.nf → s1.bcc = s.bcc →
      s1.e_eeprom_xmc4_data_buffer.eeprom_data = s.e_eeprom_xmc4_data_buffer.eeprom_data →
      (updateWrite d o s1).1 = OK →
      (updateWrite d o s1).2.fda = s.nf ∧
      (updateWrite d o s1).2.bcc = (s.bcc + 1) % U32 ∧
      cycleCount (updateWrite d o s1).2.hw.mem s.nf = (s.bcc + 1) % U32 ∧
      crcOk d (updateWrite d o s1).2.hw.mem s.nf ∧
      (∀ i, i < 8184 → (updateWrite d o s1).2.hw.mem (s.nf + 8 + i) % 256
        = s.e_eeprom_xmc4_data_buffer.eeprom_data i % 256) := by
    intro s1 h1 h2 h3 hok
    obtain ⟨i1, i2, _⟩ := updateWrite_info d o s1
    obtain ⟨b1, b2, b3, _⟩ := updateWrite_block d o s1 hok
    rw [h1] at b1 b2 b3
    rw [h2] at b1 i1
    rw [h3] at b3
    exact ⟨h1 ▸ i2 hok, i1, b1, b2, b3⟩
  by_cases hf : ringFilled d s
  · rw [update_of_filled o hf] at h ⊢
    obtain ⟨f1, f2, _, _, _⟩ := eraseLoop_frame d o 4 0 (markAllFilled s)
    rcases eraseLoop_status d o 4 0 (markAllFilled s) with he | he
    · rw [if_pos he] at h ⊢
      exact key _ f2 (by simp only [State.bcc, f1]; rfl) (by rw [f1]; rfl) h
    · rw [if_neg (by rw [he]; decide)] at h
      rw [he] at h
      exact absurd h (by decide)
  · rw [update_of_not_filled o hf] at h ⊢
    exact key s rfl rfl rfl h

theorem persists_counts (d : Device) (acts : List Action) (s : State)
    (hok : ∀ r ∈ persists d acts s, r.1 = OK)
    (hno : s.bcc + (persists d acts s).length < U32) :
    (persists d acts s).map (fun r => r.2.bcc)
      = (List.range (persists d acts s).length).map (fun i => s.bcc + 1 + i) ∧
    ∀ r ∈ persists d acts s, cycleCount r.2.hw.mem r.2.fda = r.2.bcc := by
  induction acts generalizing s with
  | nil => simp [persists]
  | cons a as ih =>
    cases a with
    | writeByte off v =>
      simp only [persists] at hok hno ⊢
      exact ih _ hok hno
    | writeArray off data n =>
      simp only [persists] at hok hno ⊢
      exact ih _ hok hno
    | persist o =>
      simp only [persists, List.length_cons, List.mem_cons, forall_eq_or_imp] at hok hno ⊢
      obtain ⟨h1, h2⟩ := hok
      obtain ⟨b1, b2, b3, _⟩ := update_ok_block d o s h1
      have hb : (E_EEPROM_XMC4_UpdateFlashContents d o s).2.bcc = s.bcc + 1 := by
        rw [b2]; exact Nat.mod_eq_of_lt (by omega)
      obtain ⟨i1, i2⟩ := ih _ h2 (by rw [hb]; omega)
      refine ⟨?_, ?_, i2⟩
      · rw [List.range_succ_eq_map, List.map_cons, List.map_cons, i1, List.map_map, hb]
        congr 1
        apply List.map_congr_left
        intro i _
        simp only [Function.comp, Nat.succ_eq_add_one]
        omega
      · rw [b1, b3, b2]

theorem maskShift_eq (x : Nat) : (x &&& 0xC000) >>> 14 = x / 16384 % 4 := by
  have e1 : (0xC000 : Nat) = (2 ^ 2 - 1) <<< 14 := by decide
  have e2 : x / 16384 % 4 = (x >>> 14) % 2 ^ 2 := by
    rw [Nat.shiftRight_eq_div_pow]
    norm_num
  rw [e2]
  apply Nat.eq_of_testBit_eq
  intro i
  rw [Nat.testBit_shiftRight, Nat.testBit_and, e1, Nat.testBit_shiftLeft,
    Nat.testBit_two_pow_sub_one, Nat.testBit_mod_two_pow, Nat.testBit_shiftRight]
  have e3 : 14 + i - 14 = i := by omega
  have e4 : 14 + i ≥ 14 := by omega
  simp only [e3, e4, decide_True, Bool.true_and]
  exact Bool.and_comm _ _

theorem sectorOf_blockAddr {d : Device} (hd : d.placed) (q : Nat) (hq : q < 8) :
    (blockAddr d q &&& 0xC000) >>> 14 = q / 2 := by
  have h1 := hd.1
  have h2 := base_lt hd
  rw [maskShift_eq, blockAddr_eq hd]
  omega

theorem advance_blockAddr {d : Device} (hd : d.placed) (p : Nat) (hp : p < 8) :
    (if (8192 + blockAddr d p) % U32 ≥ E_EEPROM_XMC4_SECTOR4_START_ADDR d
      then E_EEPROM_XMC4_SECTOR0_START_ADDR d else (8192 + blockAddr d p) % U32)
      = blockAddr d ((p + 1) % 8) := by
  have h2 := base_lt hd
  rw [sector4_eq hd, blockAddr_eq hd, blockAddr_eq hd, sector0_eq hd]
  simp only [U32]
  split_ifs <;> omega

theorem blockAddr_ne_zero {d : Device} (hd : d.placed) (p : Nat) : blockAddr d p ≠ 0 := by
  rw [blockAddr_eq hd]
  omega

theorem blockAddr_inj {d : Device} (hd : d.placed) {p q : Nat} (h : blockAddr d p = blockAddr d q) :
    p = q := by
  rw [blockAddr_eq hd, blockAddr_eq hd] at h
  omega

theorem isFlashEmpty_iff (s : State) : E_EEPROM_XMC4_IsFlashEmpty s = true ↔ s.fda = 0 := by
  unfold E_EEPROM_XMC4_IsFlashEmpty
  by_cases h : s.e_eeprom_xmc4_sector_info.flash_data_addr = 0
  · simp only [h, if_true, State.fda]
  · simp only [h, if_false, State.fda, Bool.false_eq_true]

theorem update_inRing {d : Device} (hd : d.placed) (o : Outcomes) (s : State) (h : inRing d s) :
    inRing d (E_EEPROM_XMC4_UpdateFlashContents d o s).2 := by
  obtain ⟨p, hp, hnf⟩ := h
  rcases update_spec d o s with ⟨_, _, _, hn, _⟩ | ⟨_, _, hn⟩
  · exact ⟨p, hp, by rw [hn, hnf]⟩
  · refine ⟨(p + 1) % 8, Nat.mod_lt _ (by decide), ?_⟩
    rw [hn, hnf, advance_blockAddr hd p hp]

theorem step_inRing {d : Device} (hd : d.placed) (a : Action) (s : State) (h : inRing d s) :
    inRing d (step d a s) := by
  cases a with
  | writeByte off v => exact h
  | writeArray off data n => exact h
  | persist o => exact update_inRing hd o s h

theorem isEmpty_run {d : Device} (hd : d.placed) (acts : List Action) (s : State) (hr : inRing d s) :
    E_EEPROM_XMC4_IsFlashEmpty (run d acts s) = true ↔
      (s.fda = 0 ∧ ∀ r ∈ persists d acts s, r.1 ≠ OK) := by
  induction acts generalizing s with
  | nil => simp only [run, persists, isFlashEmpty_iff, List.not_mem_nil, false_implies, implies_true,
      and_true]
  | cons a as ih =>
    cases a with
    | writeByte off v =>
      simp only [run, persists]
      exact ih _ hr
    | writeArray off data n =>
      simp only [run, persists]
      exact ih _ hr
    | persist o =>
      simp only [run, persists, step, List.mem_cons, forall_eq_or_imp]
      rw [ih _ (update_inRing hd o s hr)]
      obtain ⟨p, hp, hnf⟩ := hr
      have hne : s.nf ≠ 0 := by rw [hnf]; exact blockAddr_ne_zero hd p
      rcases update_spec d o s with ⟨he, _, _, _, hf⟩ | ⟨⟨hs, hf, _⟩ | ⟨hs, hf, _⟩, _, _⟩
      · rw [hf, he]
        simp only [ne_eq, reduceCtorEq, not_false_eq_true, true_and]
      · rw [hf, hs]
        simp only [hne, false_and, ne_eq, not_true_eq_false, and_false]
      · rw [hf, hs]
        simp only [ne_eq, reduceCtorEq, not_false_eq_true, true_and]

theorem programPages_ops (o : Outcomes) (ram : Nat → Nat) (dst n k : Nat) (hw : Hw) (x : FlashOp) :
    (x ∈ hw.ops → x ∈ (programPages o ram dst n k hw).2.ops) ∧
    (∀ a, x = FlashOp.erase a → x ∈ (programPages o ram dst n k hw).2.ops → x ∈ hw.ops) := by
  induction n generalizing k hw with
  | zero => exact ⟨fun h => h, fun _ _ h => h⟩
  | succ n ih =>
    unfold programPages
    simp only []
    split_ifs
    · refine ⟨fun h => ?_, fun a ha h => ?_⟩
      · simp only [XMC_FLASH_ProgramPage, List.mem_append]
        exact Or.inl h
      · simp only [XMC_FLASH_ProgramPage, List.mem_append, List.mem_singleton] at h
        rcases h with h | h
        · exact h
        · rw [ha] at h; exact absurd h (by simp)
    · obtain ⟨i1, i2⟩ := ih (k + 1) (XMC_FLASH_ProgramPage (o.verifyOk k) o.junk
        (dst + PAGE_BYTES * k) (fun i => ram (PAGE_BYTES * k + i)) hw)
      refine ⟨fun h => i1 ?_, fun a ha h => ?_⟩
      · simp only [XMC_FLASH_ProgramPage, List.mem_append]
        exact Or.inl h
      · have h' := i2 a ha h
        simp only [XMC_FLASH_ProgramPage, List.mem_append, List.mem_singleton] at h'
        rcases h' with h' | h'
        · exact h'
        · rw [ha] at h'; exact absurd h' (by simp)

theorem updateWrite_ops (d : Device) (o : Outcomes) (s : State) (x : FlashOp) :
    (x ∈ s.hw.ops → x ∈ (updateWrite d o s).2.hw.ops) ∧
    (∀ a, x = FlashOp.erase a → x ∈ (updateWrite d o s).2.hw.ops → x ∈ s.hw.ops) := by
  rw [updateWrite_hw]
  unfold E_EEPROM_XMC4_lWriteToFlash
  simp only []
  exact programPages_ops o _ _ _ _ _ x

theorem eraseLoop_ops_mono (d : Device) (o : Outcomes) (n k : Nat) (s : State) (x : FlashOp)
    (h : x ∈ s.hw.ops) : x ∈ (eraseLoop d o n k s).2.hw.ops := by
  induction n generalizing k s with
  | zero => exact h
  | succ n ih =>
    unfold eraseLoop
    simp only []
    split_ifs
    · simp only [XMC_FLASH_EraseSector, List.mem_append]
      exact Or.inl h
    · apply ih
      simp only [XMC_FLASH_EraseSector, List.mem_append]
      exact Or.inl h
    · exact ih _ _ h

theorem eraseLoop_first (d : Device) (o : Outcomes) (n : Nat) (s : State)
    (hcs : s.cs ≠ 0) (hes : s.es = 15) :
    FlashOp.erase (E_EEPROM_XMC4_SECTOR0_START_ADDR d) ∈ (eraseLoop d o (n + 1) 0 s).2.hw.ops := by
  unfold eraseLoop
  simp only [State.cs, State.es] at hcs hes
  have c : s.e_eeprom_xmc4_sector_info.current_sector ≠ 0
      ∧ (s.e_eeprom_xmc4_sector_info.erase_state >>> 0) &&& 1 ≠ 0 := by
    rw [hes]; exact ⟨hcs, by decide⟩
  have e : (E_EEPROM_XMC4_SECTOR0_START_ADDR d + (E_EEPROM_XMC4_SECTOR_SIZE * 0) % U32) % U32
      = E_EEPROM_XMC4_SECTOR0_START_ADDR d := by
    simp only [Nat.mul_zero, Nat.zero_mod, Nat.add_zero]
    unfold E_EEPROM_XMC4_SECTOR0_START_ADDR
    exact Nat.mod_mod _ _
  simp only [c, and_self, if_true, e]
  split_ifs
  · simp only [XMC_FLASH_EraseSector, List.mem_append, List.mem_singleton, or_true]
  · apply eraseLoop_ops_mono
    simp only [XMC_FLASH_EraseSector, List.mem_append, List.mem_singleton, or_true]

theorem ringAt_step {d : Device} (hd : d.placed) (o : Outcomes) (n : Nat) (s : State)
    (hn : n < 9) (hR : RingAt d n s) (hok : (E_EEPROM_XMC4_UpdateFlashContents d o s).1 = OK) :
    RingAt d (n + 1) (E_EEPROM_XMC4_UpdateFlashContents d o s).2 := by
  obtain ⟨r1, r2, r3, r4, r5, r6, _⟩ := hR
  have hb := blockAddr_eq hd
  have h2 := base_lt hd
  have hstart : (E_EEPROM_XMC4_SECTOR0_START_ADDR d + (E_EEPROM_XMC4_SECTOR_SIZE * s.cs) % U32) % U32
      = blockAddr d 0 := by
    have : s.cs = 0 := by rw [r5, if_neg (by omega)]
    rw [this]
    exact sectorStart_eq hd 0 (by decide)
  obtain ⟨u1, u2, _⟩ := update_ok_block d o s hok
  have unf : (E_EEPROM_XMC4_UpdateFlashContents d o s).2.nf = blockAddr d ((n + 1) % 8) := by
    rcases update_spec d o s with ⟨he, _⟩ | ⟨_, _, hnf⟩
    · rw [hok] at he; exact absurd he (by decide)
    · rw [hnf, r1, advance_blockAddr hd _ (Nat.mod_lt _ (by decide))]
      congr 1
      omega
  have ubcc : (E_EEPROM_XMC4_UpdateFlashContents d o s).2.bcc = n + 1 := by
    rw [u2, r2]
    exact Nat.mod_eq_of_lt (by simp only [U32]; omega)
  have ufda : (E_EEPROM_XMC4_UpdateFlashContents d o s).2.fda = blockAddr d ((n + 1 - 1) % 8) := by
    rw [u1, r1]; rfl
  by_cases h8 : n = 8
  · subst h8
    have hf : ringFilled d s := by
      refine ⟨?_, ?_⟩
      · exact r1.trans hstart.symm
      · show s.bcc ≠ 0
        rw [r2]; decide
    rw [update_of_filled o hf] at hok ⊢
    have hcs : (markAllFilled s).cs = 3 := by
      show (s.fda &&& 0xC000) >>> 14 = 3
      rw [r4 (by decide), sectorOf_blockAddr hd _ (by decide)]
    obtain ⟨f1, f2, f3, f4, _⟩ := eraseLoop_frame d o 4 0 (markAllFilled s)
    have her := eraseLoop_first d o 3 (markAllFilled s) (by rw [hcs]; decide) rfl
    rw [sector0_eq hd] at her
    rcases eraseLoop_status d o 4 0 (markAllFilled s) with he | he
    · rw [if_pos he] at hok ⊢
      rw [update_of_filled o hf, if_pos he] at unf ubcc ufda
      obtain ⟨_, _, _, _, w5, _⟩ := updateWrite_info d o (eraseLoop d o 4 0 (markAllFilled s)).2
      refine ⟨unf, ubcc, fun h => absurd h (by decide), fun _ => ufda, ?_, fun h => absurd h (by decide),
        fun _ => ?_⟩
      · rw [w5, f4, hcs]; rfl
      · apply (updateWrite_ops d o _ _).1
        rw [hb 0]
        exact her
    · rw [if_neg (by rw [he]; decide), he] at hok
      exact absurd hok (by decide)
  · have hf : ¬ ringFilled d s := by
      rintro ⟨c1, c2⟩
      have hnf : blockAddr d (n % 8) = blockAddr d 0 := by
        rw [← hstart, ← r1]; exact c1
      have := blockAddr_inj hd hnf
      have hbz : s.bcc ≠ 0 := c2
      rw [r2] at hbz
      omega
    rw [update_of_not_filled o hf] at hok ⊢
    rw [update_of_not_filled o hf] at unf ubcc ufda
    obtain ⟨_, _, _, _, w5, _⟩ := updateWrite_info d o s
    refine ⟨unf, ubcc, fun h => absurd h (by omega), fun _ => ufda, ?_, fun _ a ha => ?_,
      fun h => absurd h (by omega)⟩
    · rw [w5, r5, if_neg (by omega), if_neg (by omega)]
    · exact r6 (by omega) a ((updateWrite_ops d o s _).2 a rfl ha)

theorem ringAt_persists {d : Device} (hd : d.placed) (acts : List Action) (n : Nat) (s : State)
    (hR : RingAt d n s) (hlen : n + (persists d acts s).length ≤ 9)
    (hok : ∀ r ∈ persists d acts s, r.1 = OK) :
    ∀ i r, (persists d acts s)[i]? = some r → RingAt d (n + i + 1) r.2 := by
  induction acts generalizing n s with
  | nil =>
    intro i r h
    simp only [persists, List.getElem?_nil] at h
    exact absurd h (by simp)
  | cons a as ih =>
    cases a with
    | writeByte off v =>
      simp only [persists] at hlen hok ⊢
      exact ih n _ hR hlen hok
    | writeArray off data m =>
      simp only [persists] at hlen hok ⊢
      exact ih n _ hR hlen hok
    | persist o =>
      simp only [persists, List.length_cons, List.mem_cons, forall_eq_or_imp] at hlen hok ⊢
      obtain ⟨h1, h2⟩ := hok
      have hstep := ringAt_step hd o n s (by omega) hR h1
      intro i r h
      cases i with
      | zero =>
        simp only [List.getElem?_cons_zero, Option.some.injEq] at h
        rw [← h]
        exact hstep
      | succ i =>
        simp only [List.getElem?_cons_succ] at h
        have := ih (n + 1) _ hstep (by omega) h2 i r h
        have e : n + (i + 1) + 1 = n + 1 + i + 1 := by omega
        rw [e]
        exact this

theorem cycleCount_congr {m1 m2 : Nat → Nat} {a : Nat} (h : sameBlock m1 m2 a) :
    cycleCount m1 a = cycleCount m2 a := by
  unfold cycleCount
  apply readWord_congr
  intro i hi
  rw [h (a + 4 + i) (by omega) (by omega)]

theorem crcOk_congr (d : Device) {m1 m2 : Nat → Nat} {a : Nat} (h : sameBlock m1 m2 a) :
    crcOk d m1 a ↔ crcOk d m2 a := by
  unfold crcOk
  have e1 : E_EEPROM_XMC4_lCalculateCRC d m1 (a + 4) = E_EEPROM_XMC4_lCalculateCRC d m2 (a + 4) := by
    apply crc_congr
    intro i hi
    rw [h (a + 4 + i) (by omega) (by omega)]
  have e2 : readWord m1 a = readWord m2 a := by
    apply readWord_congr
    intro i hi
    rw [h (a + i) (by omega) (by omega)]
  rw [e1, e2]

theorem validBlock_congr (d : Device) {m1 m2 : Nat → Nat} {a : Nat} (h : sameBlock m1 m2 a) :
    validBlock d m1 a ↔ validBlock d m2 a := by
  unfold validBlock
  rw [cycleCount_congr h, crcOk_congr d h]

theorem cycleCount_zero {mem : Nat → Nat} {a : Nat}
    (h : ∀ x, a ≤ x → x < a + 8192 → mem x = 0) : cycleCount mem a = 0 := by
  unfold cycleCount readWord
  rw [h (a + 4) (by omega) (by omega), h (a + 4 + 1) (by omega) (by omega),
    h (a + 4 + 2) (by omega) (by omega), h (a + 4 + 3) (by omega) (by omega)]

theorem clearBit_facts : ∀ es, es < 16 → ∀ k, k < 4 →
    (es &&& (U32 - 1 - (1 <<< k) % U32)) < 16 ∧
    ∀ m, m < 4 → m ≠ k → (dirty (es &&& (U32 - 1 - (1 <<< k) % U32)) m ↔ dirty es m) := by
  decide

theorem programPages_frame (o : Outcomes) (ram : Nat → Nat) (dst n k : Nat) (hw : Hw) (a : Nat)
    (h : ¬ (dst + 256 * k ≤ a ∧ a < dst + 256 * (k + n))) :
    (programPages o ram dst n k hw).2.mem a = hw.mem a := by
  induction n generalizing k hw with
  | zero => rfl
  | succ n ih =>
    unfold programPages
    have c : ¬ (dst + PAGE_BYTES * k ≤ a ∧ a < dst + PAGE_BYTES * k + PAGE_BYTES) := by
      simp only [PAGE_BYTES, E_EEPROM_XMC4_MIN_WORDS_PER_PAGE]
      omega
    simp only []
    split_ifs
    · simp only [XMC_FLASH_ProgramPage, c, if_false]
    · rw [ih (k + 1) _ (by omega)]
      simp only [XMC_FLASH_ProgramPage, c, if_false]

/-- Whatever the flash module reports, the write part of a persist changes no byte
outside the block at the cursor. -/
theorem updateWrite_frame (d : Device) (o : Outcomes) (s : State) (a : Nat)
    (h : ¬ (s.nf ≤ a ∧ a < s.nf + 8192)) : (updateWrite d o s).2.hw.mem a = s.hw.mem a := by
  rw [updateWrite_hw]
  unfold E_EEPROM_XMC4_lWriteToFlash
  simp only []
  rw [programPages_frame]
  simp only [E_EEPROM_XMC4_MAX_PAGES, E_EEPROM_XMC4_ACTUAL_FLASH_BLOCK_SIZE]
  simp only [State.nf] at h
  have e32 : (8192 : Nat) >>> 8 = 32 := by decide
  rw [e32]
  omega

theorem inSector_disjoint {d : Device} (hd : d.placed) {m1 m2 a : Nat} (h1 : inSector d m1 a)
    (h2 : inSector d m2 a) : m1 = m2 := by
  unfold inSector at h1 h2
  simp only [blockAddr_eq hd, E_EEPROM_XMC4_SECTOR_SIZE] at h1 h2
  omega

/-- The erase state machine, from sector `k` on, when it returns `OK`: every dirty
sector other than the active one reads as zero afterwards, and every byte outside
those sectors is unchanged. -/
theorem eraseLoop_ok {d : Device} (hd : d.placed) (o : Outcomes) (n k : Nat) (s : State)
    (hkn : k + n = 4) (hes : s.es < 16) (hok : (eraseLoop d o n k s).1 = OK) :
    (∀ m, k ≤ m → m < 4 → m ≠ s.cs → dirty s.es m →
      ∀ a, inSector d m a → (eraseLoop d o n k s).2.hw.mem a = 0) ∧
    (∀ a, (∀ m, k ≤ m → m < 4 → m ≠ s.cs → dirty s.es m → ¬ inSector d m a) →
      (eraseLoop d o n k s).2.hw.mem a = s.hw.mem a) := by
  induction n generalizing k s with
  | zero =>
    refine ⟨fun m h1 h2 => absurd h2 (by omega), fun a _ => rfl⟩
  | succ n ih =>
    have hk : k < 4 := by omega
    have haddr := sectorStart_eq hd k hk
    unfold eraseLoop at hok ⊢
    simp only [haddr] at hok ⊢
    by_cases c : s.e_eeprom_xmc4_sector_info.current_sector ≠ k
        ∧ (s.e_eeprom_xmc4_sector_info.erase_state >>> k) &&& 1 ≠ 0
    · rw [if_pos c] at hok ⊢
      by_cases ce : o.eraseOk k = false
      · rw [if_pos ce] at hok
        exact E_EEPROM_XMC4_STATUS_t.noConfusion hok
      · rw [if_neg ce] at hok ⊢
        have hce : o.eraseOk k = true := by simpa using ce
        obtain ⟨hlt, hbits⟩ := clearBit_facts s.es hes k hk
        obtain ⟨i1, i2⟩ := ih (k + 1) _ (by omega) hlt hok
        have hmem1 : ∀ a, (XMC_FLASH_EraseSector (o.eraseOk k) o.junk (blockAddr d (2 * k)) s.hw).mem a
            = if inSector d k a then 0 else s.hw.mem a := by
          intro a
          simp only [XMC_FLASH_EraseSector, hce, if_true, inSector]
        refine ⟨fun m h1 h2 h3 h4 a ha => ?_, fun a ha => ?_⟩
        · by_cases hmk : m = k
          · subst hmk
            rw [i2 a (fun m' g1 _ _ _ g5 => by have := inSector_disjoint hd ha g5; omega)]
            show (XMC_FLASH_EraseSector (o.eraseOk m) o.junk (blockAddr d (2 * m)) s.hw).mem a = 0
            rw [hmem1, if_pos ha]
          · exact i1 m (by omega) h2 h3 ((hbits m h2 hmk).2 h4) a ha
        · rw [i2 a (fun m' g1 g2 g3 g4 => ha m' (by omega) g2 g3 ((hbits m' g2 (by omega)).1 g4))]
          show (XMC_FLASH_EraseSector (o.eraseOk k) o.junk (blockAddr d (2 * k)) s.hw).mem a = s.hw.mem a
          rw [hmem1, if_neg (ha k (le_refl _) hk (fun h => c.1 h.symm) c.2)]
    · rw [if_neg c] at hok ⊢
      obtain ⟨i1, i2⟩ := ih (k + 1) s (by omega) hes hok
      have hnot : ∀ m, m = k → m ≠ s.cs → dirty s.es m → False := by
        intro m hm g1 g2
        subst hm
        exact c ⟨fun h => g1 h.symm, g2⟩
      refine ⟨fun m h1 h2 h3 h4 a ha => ?_, fun a ha => ?_⟩
      · by_cases hmk : m = k
        · exact (hnot m hmk h3 h4).elim
        · exact i1 m (by omega) h2 h3 h4 a ha
      · exact i2 a (fun m' g1 g2 g3 g4 => ha m' (by omega) g2 g3 g4)

theorem eraseLoop_allOk_status (d : Device) (o : Outcomes) (n k : Nat) (s : State)
    (hkn : k + n ≤ 4) (h : ∀ m, m < 4 → o.eraseOk m = true) : (eraseLoop d o n k s).1 = OK := by
  induction n generalizing k s with
  | zero => rfl
  | succ n ih =>
    unfold eraseLoop
    have hk : o.eraseOk k = true := h k (by omega)
    simp only [hk, Bool.true_eq_false, if_false]
    split_ifs
    · exact ih _ _ (by omega)
    · exact ih _ _ (by omega)

theorem setBit_facts : ∀ k, k < 4 → ∀ es, es < 2 ^ k →
    (es ||| (1 <<< k) % U32) < 2 ^ (k + 1) ∧ dirty (es ||| (1 <<< k) % U32) k ∧ ¬ dirty es k ∧
    es < 2 ^ (k + 1) ∧ ∀ m, m < k → (dirty (es ||| (1 <<< k) % U32) m ↔ dirty es m) := by
  decide

theorem scanned_es (d : Device) (k : Nat) (s : State) :
    (scanned d k s).es =
      if cycleCount s.hw.mem (blockAddr d (2 * k + 1)) ≠ 0 ∨ cycleCount s.hw.mem (blockAddr d (2 * k)) ≠ 0
      then s.es ||| (1 <<< k) % U32 else s.es := by
  unfold scanned
  simp only [markSector_idem]
  split_ifs <;> first | rfl | (exfalso; tauto)

theorem scanDirty_step {d : Device} {mem : Nat → Nat} {k : Nat} {s : State} (hk : k < 4)
    (hm : s.hw.mem = mem) (h : ScanDirty d mem k s) : ScanDirty d mem (k + 1) (scanned d k s) := by
  obtain ⟨h1, h2⟩ := h
  obtain ⟨f1, f2, f3, f4, f5⟩ := setBit_facts k hk s.es h1
  rw [ScanDirty, scanned_es, hm]
  have hcase : ∀ m, m < k + 1 → m < k ∨ m = k := fun m hm => by omega
  by_cases c : cycleCount mem (blockAddr d (2 * k + 1)) ≠ 0 ∨ cycleCount mem (blockAddr d (2 * k)) ≠ 0
  · rw [if_pos c]
    refine ⟨f1, fun m hm => ?_⟩
    rcases hcase m hm with hlt | heq
    · rw [f5 m hlt]; exact h2 m hlt
    · subst heq
      exact ⟨fun _ => c.symm, fun _ => f2⟩
  · rw [if_neg c]
    refine ⟨f4, fun m hm => ?_⟩
    rcases hcase m hm with hlt | heq
    · exact h2 m hlt
    · subst heq
      exact ⟨fun hd' => absurd hd' f3, fun hc => absurd hc.symm c⟩

theorem scanDirty_all (d : Device) (len : Nat) (s : State) (hes : s.es = 0) :
    ScanDirty d s.hw.mem 4 (scannedAll d len s) := by
  have h0 : ScanDirty d s.hw.mem 0 (scanStart len s) := by
    refine ⟨?_, fun m hm => absurd hm (by omega)⟩
    show s.es < 2 ^ 0
    rw [hes]; decide
  have m0 : (scanStart len s).hw.mem = s.hw.mem := rfl
  have h1 := scanDirty_step (by decide) m0 h0
  have m1 : (scanned d 0 (scanStart len s)).hw.mem = s.hw.mem := by rw [scanned_hw]; rfl
  have h2 := scanDirty_step (by decide) m1 h1
  have m2 : (scanned d 1 (scanned d 0 (scanStart len s))).hw.mem = s.hw.mem := by
    rw [scanned_hw, scanned_hw]; rfl
  have h3 := scanDirty_step (by decide) m2 h2
  have m3 : (scanned d 2 (scanned d 1 (scanned d 0 (scanStart len s)))).hw.mem = s.hw.mem := by
    rw [scanned_hw, scanned_hw, scanned_hw]; rfl
  exact scanDirty_step (by decide) m3 h3

theorem sameBlock_of_frame {d : Device} (hd : d.placed) {m1 m2 : Nat → Nat} {p i : Nat}
    (hi : i ≠ p)
    (h : ∀ a, ¬ (blockAddr d p ≤ a ∧ a < blockAddr d p + 8192) → m1 a = m2 a) :
    sameBlock m1 m2 (blockAddr d i) := by
  intro x h1 h2
  apply h
  rw [blockAddr_eq hd] at h1 h2 ⊢
  omega

theorem inSector_of_block {d : Device} (hd : d.placed) {i x : Nat}
    (h1 : blockAddr d i ≤ x) (h2 : x < blockAddr d i + 8192) : inSector d (i / 2) x := by
  unfold inSector
  rw [blockAddr_eq hd] at h1 h2 ⊢
  simp only [E_EEPROM_XMC4_SECTOR_SIZE]
  omega

theorem dirty_all : ∀ m, m < 4 → dirty 15 m := by decide

/-- The flash after the erase state machine has run with all sectors marked and
returned `OK`: the blocks of the active sector are as before, all other blocks of
the ring have a zero cycle counter. -/
theorem eraseAll_view {d : Device} (hd : d.placed) (o : Outcomes) (s : State)
    (hes : s.es = 15) (hok : (eraseLoop d o 4 0 s).1 = OK) :
    (∀ i, i < 8 → i / 2 = s.cs → sameBlock (eraseLoop d o 4 0 s).2.hw.mem s.hw.mem (blockAddr d i)) ∧
    (∀ i, i < 8 → i / 2 ≠ s.cs → ∀ x, blockAddr d i ≤ x → x < blockAddr d i + 8192 →
      (eraseLoop d o 4 0 s).2.hw.mem x = 0) := by
  obtain ⟨e1, e2⟩ := eraseLoop_ok hd o 4 0 s rfl (by rw [hes]; decide) hok
  refine ⟨fun i hi hics x h1 h2 => ?_, fun i hi hics x h1 h2 => ?_⟩
  · apply e2
    intro m _ hm hmcs _ hin
    have := inSector_disjoint hd hin (inSector_of_block hd h1 h2)
    omega
  · exact e1 (i / 2) (Nat.zero_le _) (by omega) hics (by rw [hes]; exact dirty_all _ (by omega)) x
      (inSector_of_block hd h1 h2)

theorem ringFilled_iff {d : Device} (hd : d.placed) {s : State} {p : Nat} (hcs : s.cs < 4)
    (hnf : s.nf = blockAddr d p) : ringFilled d s ↔ (p = 2 * s.cs ∧ s.bcc ≠ 0) := by
  have e := sectorStart_eq hd s.cs hcs
  unfold ringFilled
  rw [e]
  simp only [State.nf] at hnf
  rw [hnf]
  constructor
  · rintro ⟨h1, h2⟩
    exact ⟨blockAddr_inj hd h1, h2⟩
  · rintro ⟨h1, h2⟩
    exact ⟨by rw [h1], h2⟩

/-- The flash around the block at the cursor after a persist that got to the write
step.  Without the erase state machine the other blocks of the ring are as before.
With it, the active sector becomes the sector of the latest block, whose blocks are as
before, and the other blocks have a zero cycle counter. -/
theorem update_view {d : Device} (hd : d.placed) (o : Outcomes) (s : State) (p q : Nat)
    (hnf : s.nf = blockAddr d p) (hcs : s.cs < 4)
    (hq : s.bcc ≠ 0 → q < 8 ∧ s.fda = blockAddr d q)
    (hst : (E_EEPROM_XMC4_UpdateFlashContents d o s).1 ≠ ERASE_ERROR) :
    (¬ (p = 2 * s.cs ∧ s.bcc ≠ 0) ∧ (E_EEPROM_XMC4_UpdateFlashContents d o s).2.cs = s.cs ∧
      ∀ i, i < 8 → i ≠ p →
        sameBlock (E_EEPROM_XMC4_UpdateFlashContents d o s).2.hw.mem s.hw.mem (blockAddr d i)) ∨
    ((p = 2 * s.cs ∧ s.bcc ≠ 0) ∧ (E_EEPROM_XMC4_UpdateFlashContents d o s).2.cs = q / 2 ∧
      (∀ i, i < 8 → i ≠ p → i / 2 = q / 2 →
        sameBlock (E_EEPROM_XMC4_UpdateFlashContents d o s).2.hw.mem s.hw.mem (blockAddr d i)) ∧
      (∀ i, i < 8 → i ≠ p → i / 2 ≠ q / 2 →
        cycleCount (E_EEPROM_XMC4_UpdateFlashContents d o s).2.hw.mem (blockAddr d i) = 0)) := by
  by_cases hf : ringFilled d s
  · have hpc := (ringFilled_iff hd hcs hnf).1 hf
    obtain ⟨hq1, hq2⟩ := hq hpc.2
    right
    rw [update_of_filled o hf] at hst ⊢
    obtain ⟨f1, f2, f3, f4, _⟩ := eraseLoop_frame d o 4 0 (markAllFilled s)
    have hmcs : (markAllFilled s).cs = q / 2 := by
      show (s.fda &&& 0xC000) >>> 14 = q / 2
      rw [hq2, sectorOf_blockAddr hd q hq1]
    rcases eraseLoop_status d o 4 0 (markAllFilled s) with he | he
    · rw [if_pos he] at hst ⊢
      obtain ⟨v1, v2⟩ := eraseAll_view hd o (markAllFilled s) rfl he
      rw [hmcs] at v1 v2
      obtain ⟨_, _, _, _, w5, _⟩ := updateWrite_info d o (eraseLoop d o 4 0 (markAllFilled s)).2
      have hfr : ∀ a, ¬ (blockAddr d p ≤ a ∧ a < blockAddr d p + 8192) →
          (updateWrite d o (eraseLoop d o 4 0 (markAllFilled s)).2).2.hw.mem a
            = (eraseLoop d o 4 0 (markAllFilled s)).2.hw.mem a := by
        intro a ha
        apply updateWrite_frame
        rw [f2]
        show ¬ (s.nf ≤ a ∧ a < s.nf + 8192)
        rw [hnf]; exact ha
      refine ⟨hpc, by rw [w5, f4, hmcs], fun i hi hip hiq => ?_, fun i hi hip hiq => ?_⟩
      · intro x h1 h2
        rw [sameBlock_of_frame hd hip hfr x h1 h2]
        exact v1 i hi hiq x h1 h2
      · apply cycleCount_zero
        intro x h1 h2
        rw [sameBlock_of_frame hd hip hfr x h1 h2]
        exact v2 i hi hiq x h1 h2
    · rw [if_neg (by rw [he]; decide)] at hst
      exact absurd he hst
  · left
    rw [update_of_not_filled o hf]
    obtain ⟨_, _, _, _, w5, _⟩ := updateWrite_info d o s
    refine ⟨fun h => hf ((ringFilled_iff hd hcs hnf).2 h), w5, fun i hi hip => ?_⟩
    apply sameBlock_of_frame hd hip
    intro a ha
    apply updateWrite_frame
    rw [hnf]; exact ha

/-- A persist that returns `OK` without the cycle counter wrapping keeps the ring
settled; the block it wrote is the new latest record. -/
theorem settled_update {d : Device} (hd : d.placed) (o : Outcomes) (s : State)
    (hS : Settled d s) (hno : s.bcc + 1 < U32)
    (hok : (E_EEPROM_XMC4_UpdateFlashContents d o s).1 = OK) :
    Settled d (E_EEPROM_XMC4_UpdateFlashContents d o s).2 := by
  obtain ⟨happ, hcs, p, hp, hnf, hahead, hcase⟩ := hS
  obtain ⟨u1, u2, u3, u4, _⟩ := update_ok_block d o s hok
  have hbcc : (s.bcc + 1) % U32 = s.bcc + 1 := Nat.mod_eq_of_lt hno
  rw [hbcc] at u2 u3
  rw [hnf] at u1 u3 u4
  have unf : (E_EEPROM_XMC4_UpdateFlashContents d o s).2.nf = blockAddr d ((p + 1) % 8) := by
    rcases update_spec d o s with ⟨he, _⟩ | ⟨_, _, h⟩
    · rw [hok] at he; exact absurd he (by decide)
    · rw [h, hnf, advance_blockAddr hd p hp]
  have hst : (E_EEPROM_XMC4_UpdateFlashContents d o s).1 ≠ ERASE_ERROR := by rw [hok]; decide
  have hvp : validBlock d (E_EEPROM_XMC4_UpdateFlashContents d o s).2.hw.mem (blockAddr d p) :=
    ⟨by rw [u3]; omega, u4⟩
  have hp1 : (p + 1) % 8 < 8 := Nat.mod_lt _ (by decide)
  rcases hcase with ⟨e1, e2, e3, e4, e5⟩ | ⟨hb, q, hq, hfq, hvq, hcq, huq, hrel⟩
  · -- nothing recorded yet
    subst e3
    rcases update_view hd o s 0 0 hnf hcs (fun h => absurd e1 h) hst with
      ⟨_, v2, v3⟩ | ⟨⟨_, h⟩, _⟩
    · have hz : ∀ i, i < 8 → i ≠ 0 →
          cycleCount (E_EEPROM_XMC4_UpdateFlashContents d o s).2.hw.mem (blockAddr d i) = 0 := by
        intro i hi hi0
        rw [cycleCount_congr (v3 i hi hi0)]
        exact e5 i hi
      refine ⟨fun k hk _ hhi => absurd (hz (2 * k + 1) (by omega) (by omega)) hhi.1,
        by rw [v2]; exact hcs, (0 + 1) % 8, hp1, unf, fun j hj => ?_, Or.inr ⟨by rw [u2]; omega, 0, ?_⟩⟩
      · rw [v2, e4] at hj
        exact hz _ (Nat.mod_lt _ (by decide)) (by omega)
      · refine ⟨by decide, u1, hvp, by rw [u3, u2], fun i hi hi0 hv => absurd (hz i hi hi0) hv.1,
          Or.inl rfl⟩
    · exact absurd e1 h
  · -- a record `q` exists
    have hle : ∀ i, i < 8 → validBlock d s.hw.mem (blockAddr d i) →
        cycleCount s.hw.mem (blockAddr d i) ≤ s.bcc := by
      intro i hi hv
      by_cases hiq : i = q
      · rw [hiq, hcq]
      · exact Nat.le_of_lt (huq i hi hiq hv)
    rcases update_view hd o s p q hnf hcs (fun _ => ⟨hq, hfq⟩) hst with
      ⟨v1, v2, v3⟩ | ⟨⟨v0, _⟩, v2, v3, v4⟩
    · -- the erase state machine did not run
      have hpc : p ≠ 2 * s.cs := fun h => v1 ⟨h, hb⟩
      have hold : ∀ i, i < 8 → i ≠ p →
          validBlock d (E_EEPROM_XMC4_UpdateFlashContents d o s).2.hw.mem (blockAddr d i) →
          validBlock d s.hw.mem (blockAddr d i) ∧
          cycleCount (E_EEPROM_XMC4_UpdateFlashContents d o s).2.hw.mem (blockAddr d i)
            = cycleCount s.hw.mem (blockAddr d i) := by
        intro i hi hip hv
        exact ⟨(validBlock_congr d (v3 i hi hip)).1 hv, cycleCount_congr (v3 i hi hip)⟩
      refine ⟨fun k hk hlo hhi => ?_, by rw [v2]; exact hcs, (p + 1) % 8, hp1, unf, fun j hj => ?_,
        Or.inr ⟨by rw [u2]; omega, p, ?_⟩⟩
      · by_cases c1 : 2 * k = p
        · exfalso
          have h0 := hahead 1 (by omega)
          have e : (p + 1) % 8 = 2 * k + 1 := by omega
          rw [e] at h0
          rw [← cycleCount_congr (v3 (2 * k + 1) (by omega) (by omega))] at h0
          exact hhi.1 h0
        · by_cases c2 : 2 * k + 1 = p
          · obtain ⟨o1, o2⟩ := hold (2 * k) (by omega) c1 hlo
            have := hle (2 * k) (by omega) o1
            rw [c2, u3, o2]
            omega
          · obtain ⟨o1, o2⟩ := hold (2 * k) (by omega) c1 hlo
            obtain ⟨o3, o4⟩ := hold (2 * k + 1) (by omega) c2 hhi
            rw [o2, o4]
            exact happ k hk o1 o3
      · rw [v2] at hj
        have h0 := hahead (j + 1) (by omega)
        have e : (p + (j + 1)) % 8 = ((p + 1) % 8 + j) % 8 := by omega
        rw [e] at h0
        rw [cycleCount_congr (v3 _ (Nat.mod_lt _ (by decide)) (by omega))]
        exact h0
      · refine ⟨hp, u1, hvp, by rw [u3, u2], fun i hi hip hv => ?_, Or.inl rfl⟩
        obtain ⟨o1, o2⟩ := hold i hi hip hv
        have := hle i hi o1
        rw [o2, u2]
        omega
    · -- the erase state machine ran: `p` is the first block of the old active sector
      have hqc : q / 2 ≠ s.cs ∧ (q + 1) % 8 = 2 * s.cs := by
        rcases hrel with h | ⟨h1, h2⟩ <;> omega
      have hold : ∀ i, i < 8 → i ≠ p →
          validBlock d (E_EEPROM_XMC4_UpdateFlashContents d o s).2.hw.mem (blockAddr d i) →
          i / 2 = q / 2 ∧ validBlock d s.hw.mem (blockAddr d i) ∧
          cycleCount (E_EEPROM_XMC4_UpdateFlashContents d o s).2.hw.mem (blockAddr d i)
            = cycleCount s.hw.mem (blockAddr d i) := by
        intro i hi hip hv
        by_cases hiq : i / 2 = q / 2
        · exact ⟨hiq, (validBlock_congr d (v3 i hi hip hiq)).1 hv, cycleCount_congr (v3 i hi hip hiq)⟩
        · exact absurd (v4 i hi hip hiq) hv.1
      refine ⟨fun k hk hlo hhi => ?_, by rw [v2]; omega, (p + 1) % 8, hp1, unf, fun j hj => ?_,
        Or.inr ⟨by rw [u2]; omega, p, ?_⟩⟩
      · obtain ⟨o5, o3, o4⟩ := hold (2 * k + 1) (by omega) (by omega) hhi
        obtain ⟨_, o1, o2⟩ := hold (2 * k) (by omega) (by omega) hlo
        rw [o2, o4]
        exact happ k hk o1 o3
      · rw [v2] at hj
        exact v4 _ (Nat.mod_lt _ (by decide)) (by omega) (by omega)
      · refine ⟨hp, u1, hvp, by rw [u3, u2], fun i hi hip hv => ?_, Or.inl rfl⟩
        obtain ⟨_, o1, o2⟩ := hold i hi hip hv
        have := hle i hi o1
        rw [o2, u2]
        omega

theorem scanned_of_fda_zero {d : Device} (hd : d.placed) (k : Nat) (s : State)
    (h : (scanned d k s).fda = 0) : (scanned d k s).cs = s.cs ∧ s.fda = 0 := by
  have n1 := blockAddr_ne_zero hd (2 * k)
  have n2 := blockAddr_ne_zero hd (2 * k + 1)
  unfold scanned at h ⊢
  simp only [] at h ⊢
  split_ifs at h ⊢
  all_goals first
    | exact absurd h n1
    | exact absurd h n2
    | exact ⟨rfl, h⟩

theorem scannedAll_of_fda_zero {d : Device} (hd : d.placed) (len : Nat) (s : State)
    (h : (scannedAll d len s).fda = 0) : (scannedAll d len s).cs = s.cs := by
  unfold scannedAll at h ⊢
  obtain ⟨c3, f3⟩ := scanned_of_fda_zero hd 3 _ h
  obtain ⟨c2, f2⟩ := scanned_of_fda_zero hd 2 _ f3
  obtain ⟨c1, f1⟩ := scanned_of_fda_zero hd 1 _ f2
  obtain ⟨c0, _⟩ := scanned_of_fda_zero hd 0 _ f1
  rw [c3, c2, c1, c0]
  rfl

theorem scanned_buf (d : Device) (k : Nat) (s : State) :
    (scanned d k s).e_eeprom_xmc4_data_buffer.eeprom_data = s.e_eeprom_xmc4_data_buffer.eeprom_data ∧
    (scanned d k s).e_eeprom_xmc4_data_buffer.len = s.e_eeprom_xmc4_data_buffer.len := by
  unfold scanned
  simp only []
  split_ifs <;> exact ⟨rfl, rfl⟩

theorem scannedAll_len (d : Device) (len : Nat) (s : State) :
    (scannedAll d len s).e_eeprom_xmc4_data_buffer.len = len := by
  unfold scannedAll
  rw [(scanned_buf d 3 _).2, (scanned_buf d 2 _).2, (scanned_buf d 1 _).2, (scanned_buf d 0 _).2]
  rfl

theorem init_booted {d : Device} (hd : d.placed) (o : Outcomes) (n len : Nat)
    (hlen : len ≤ E_EEPROM_XMC4_WORKING_BUFFER_SIZE) (flash : Nat → Nat) :
    E_EEPROM_XMC4_Init d o (n + 2) len (powerOn flash) = some (booted d o len flash) :=
  init_eq hd o n len _ rfl hlen

theorem initFinish_empty (d : Device) (o : Outcomes) (s1 : State)
    (hok : (eraseLoop d o 4 0 s1).1 = OK) (hf : s1.fda = 0) :
    initFinish d o OK s1 = (OK, { (eraseLoop d o 4 0 s1).2 with
        e_eeprom_xmc4_sector_info :=
          { (eraseLoop d o 4 0 s1).2.e_eeprom_xmc4_sector_info with
            current_sector := 0
            next_free_start_addr := E_EEPROM_XMC4_SECTOR0_START_ADDR d }
        initialized := true }) := by
  have f3 : (eraseLoop d o 4 0 s1).2.e_eeprom_xmc4_sector_info.flash_data_addr
      = E_EEPROM_XMC4_EMPTY := ((eraseLoop_frame d o 4 0 s1).2.2.1).trans hf
  unfold initFinish E_EEPROM_XMC4_lInitEraseStateMachine
  rw [if_pos rfl]
  simp only [E_EEPROM_XMC4_MAX_SECTORS]
  rw [if_pos hok, if_pos f3]

theorem initFinish_data (d : Device) (o : Outcomes) (s1 : State)
    (hok : (eraseLoop d o 4 0 s1).1 = OK) (hf : s1.fda ≠ 0) :
    (initFinish d o OK s1).2.fda = s1.fda ∧
    (initFinish d o OK s1).2.cs = s1.cs ∧
    (initFinish d o OK s1).2.hw = (eraseLoop d o 4 0 s1).2.hw ∧
    (initFinish d o OK s1).2.nf =
      (if s1.nf ≥ E_EEPROM_XMC4_SECTOR4_START_ADDR d
        then E_EEPROM_XMC4_SECTOR0_START_ADDR d else s1.nf) ∧
    (initFinish d o OK s1).2.e_eeprom_xmc4_data_buffer
      = (E_EEPROM_XMC4_lCopyFlashToRam (eraseLoop d o 4 0 s1).2).e_eeprom_xmc4_data_buffer ∧
    ((initFinish d o OK s1).1 = OK ∨ (initFinish d o OK s1).1 = ERROR_OLD_DATA) := by
  obtain ⟨f1, f2, f3, f4, _⟩ := eraseLoop_frame d o 4 0 s1
  have hne : ¬ (eraseLoop d o 4 0 s1).2.e_eeprom_xmc4_sector_info.flash_data_addr
      = E_EEPROM_XMC4_EMPTY := fun h => hf (f3.symm.trans h)
  unfold initFinish E_EEPROM_XMC4_lInitEraseStateMachine
  rw [if_pos rfl]
  simp only [E_EEPROM_XMC4_MAX_SECTORS]
  rw [if_pos hok, if_neg hne]
  refine ⟨f3, f4, rfl, ?_, rfl, ?_⟩
  · show (if (eraseLoop d o 4 0 s1).2.nf ≥ _ then _ else (eraseLoop d o 4 0 s1).2.nf) = _
    rw [f2]
  · simp only []
    split_ifs
    · exact Or.inr rfl
    · exact Or.inl rfl

/-- The flash and the bookkeeping after the second half of an initialisation whose
erases all verify, run on the state `s1` the four scans leave on the image `mem`.
Either no valid block was found: the ring is then erased and the cursor is block 0 of
the active sector 0.  Or a valid block `j` was found: it is the latest block, its
sector is the active one and is untouched, all other blocks of the ring have a zero
cycle counter, the mirror holds the payload of block `j`, and the cursor is the block
after `j`, or the first block of the next sector. -/
theorem initFinish_view {d : Device} (hd : d.placed) (o : Outcomes) (mem : Nat → Nat) (s1 : State)
    (he : ∀ m, m < 4 → o.eraseOk m = true)
    (hb : ScanBasic d mem 4 s1) (hdty : ScanDirty d mem 4 s1) (hcs0 : s1.fda = 0 → 4 ≤ s1.cs) :
    (s1.fda = 0 ∧ (initFinish d o OK s1).1 = OK ∧
      (initFinish d o OK s1).2.fda = 0 ∧ (initFinish d o OK s1).2.bcc = 0 ∧
      (initFinish d o OK s1).2.cs = 0 ∧ (initFinish d o OK s1).2.nf = blockAddr d 0 ∧
      erasedRing d (initFinish d o OK s1).2.hw.mem) ∨
    (∃ j, j < 8 ∧ s1.fda = blockAddr d j ∧
      validBlock d mem (blockAddr d j) ∧
      cycleCount mem (blockAddr d j) = s1.bcc ∧
      ((initFinish d o OK s1).1 = OK ∨ (initFinish d o OK s1).1 = ERROR_OLD_DATA) ∧
      (initFinish d o OK s1).2.fda = blockAddr d j ∧
      (initFinish d o OK s1).2.bcc = cycleCount mem (blockAddr d j) ∧
      (initFinish d o OK s1).2.cs = j / 2 ∧
      (∀ i, i < 8 → i / 2 = j / 2 → sameBlock (initFinish d o OK s1).2.hw.mem mem (blockAddr d i)) ∧
      (∀ i, i < 8 → i / 2 ≠ j / 2 → cycleCount (initFinish d o OK s1).2.hw.mem (blockAddr d i) = 0) ∧
      (((initFinish d o OK s1).2.nf = blockAddr d ((j + 1) % 8) ∧
          (j = 2 * (j / 2) → cycleCount mem (blockAddr d (j + 1)) = 0)) ∨
        (j = 2 * (j / 2) ∧ (initFinish d o OK s1).2.nf = blockAddr d ((j + 2) % 8))) ∧
      (∀ i, i < 8184 → (initFinish d o OK s1).2.e_eeprom_xmc4_data_buffer.eeprom_data i
        = mem (blockAddr d j + 8 + i) % 256)) := by
  obtain ⟨hmem, hbasic⟩ := hb
  obtain ⟨des, dbits⟩ := hdty
  have des' : s1.es < 16 := des
  have hok := eraseLoop_allOk_status d o 4 0 s1 (le_refl _) he
  obtain ⟨f1, f2, f3, f4, _⟩ := eraseLoop_frame d o 4 0 s1
  obtain ⟨e1, e2⟩ := eraseLoop_ok hd o 4 0 s1 rfl des' hok
  rw [hmem] at e2
  have hzero : ∀ i, i < 8 → i / 2 ≠ s1.cs →
      cycleCount (eraseLoop d o 4 0 s1).2.hw.mem (blockAddr d i) = 0 := by
    intro i hi hics
    by_cases hdirty : dirty s1.es (i / 2)
    · apply cycleCount_zero
      intro x h1 h2
      exact e1 (i / 2) (Nat.zero_le _) (by omega) hics hdirty x (inSector_of_block hd h1 h2)
    · have hsame : sameBlock (eraseLoop d o 4 0 s1).2.hw.mem mem (blockAddr d i) := by
        intro x h1 h2
        apply e2
        intro m _ _ _ hdm hin
        have := inSector_disjoint hd hin (inSector_of_block hd h1 h2)
        rw [this] at hdm
        exact hdirty hdm
      rw [cycleCount_congr hsame]
      have hnd := (dbits (i / 2) (by omega)).not.1 hdirty
      have hcases : i = 2 * (i / 2) ∨ i = 2 * (i / 2) + 1 := by omega
      rcases hcases with h | h
      · rw [h]; exact not_not.1 (fun hne => hnd (Or.inl hne))
      · rw [h]; exact not_not.1 (fun hne => hnd (Or.inr hne))
  have hkeep : ∀ i, i < 8 → i / 2 = s1.cs →
      sameBlock (eraseLoop d o 4 0 s1).2.hw.mem mem (blockAddr d i) := by
    intro i hi hics x h1 h2
    apply e2
    intro m _ _ hmcs _ hin
    have := inSector_disjoint hd hin (inSector_of_block hd h1 h2)
    omega
  rcases hbasic with ⟨hf0, hb0⟩ | ⟨j, hj, hfj, hvj, hcj, hcsj, hnfj⟩
  · left
    have hcs := hcs0 hf0
    rw [initFinish_empty d o s1 hok hf0]
    refine ⟨hf0, rfl, f3.trans hf0, ?_, rfl, ?_, fun i hi => hzero i hi (by omega)⟩
    · show (eraseLoop d o 4 0 s1).2.bcc = 0
      simp only [State.bcc, f1]; exact hb0
    · show E_EEPROM_XMC4_SECTOR0_START_ADDR d = blockAddr d 0
      simp only [blockAddr, Nat.mul_zero, Nat.add_zero]
  · right
    have hj8 : j < 8 := by omega
    have hne : s1.fda ≠ 0 := by rw [hfj]; exact blockAddr_ne_zero hd j
    obtain ⟨g1, g2, g3, g4, g5, g6⟩ := initFinish_data d o s1 hok hne
    have hsamej := hkeep j hj8 hcsj.symm
    have hfe : (eraseLoop d o 4 0 s1).2.e_eeprom_xmc4_sector_info.flash_data_addr = blockAddr d j :=
      f3.trans hfj
    have hcnt : (initFinish d o OK s1).2.bcc = cycleCount mem (blockAddr d j) := by
      simp only [State.bcc, g5, E_EEPROM_XMC4_lCopyFlashToRam]
      rw [hfe]
      exact cycleCount_congr hsamej
    have h4 := sector4_eq hd
    have h0 := sector0_eq hd
    have hb := blockAddr_eq hd
    have h2 := base_lt hd
    refine ⟨j, hj8, hfj, hvj, hcj, g6, g1.trans hfj, hcnt, g2.trans hcsj, ?_, ?_, ?_, ?_⟩
    · intro i hi hij
      rw [g3]
      exact hkeep i hi (by rw [hcsj]; exact hij)
    · intro i hi hij
      rw [g3]
      exact hzero i hi (by rw [hcsj]; exact hij)
    · rw [g4]
      rcases hnfj with hn | ⟨hn1, hn2, hn3⟩
      · rw [hn]
        by_cases hodd : j = 2 * (j / 2)
        · right
          refine ⟨hodd, ?_⟩
          rw [h4, h0, hb, hb]
          split_ifs <;> omega
        · left
          refine ⟨?_, fun h => absurd h hodd⟩
          rw [h4, h0, hb, hb]
          split_ifs <;> omega
      · left
        refine ⟨?_, fun _ => hn2⟩
        rw [hn3, h4, h0, hb, hb]
        split_ifs <;> omega
    · intro i hi
      rw [g5]
      simp only [E_EEPROM_XMC4_lCopyFlashToRam, E_EEPROM_XMC4_WORKING_BUFFER_SIZE,
        E_EEPROM_XMC4_ACTUAL_FLASH_BLOCK_SIZE]
      have hi' : i < 8192 - 8 := by omega
      rw [if_pos hi', hfe, hsamej _ (by omega) (by omega)]

theorem initFinish_fda (d : Device) (o : Outcomes) (s1 : State) :
    (initFinish d o OK s1).2.fda = s1.fda := by
  have f3 := (eraseLoop_frame d o 4 0 s1).2.2.1
  unfold initFinish E_EEPROM_XMC4_lInitEraseStateMachine
  rw [if_pos rfl]
  simp only [E_EEPROM_XMC4_MAX_SECTORS]
  split_ifs <;> exact f3

theorem booted_view {d : Device} (hd : d.placed) (o : Outcomes) (len : Nat) (mem : Nat → Nat)
    (he : ∀ m, m < 4 → o.eraseOk m = true) :
    ((scannedAll d len (powerOn mem)).fda = 0 ∧ (booted d o len mem).1 = OK ∧
      (booted d o len mem).2.fda = 0 ∧ (booted d o len mem).2.bcc = 0 ∧
      (booted d o len mem).2.cs = 0 ∧ (booted d o len mem).2.nf = blockAddr d 0 ∧
      erasedRing d (booted d o len mem).2.hw.mem) ∨
    (∃ j, j < 8 ∧ (scannedAll d len (powerOn mem)).fda = blockAddr d j ∧
      validBlock d mem (blockAddr d j) ∧
      cycleCount mem (blockAddr d j) = (scannedAll d len (powerOn mem)).bcc ∧
      ((booted d o len mem).1 = OK ∨ (booted d o len mem).1 = ERROR_OLD_DATA) ∧
      (booted d o len mem).2.fda = blockAddr d j ∧
      (booted d o len mem).2.bcc = cycleCount mem (blockAddr d j) ∧
      (booted d o len mem).2.cs = j / 2 ∧
      (∀ i, i < 8 → i / 2 = j / 2 → sameBlock (booted d o len mem).2.hw.mem mem (blockAddr d i)) ∧
      (∀ i, i < 8 → i / 2 ≠ j / 2 → cycleCount (booted d o len mem).2.hw.mem (blockAddr d i) = 0) ∧
      (((booted d o len mem).2.nf = blockAddr d ((j + 1) % 8) ∧
          (j = 2 * (j / 2) → cycleCount mem (blockAddr d (j + 1)) = 0)) ∨
        (j = 2 * (j / 2) ∧ (booted d o len mem).2.nf = blockAddr d ((j + 2) % 8))) ∧
      (∀ i, i < 8184 → (booted d o len mem).2.e_eeprom_xmc4_data_buffer.eeprom_data i
        = mem (blockAddr d j + 8 + i) % 256)) := by
  have hwm : (powerOn mem).hw.mem = mem := rfl
  have hb := scanBasic_all d len (powerOn mem)
  have hdty := scanDirty_all d len (powerOn mem) rfl
  rw [hwm] at hb hdty
  have hcs0 : (scannedAll d len (powerOn mem)).fda = 0 → 4 ≤ (scannedAll d len (powerOn mem)).cs := by
    intro h
    rw [scannedAll_of_fda_zero hd len _ h]
    have e : (powerOn mem).cs = 4294967295 := rfl
    rw [e]
    omega
  unfold booted
  exact initFinish_view hd o mem (scannedAll d len (powerOn mem)) he hb hdty hcs0

theorem appendOnly_of_zero {d : Device} {mem : Nat → Nat}
    (h : ∀ k, k < 4 → cycleCount mem (blockAddr d (2 * k)) = 0 ∨
      cycleCount mem (blockAddr d (2 * k + 1)) = 0 ∨
      (validBlock d mem (blockAddr d (2 * k)) → validBlock d mem (blockAddr d (2 * k + 1)) →
        cycleCount mem (blockAddr d (2 * k)) < cycleCount mem (blockAddr d (2 * k + 1)))) :
    appendOnly d mem := by
  intro k hk v1 v2
  rcases h k hk with h0 | h0 | h0
  · exact absurd h0 v1.1
  · exact absurd h0 v2.1
  · exact h0 v1 v2

/-- After an initialisation from reset on an append-only image, with erases that all
verify, the ring is settled. -/
theorem boot_settled {d : Device} (hd : d.placed) (o : Outcomes) (len : Nat) (mem : Nat → Nat)
    (he : ∀ m, m < 4 → o.eraseOk m = true) (happ : appendOnly d mem) :
    Settled d (booted d o len mem).2 ∧
    ((booted d o len mem).1 = OK ∨ (booted d o len mem).1 = ERROR_OLD_DATA) ∧
    ((booted d o len mem).2.bcc = 0 ∨
      ∃ j, j < 8 ∧ (booted d o len mem).2.bcc = cycleCount mem (blockAddr d j)) := by
  have hmax := scanMax_all len (powerOn mem) (by exact happ)
  have hwm : (powerOn mem).hw.mem = mem := rfl
  rw [hwm] at hmax
  rcases booted_view hd o len mem he with ⟨_, hst, hf, hb, hcs, hnf, her⟩ |
    ⟨j, hj, hfs, hvj, hcj, hst, hf, hb, hcs, hsame, hzero, hnf, _⟩
  · refine ⟨⟨?_, by rw [hcs]; decide, 0, by decide, hnf, ?_, Or.inl ⟨hb, hf, rfl, hcs, her⟩⟩,
      Or.inl hst, Or.inl hb⟩
    · exact appendOnly_of_zero (fun k hk => Or.inl (her _ (by omega)))
    · intro t _
      exact her _ (Nat.mod_lt _ (by decide))
  · have hvj2 : validBlock d (booted d o len mem).2.hw.mem (blockAddr d j) :=
      (validBlock_congr d (hsame j hj rfl)).2 hvj
    have hcj2 : cycleCount (booted d o len mem).2.hw.mem (blockAddr d j) = (booted d o len mem).2.bcc := by
      rw [cycleCount_congr (hsame j hj rfl), hb]
    have hbne : (booted d o len mem).2.bcc ≠ 0 := by rw [hb]; exact hvj.1
    refine ⟨⟨?_, by rw [hcs]; omega, ?_⟩, hst, Or.inr ⟨j, hj, hb⟩⟩
    · apply appendOnly_of_zero
      intro k hk
      by_cases hkj : k = j / 2
      · right; right
        intro v1 v2
        have s1 := hsame (2 * k) (by omega) (by omega)
        have s2 := hsame (2 * k + 1) (by omega) (by omega)
        rw [cycleCount_congr s1, cycleCount_congr s2]
        exact happ k hk ((validBlock_congr d s1).1 v1) ((validBlock_congr d s2).1 v2)
      · left
        exact hzero (2 * k) (by omega) (by omega)
    · -- the other valid blocks have a smaller counter
      have hsmall : ∀ i, i < 8 → i ≠ j → validBlock d (booted d o len mem).2.hw.mem (blockAddr d i) →
          cycleCount (booted d o len mem).2.hw.mem (blockAddr d i) < (booted d o len mem).2.bcc := by
        intro i hi hij hv
        have hsec : i / 2 = j / 2 := by
          by_contra hne
          exact hv.1 (hzero i hi hne)
        have si := hsame i hi hsec
        have hvi := (validBlock_congr d si).1 hv
        rw [cycleCount_congr si, hb]
        have hle := hmax.1 i (by omega) hvi
        rw [← hcj] at hle
        have hcases : (i = 2 * (j / 2) ∧ j = 2 * (j / 2) + 1) ∨ (j = 2 * (j / 2) ∧ i = 2 * (j / 2) + 1) := by
          omega
        rcases hcases with ⟨h1, h2⟩ | ⟨h1, h2⟩
        · have e1 : blockAddr d i = blockAddr d (2 * (j / 2)) := congrArg _ h1
          have e2 : blockAddr d j = blockAddr d (2 * (j / 2) + 1) := congrArg _ h2
          rw [e1] at hvi ⊢
          rw [e2] at hvj ⊢
          exact happ (j / 2) (by omega) hvi hvj
        · have e1 : blockAddr d j = blockAddr d (2 * (j / 2)) := congrArg _ h1
          have e2 : blockAddr d i = blockAddr d (2 * (j / 2) + 1) := congrArg _ h2
          rw [e2] at hvi hle
          rw [e1] at hvj hle
          have := happ (j / 2) (by omega) hvj hvi
          omega
      rcases hnf with ⟨hn, hz⟩ | ⟨hev, hn⟩
      · refine ⟨(j + 1) % 8, Nat.mod_lt _ (by decide), hn, ?_, Or.inr ⟨hbne, j, hj, hf, hvj2, hcj2,
          hsmall, Or.inl rfl⟩⟩
        intro t ht
        rw [hcs] at ht
        by_cases hsec : ((j + 1) % 8 + t) % 8 / 2 = j / 2
        · have hev : j = 2 * (j / 2) := by omega
          have ht0 : ((j + 1) % 8 + t) % 8 = j + 1 := by omega
          rw [ht0, cycleCount_congr (hsame (j + 1) (by omega) (by omega))]
          exact hz hev
        · exact hzero _ (Nat.mod_lt _ (by decide)) hsec
      · refine ⟨(j + 2) % 8, Nat.mod_lt _ (by decide), hn, ?_, Or.inr ⟨hbne, j, hj, hf, hvj2, hcj2,
          hsmall, Or.inr ⟨by rw [hcs]; exact hev, rfl⟩⟩⟩
        intro t ht
        rw [hcs] at ht
        exact hzero _ (Nat.mod_lt _ (by decide)) (by omega)

/-- Recovery: on an append-only image in which block `q` is valid and every other valid
block has a smaller cycle counter, an initialisation from reset whose erases verify
takes block `q` as the latest block and loads its counter and payload. -/
theorem boot_recovers {d : Device} (hd : d.placed) (o : Outcomes) (len : Nat) (mem : Nat → Nat)
    (he : ∀ m, m < 4 → o.eraseOk m = true) (happ : appendOnly d mem) (q : Nat) (hq : q < 8)
    (hv : validBlock d mem (blockAddr d q))
    (hmaxq : ∀ i, i < 8 → i ≠ q → validBlock d mem (blockAddr d i) →
      cycleCount mem (blockAddr d i) < cycleCount mem (blockAddr d q)) :
    ((booted d o len mem).1 = OK ∨ (booted d o len mem).1 = ERROR_OLD_DATA) ∧
    (booted d o len mem).2.fda = blockAddr d q ∧
    (booted d o len mem).2.bcc = cycleCount mem (blockAddr d q) ∧
    (∀ i, i < 8184 → (booted d o len mem).2.e_eeprom_xmc4_data_buffer.eeprom_data i
        = mem (blockAddr d q + 8 + i) % 256) := by
  have hmax := scanMax_all len (powerOn mem) (by exact happ)
  have hwm : (powerOn mem).hw.mem = mem := rfl
  rw [hwm] at hmax
  rcases booted_view hd o len mem he with ⟨hf0, _⟩ |
    ⟨j, hj, hfs, hvj, hcj, hst, hf, hb, hcs, hsame, hzero, hnf, hdata⟩
  · exfalso
    rcases scanBasic_all d len (powerOn mem) with ⟨_, ⟨_, hb0⟩ | ⟨j, _, hfj, _⟩⟩
    · have := hmax.1 q (by omega) hv
      rw [hb0] at this
      exact hv.1 (by omega)
    · rw [hf0] at hfj
      exact blockAddr_ne_zero hd j hfj.symm
  · have hjq : j = q := by
      by_contra hne
      have h1 := hmaxq j hj hne hvj
      have h2 := hmax.1 q (by omega) hv
      rw [← hcj] at h2
      omega
    rw [hjq] at hf hb hdata
    exact ⟨hst, hf, hb, hdata⟩

theorem settled_congr {d : Device} {s1 s2 : State} (h1 : s2.hw = s1.hw)
    (h2 : s2.e_eeprom_xmc4_sector_info = s1.e_eeprom_xmc4_sector_info) (h3 : s2.bcc = s1.bcc)
    (h : Settled d s1) : Settled d s2 := by
  unfold Settled Recorded at *
  simp only [State.fda, State.nf, State.cs] at *
  rw [h1, h2, h3]
  exact h

theorem settled_writeArray {d : Device} (off : Nat) (data : Nat → Nat) (n : Nat) {s : State}
    (h : Settled d s) : Settled d (E_EEPROM_XMC4_WriteArray off data n s).2 :=
  settled_congr rfl rfl rfl h

theorem settled_writeByte {d : Device} (off v : Nat) {s : State}
    (h : Settled d s) : Settled d (E_EEPROM_XMC4_WriteByte off v s).2 :=
  settled_congr rfl rfl rfl h

/-- The latest record of a settled ring with a set latest block. -/
theorem settled_recorded {d : Device} {s : State} (h : Settled d s) (hb : s.bcc ≠ 0) :
    appendOnly d s.hw.mem ∧ ∃ q, q < 8 ∧ s.fda = blockAddr d q ∧
      validBlock d s.hw.mem (blockAddr d q) ∧ cycleCount s.hw.mem (blockAddr d q) = s.bcc ∧
      ∀ i, i < 8 → i ≠ q → validBlock d s.hw.mem (blockAddr d i) →
        cycleCount s.hw.mem (blockAddr d i) < s.bcc := by
  obtain ⟨happ, _, p, _, _, _, hcase⟩ := h
  rcases hcase with ⟨h0, _⟩ | ⟨_, q, hq, hf, hv, hc, hm, _⟩
  · exact absurd h0 hb
  · exact ⟨happ, q, hq, hf, hv, hc, hm⟩

/-- Writing a record into the mirror of a settled ring, persisting it with `OK` and
initialising again from reset on the flash that results gives the record back. -/
theorem settled_roundTrip {d : Device} (hd : d.placed) (o2 o3 : Outcomes) (L : Nat) (P : Nat → Nat)
    (s1 : State) (hL : L ≤ 8184) (hP : ∀ i, i < L → P i < 256)
    (hS1 : Settled d s1) (hno : s1.bcc + 1 < U32)
    (he3 : ∀ m, m < 4 → o3.eraseOk m = true)
    (hok : (E_EEPROM_XMC4_UpdateFlashContents d o2 (E_EEPROM_XMC4_WriteArray 0 P L s1).2).1 = OK) :
    ((booted d o3 L (E_EEPROM_XMC4_UpdateFlashContents d o2
        (E_EEPROM_XMC4_WriteArray 0 P L s1).2).2.hw.mem).1 = OK ∨
      (booted d o3 L (E_EEPROM_XMC4_UpdateFlashContents d o2
        (E_EEPROM_XMC4_WriteArray 0 P L s1).2).2.hw.mem).1 = ERROR_OLD_DATA) ∧
    E_EEPROM_XMC4_ReadArray 0 L (booted d o3 L (E_EEPROM_XMC4_UpdateFlashContents d o2
        (E_EEPROM_XMC4_WriteArray 0 P L s1).2).2.hw.mem).2 = (List.range L).map P ∧
    E_EEPROM_XMC4_IsFlashEmpty (booted d o3 L (E_EEPROM_XMC4_UpdateFlashContents d o2
        (E_EEPROM_XMC4_WriteArray 0 P L s1).2).2.hw.mem).2 = false := by
  have hSW := settled_writeArray 0 P L hS1
  have hno2 : (E_EEPROM_XMC4_WriteArray 0 P L s1).2.bcc + 1 < U32 := hno
  have hS2 := settled_update hd o2 _ hSW hno2 hok
  obtain ⟨u1, u2, _, _, u5⟩ := update_ok_block d o2 _ hok
  have hbne : (E_EEPROM_XMC4_UpdateFlashContents d o2
      (E_EEPROM_XMC4_WriteArray 0 P L s1).2).2.bcc ≠ 0 := by
    rw [u2, Nat.mod_eq_of_lt hno2]
    omega
  obtain ⟨happ2, q, hq, hfq, hvq, hcq, hmq⟩ := settled_recorded hS2 hbne
  rw [← hcq] at hmq
  obtain ⟨r1, r2, _, r4⟩ := boot_recovers hd o3 L _ he3 happ2 q hq hvq hmq
  refine ⟨r1, ?_, ?_⟩
  · unfold E_EEPROM_XMC4_ReadArray
    apply List.map_congr_left
    intro i hi
    have hiL : i < L := List.mem_range.1 hi
    rw [Nat.zero_add, r4 i (by omega), Nat.mod_mod, ← hfq, u1, u5 i (by omega)]
    show (if 0 ≤ i ∧ i < 0 + L then P (i - 0) % 256 else _) % 256 = P i
    rw [if_pos ⟨Nat.zero_le _, by omega⟩, Nat.mod_mod, Nat.sub_zero]
    exact Nat.mod_eq_of_lt (hP i hiL)
  · cases hE : E_EEPROM_XMC4_IsFlashEmpty (booted d o3 L (E_EEPROM_XMC4_UpdateFlashContents d o2
        (E_EEPROM_XMC4_WriteArray 0 P L s1).2).2.hw.mem).2 with
    | false => rfl
    | true =>
      have := (isFlashEmpty_iff _).1 hE
      rw [r2] at this
      exact absurd this (blockAddr_ne_zero hd q)

theorem init_booted_pair {d : Device} (hd : d.placed) (o : Outcomes) (n len : Nat)
    (hlen : len ≤ E_EEPROM_XMC4_WORKING_BUFFER_SIZE) (flash : Nat → Nat) :
    E_EEPROM_XMC4_Init d o (n + 2) len (powerOn flash)
      = some ((booted d o len flash).1, (booted d o len flash).2) := by
  rw [init_booted hd o n len hlen flash]

theorem scanned_lo {d : Device} (k : Nat) (s : State)
    (hhi : cycleCount s.hw.mem (blockAddr d (2 * k + 1)) = 0)
    (hv : validBlock d s.hw.mem (blockAddr d (2 * k)))
    (hgt : cycleCount s.hw.mem (blockAddr d (2 * k)) > s.bcc) :
    scanned d k s = adoptBlock k (blockAddr d (2 * k)) (8192 + blockAddr d (2 * k))
      (cycleCount s.hw.mem (blockAddr d (2 * k))) (markSector k s) := by
  unfold scanned
  simp only [State.bcc] at hgt
  simp only [hhi, ne_eq, not_true_eq_false, if_false]
  rw [if_pos hv.1, if_pos ⟨hv.2, hgt⟩]

theorem scanned_lo_after_hi {d : Device} (k : Nat) (s : State)
    (hhi : cycleCount s.hw.mem (blockAddr d (2 * k + 1)) ≠ 0)
    (hrej : ¬ cycleCount s.hw.mem (blockAddr d (2 * k + 1)) > s.bcc)
    (hv : validBlock d s.hw.mem (blockAddr d (2 * k)))
    (hgt : cycleCount s.hw.mem (blockAddr d (2 * k)) > s.bcc) :
    scanned d k s = adoptBlock k (blockAddr d (2 * k)) (8192 + blockAddr d (2 * k + 1))
      (cycleCount s.hw.mem (blockAddr d (2 * k))) (markSector k (markSector k s)) := by
  unfold scanned
  simp only [State.bcc] at hgt hrej
  simp only []
  rw [if_pos hhi, if_neg (fun h => hrej h.2), if_pos hv.1, if_pos ⟨hv.2, hgt⟩]

/-- The scan on an image in which block 0 is valid, blocks 1 to 5 are empty, and sector
3 holds a valid lower block with a larger counter than block 0 under an upper block
whose counter is not larger than that of block 0: the lower block of sector 3 is
taken. -/
theorem scan_stale {d : Device} (mem : Nat → Nat) (len : Nat)
    (v0 : validBlock d mem (blockAddr d 0))
    (hz : ∀ i, 1 ≤ i → i < 6 → cycleCount mem (blockAddr d i) = 0)
    (v6 : validBlock d mem (blockAddr d 6))
    (n7 : cycleCount mem (blockAddr d 7) ≠ 0)
    (h70 : cycleCount mem (blockAddr d 7) ≤ cycleCount mem (blockAddr d 0))
    (h06 : cycleCount mem (blockAddr d 0) < cycleCount mem (blockAddr d 6)) :
    (scannedAll d len (powerOn mem)).fda = blockAddr d 6 := by
  have hpos : cycleCount mem (blockAddr d 0) > 0 := Nat.pos_of_ne_zero v0.1
  have e0 := scanned_lo 0 (scanStart len (powerOn mem)) (hz 1 (by decide) (by decide)) v0 hpos
  have e1 : scanned d 1 (scanned d 0 (scanStart len (powerOn mem)))
      = scanned d 0 (scanStart len (powerOn mem)) := by
    apply scanned_empty 1
    · rw [scanned_hw]; exact hz 2 (by decide) (by decide)
    · rw [scanned_hw]; exact hz 3 (by decide) (by decide)
  have e2 : scanned d 2 (scanned d 0 (scanStart len (powerOn mem)))
      = scanned d 0 (scanStart len (powerOn mem)) := by
    apply scanned_empty 2
    · rw [scanned_hw]; exact hz 4 (by decide) (by decide)
    · rw [scanned_hw]; exact hz 5 (by decide) (by decide)
  have hm : (scanned d 0 (scanStart len (powerOn mem))).hw.mem = mem := by rw [scanned_hw]; rfl
  have hb : (scanned d 0 (scanStart len (powerOn mem))).bcc = cycleCount mem (blockAddr d 0) := by
    rw [e0]; rfl
  have e3 := scanned_lo_after_hi 3 (scanned d 0 (scanStart len (powerOn mem)))
    (by rw [hm]; exact n7) (by rw [hm, hb]; exact Nat.not_lt.2 h70) (by rw [hm]; exact v6)
    (by rw [hm, hb]; exact h06)
  unfold scannedAll
  rw [e1, e2, e3]
  rfl

/-- A persist on top of a stale sector 3.  The state `s1` has its cursor on block 0,
its latest block is the upper block of sector 3, blocks 0 to 5 are empty, and the
lower block of sector 3 is valid with a counter above the one the persist will store.
After a persist that returns `OK` and a new initialisation from reset, the mirror
holds the payload of the lower block of sector 3. -/
theorem stale_restart {d : Device} (hd : d.placed) (o2 o3 : Outcomes) (L : Nat) (P : Nat → Nat)
    (s1 : State) (img : Nat → Nat)
    (hnf : s1.nf = blockAddr d 0) (hfda : s1.fda = blockAddr d 7) (hcs : s1.cs = 3)
    (hbcc : cycleCount img (blockAddr d 7) = s1.bcc)
    (hz : ∀ i, i < 6 → cycleCount s1.hw.mem (blockAddr d i) = 0)
    (h6 : sameBlock s1.hw.mem img (blockAddr d 6)) (h7 : sameBlock s1.hw.mem img (blockAddr d 7))
    (v6 : validBlock d img (blockAddr d 6)) (n7 : cycleCount img (blockAddr d 7) ≠ 0)
    (hlt : s1.bcc + 1 < cycleCount img (blockAddr d 6)) (hwrap : s1.bcc + 1 < U32)
    (he3 : ∀ m, m < 4 → o3.eraseOk m = true)
    (hok : (E_EEPROM_XMC4_UpdateFlashContents d o2 (E_EEPROM_XMC4_WriteArray 0 P L s1).2).1 = OK) :
    ∀ i, i < 8184 → (booted d o3 L (E_EEPROM_XMC4_UpdateFlashContents d o2
        (E_EEPROM_XMC4_WriteArray 0 P L s1).2).2.hw.mem).2.e_eeprom_xmc4_data_buffer.eeprom_data i
      = img (blockAddr d 6 + 8 + i) % 256 := by
  have wnf : (E_EEPROM_XMC4_WriteArray 0 P L s1).2.nf = blockAddr d 0 := hnf
  have wfda : (E_EEPROM_XMC4_WriteArray 0 P L s1).2.fda = blockAddr d 7 := hfda
  have wcs : (E_EEPROM_XMC4_WriteArray 0 P L s1).2.cs = 3 := hcs
  have wbcc : (E_EEPROM_XMC4_WriteArray 0 P L s1).2.bcc = s1.bcc := rfl
  have whw : (E_EEPROM_XMC4_WriteArray 0 P L s1).2.hw.mem = s1.hw.mem := rfl
  obtain ⟨_, _, u3, u4, _⟩ := update_ok_block d o2 _ hok
  rw [wnf, wbcc, Nat.mod_eq_of_lt hwrap] at u3
  rw [wnf] at u4
  have hst : (E_EEPROM_XMC4_UpdateFlashContents d o2 (E_EEPROM_XMC4_WriteArray 0 P L s1).2).1
      ≠ ERASE_ERROR := by rw [hok]; decide
  have hsame : ∀ i, i < 8 → i ≠ 0 → sameBlock (E_EEPROM_XMC4_UpdateFlashContents d o2
      (E_EEPROM_XMC4_WriteArray 0 P L s1).2).2.hw.mem s1.hw.mem (blockAddr d i) := by
    rcases update_view hd o2 _ 0 7 wnf (by rw [wcs]; decide) (fun _ => ⟨by decide, wfda⟩) hst with
      ⟨_, _, h⟩ | ⟨⟨h, _⟩, _⟩
    · intro i hi hi0
      have := h i hi hi0
      rw [whw] at this
      exact this
    · rw [wcs] at h
      exact absurd h (by decide)
  have s6 := hsame 6 (by decide) (by decide)
  have s7 := hsame 7 (by decide) (by decide)
  have hscan := scan_stale (E_EEPROM_XMC4_UpdateFlashContents d o2
      (E_EEPROM_XMC4_WriteArray 0 P L s1).2).2.hw.mem L
    ⟨by rw [u3]; omega, u4⟩
    (fun i h1 h2 => by rw [cycleCount_congr (hsame i (by omega) (by omega))]; exact hz i h2)
    ((validBlock_congr d s6).2 ((validBlock_congr d h6).2 v6))
    (by rw [cycleCount_congr s7, cycleCount_congr h7]; exact n7)
    (by rw [cycleCount_congr s7, cycleCount_congr h7, u3, hbcc]; omega)
    (by rw [cycleCount_congr s6, cycleCount_congr h6, u3]; exact hlt)
  rcases booted_view hd o3 L (E_EEPROM_XMC4_UpdateFlashContents d o2
      (E_EEPROM_XMC4_WriteArray 0 P L s1).2).2.hw.mem he3 with ⟨hf0, _⟩ |
    ⟨j, hj, hfs, _, _, _, _, _, _, _, _, _, hdata⟩
  · rw [hscan] at hf0
    exact absurd hf0 (blockAddr_ne_zero hd 6)
  · rw [hscan] at hfs
    have hj6 := blockAddr_inj hd hfs
    intro i hi
    rw [hdata i hi, ← hj6, s6 _ (by omega) (by omega), h6 _ (by omega) (by omega)]

theorem readArray_first (n : Nat) (hn : 0 < n) (s : State) :
    (E_EEPROM_XMC4_ReadArray 0 n s)[0]? = some (E_EEPROM_XMC4_ReadByte 0 s) := by
  unfold E_EEPROM_XMC4_ReadArray E_EEPROM_XMC4_ReadByte
  rw [List.getElem?_map, List.getElem?_range hn]
  rfl

theorem readByte_eq (off : Nat) (s : State) :
    E_EEPROM_XMC4_ReadByte off s = s.e_eeprom_xmc4_data_buffer.eeprom_data off % 256 := rfl

theorem settled_run {d : Device} (hd : d.placed) (acts : List Action) (s : State)
    (hS : Settled d s) (hok : ∀ r ∈ persists d acts s, r.1 = OK)
    (hno : s.bcc + (persists d acts s).length < U32) : Settled d (run d acts s) := by
  induction acts generalizing s with
  | nil => exact hS
  | cons a as ih =>
    cases a with
    | writeByte off v =>
      simp only [persists] at hok hno
      exact ih _ (settled_writeByte off v hS) hok hno
    | writeArray off data n =>
      simp only [persists] at hok hno
      exact ih _ (settled_writeArray off data n hS) hok hno
    | persist o =>
      simp only [persists, List.length_cons, List.mem_cons, forall_eq_or_imp] at hok hno
      obtain ⟨h1, h2⟩ := hok
      have hb : (E_EEPROM_XMC4_UpdateFlashContents d o s).2.bcc = s.bcc + 1 := by
        rw [(update_ok_block d o s h1).2.1]; exact Nat.mod_eq_of_lt (by omega)
      exact ih _ (settled_update hd o s hS (by omega) h1) h2
        (by
          show (E_EEPROM_XMC4_UpdateFlashContents d o s).2.bcc
            + (persists d as (E_EEPROM_XMC4_UpdateFlashContents d o s).2).length < U32
          rw [hb]; omega)

theorem booted_fda (d : Device) (o : Outcomes) (len : Nat) (mem : Nat → Nat) :
    (booted d o len mem).2.fda = (scannedAll d len (powerOn mem)).fda := by
  unfold booted
  exact initFinish_fda d o _

/-- On an append-only image the scan ends on a valid block with the largest cycle
counter among the valid blocks, or with no latest block when no block is valid. -/
theorem scan_newest {d : Device} (len : Nat) (mem : Nat → Nat)
    (happ : appendOnly d mem) :
    ((∀ i, i < 8 → ¬ validBlock d mem (blockAddr d i)) ∧ (scannedAll d len (powerOn mem)).fda = 0) ∨
    (∃ j, j < 8 ∧ (scannedAll d len (powerOn mem)).fda = blockAddr d j ∧
      validBlock d mem (blockAddr d j) ∧
      ∀ i, i < 8 → validBlock d mem (blockAddr d i) →
        cycleCount mem (blockAddr d i) ≤ cycleCount mem (blockAddr d j)) := by
  have hmax := scanMax_all len (powerOn mem) (by exact happ)
  have hwm : (powerOn mem).hw.mem = mem := rfl
  rw [hwm] at hmax
  rcases scanBasic_all d len (powerOn mem) with ⟨_, ⟨hf0, hb0⟩ | ⟨j, hj, hfj, hvj, hcj, _⟩⟩
  · left
    refine ⟨fun i hi hv => ?_, hf0⟩
    have := hmax.1 i (by omega) hv
    rw [hb0] at this
    exact hv.1 (by omega)
  · right
    rw [hwm] at hvj hcj
    refine ⟨j, by omega, hfj, hvj, fun i hi hv => ?_⟩
    rw [hcj]
    exact hmax.1 i (by omega) hv

/-- Restart on a settled ring whose latest block has been damaged so that its checksum
no longer matches, the rest of the flash being as it was. -/
theorem settled_corrupt {d : Device} (hd : d.placed) (o3 : Outcomes) (L : Nat) (s : State)
    (mem2 : Nat → Nat) (hS : Settled d s) (hne : s.fda ≠ 0)
    (hrest : ∀ a, ¬ (s.fda ≤ a ∧ a < s.fda + 8192) → mem2 a = s.hw.mem a)
    (hbad : ¬ crcOk d mem2 s.fda) :
    (booted d o3 L mem2).2.fda ≠ s.fda ∧
    ((∀ i, i < 8 → ¬ validBlock d mem2 (blockAddr d i)) → (booted d o3 L mem2).2.fda = 0) ∧
    ((∃ i, i < 8 ∧ validBlock d mem2 (blockAddr d i)) →
      ∃ j, j < 8 ∧ (booted d o3 L mem2).2.fda = blockAddr d j ∧
        validBlock d mem2 (blockAddr d j) ∧ cycleCount mem2 (blockAddr d j) < s.bcc ∧
        ∀ i, i < 8 → validBlock d mem2 (blockAddr d i) →
          cycleCount mem2 (blockAddr d i) ≤ cycleCount mem2 (blockAddr d j)) := by
  have hbne : s.bcc ≠ 0 := by
    intro h0
    obtain ⟨_, _, p, _, _, _, hcase⟩ := hS
    rcases hcase with ⟨_, hf, _⟩ | ⟨hb, _⟩
    · exact hne hf
    · exact hb h0
  obtain ⟨happ, q, hq, hfq, hvq, hcq, hmq⟩ := settled_recorded hS hbne
  rw [hfq] at hrest hbad
  have hsame : ∀ i, i < 8 → i ≠ q → sameBlock mem2 s.hw.mem (blockAddr d i) :=
    fun i _ hi => sameBlock_of_frame hd hi hrest
  have hnq : ¬ validBlock d mem2 (blockAddr d q) := fun h => hbad h.2
  have hold : ∀ i, i < 8 → validBlock d mem2 (blockAddr d i) →
      i ≠ q ∧ validBlock d s.hw.mem (blockAddr d i) ∧
      cycleCount mem2 (blockAddr d i) = cycleCount s.hw.mem (blockAddr d i) := by
    intro i hi hv
    have hiq : i ≠ q := fun h => hnq (h ▸ hv)
    exact ⟨hiq, (validBlock_congr d (hsame i hi hiq)).1 hv, cycleCount_congr (hsame i hi hiq)⟩
  have happ2 : appendOnly d mem2 := by
    intro k hk v1 v2
    obtain ⟨_, w1, c1⟩ := hold (2 * k) (by omega) v1
    obtain ⟨_, w2, c2⟩ := hold (2 * k + 1) (by omega) v2
    rw [c1, c2]
    exact happ k hk w1 w2
  rw [booted_fda, hfq]
  rcases scan_newest L mem2 happ2 with ⟨hnone, hf0⟩ | ⟨j, hj, hfj, hvj, hmj⟩
  · refine ⟨?_, fun _ => hf0, ?_⟩
    · rw [hf0]; exact (blockAddr_ne_zero hd q).symm
    · rintro ⟨i, hi, hv⟩
      exact absurd hv (hnone i hi)
  · obtain ⟨hjq, wj, cj⟩ := hold j hj hvj
    refine ⟨?_, ?_, fun _ => ⟨j, hj, hfj, hvj, ?_, hmj⟩⟩
    · rw [hfj]
      exact fun h => hjq (blockAddr_inj hd h)
    · intro hnone
      exact absurd hvj (hnone j hj)
    · rw [cj]
      exact hmq j hj hjq wj

/-- A change of the stored checksum of a block with a matching checksum, the rest of
the block being kept, leaves a block whose checksum does not match. -/
theorem crc_field_change {d : Device} {mem mem2 : Nat → Nat} {a : Nat}
    (hv : crcOk d mem a) (hkeep : ∀ x, a + 4 ≤ x → x < a + 8192 → mem2 x = mem x)
    (hw : readWord mem2 a ≠ readWord mem a) : ¬ crcOk d mem2 a := by
  unfold crcOk at hv ⊢
  have e : E_EEPROM_XMC4_lCalculateCRC d mem2 (a + 4) = E_EEPROM_XMC4_lCalculateCRC d mem (a + 4) := by
    apply crc_congr
    intro i hi
    rw [hkeep (a + 4 + i) (by omega) (by omega)]
  rw [e, hv]
  exact fun h => hw h.symm

theorem flipChecksum_ne (s : State) (a : Nat) (h : a ≠ s.fda) : flipChecksum s a = s.hw.mem a := by
  unfold flipChecksum
  rw [if_neg h]

theorem flipChecksum_rest (s : State) (a : Nat) (h : ¬ (s.fda ≤ a ∧ a < s.fda + 8192)) :
    flipChecksum s a = s.hw.mem a := by
  apply flipChecksum_ne
  intro e
  apply h
  rw [e]
  omega

theorem flipChecksum_bad (d : Device) (s : State) (hv : crcOk d s.hw.mem s.fda) :
    ¬ crcOk d (flipChecksum s) s.fda := by
  apply crc_field_change hv
  · intro x h1 h2
    exact flipChecksum_ne s x (by omega)
  · have e0 : flipChecksum s s.fda
        = if s.hw.mem s.fda % 2 = 0 then s.hw.mem s.fda + 1 else s.hw.mem s.fda - 1 := by
      unfold flipChecksum
      rw [if_pos rfl]
    have e1 : flipChecksum s (s.fda + 1) = s.hw.mem (s.fda + 1) := by
      unfold flipChecksum
      rw [if_neg (by omega)]
    have e2 : flipChecksum s (s.fda + 2) = s.hw.mem (s.fda + 2) := by
      unfold flipChecksum
      rw [if_neg (by omega)]
    have e3 : flipChecksum s (s.fda + 3) = s.hw.mem (s.fda + 3) := by
      unfold flipChecksum
      rw [if_neg (by omega)]
    unfold readWord
    rw [e0, e1, e2, e3]
    split_ifs <;> omega

theorem settled_latest_valid {d : Device} {s : State} (hS : Settled d s) (hne : s.fda ≠ 0) :
    ∃ q, q < 8 ∧ s.fda = blockAddr d q ∧ validBlock d s.hw.mem (blockAddr d q) := by
  have hbne : s.bcc ≠ 0 := by
    intro h0
    obtain ⟨_, _, p, _, _, _, hcase⟩ := hS
    rcases hcase with ⟨_, hf, _⟩ | ⟨hb, _⟩
    · exact hne hf
    · exact hb h0
  obtain ⟨_, q, hq, hfq, hvq, _⟩ := settled_recorded hS hbne
  exact ⟨q, hq, hfq, hvq⟩

/-- After a persist on a settled ring that returns `OK` the block that was the latest
before is still valid, unless the persist has overwritten it. -/
theorem settled_previous_kept {d : Device} (hd : d.placed) (o : Outcomes) (s : State)
    (hS : Settled d s) (hne : s.fda ≠ 0) (hnf : s.nf ≠ s.fda)
    (hok : (E_EEPROM_XMC4_UpdateFlashContents d o s).1 ≠ ERASE_ERROR) :
    ∃ q, q < 8 ∧ s.fda = blockAddr d q ∧
      sameBlock (E_EEPROM_XMC4_UpdateFlashContents d o s).2.hw.mem s.hw.mem (blockAddr d q) ∧
      validBlock d (E_EEPROM_XMC4_UpdateFlashContents d o s).2.hw.mem (blockAddr d q) := by
  obtain ⟨q, hq, hfq, hvq⟩ := settled_latest_valid hS hne
  obtain ⟨_, hcs, p, hp, hp2, _⟩ := hS
  have hpq : q ≠ p := by
    intro h
    apply hnf
    rw [hp2, hfq, h]
  have hsame : sameBlock (E_EEPROM_XMC4_UpdateFlashContents d o s).2.hw.mem s.hw.mem (blockAddr d q) := by
    rcases update_view hd o s p q hp2 hcs (fun _ => ⟨hq, hfq⟩) hok with ⟨_, _, h⟩ | ⟨_, _, h, _⟩
    · exact h q hq hpq
    · exact h q hq hpq rfl
  exact ⟨q, hq, hfq, hsame, (validBlock_congr d hsame).2 hvq⟩

theorem run_twoPersists (d : Device) (s : State) :
    run d twoPersists s = (E_EEPROM_XMC4_UpdateFlashContents d allOk
      (E_EEPROM_XMC4_WriteByte 0 7 (E_EEPROM_XMC4_UpdateFlashContents d allOk s).2).2).2 := rfl

/-- The flash after the page loop when page `f` is the first whose program does not
verify: the pages before it hold the RAM bytes, page `f` holds what the failed command
left, and the loop has stopped there. -/
theorem programPages_mem_fail (o : Outcomes) (ram : Nat → Nat) (dst : Nat) (n k f : Nat) (hw : Hw)
    (hkf : k ≤ f) (hfn : f < k + n)
    (h : ∀ j, k ≤ j → j < f → o.verifyOk j = true) (hf : o.verifyOk f = false) (a : Nat) :
    (programPages o ram dst n k hw).1 = WRITE_ERROR ∧
    (programPages o ram dst n k hw).2.mem a =
      if dst + 256 * k ≤ a ∧ a < dst + 256 * f then ram (a - dst) % 256
      else if dst + 256 * f ≤ a ∧ a < dst + 256 * (f + 1) then o.junk a
      else hw.mem a := by
  induction n generalizing k hw with
  | zero => exact absurd hfn (by omega)
  | succ n ih =>
    unfold programPages
    by_cases hk : k = f
    · subst hk
      simp only [hf, if_true]
      refine ⟨trivial, ?_⟩
      simp only [XMC_FLASH_ProgramPage, PAGE_BYTES, E_EEPROM_XMC4_MIN_WORDS_PER_PAGE,
        Bool.false_eq_true, if_false]
      have c1 : ¬ (dst + 256 * k ≤ a ∧ a < dst + 256 * k) := by omega
      rw [if_neg c1]
      by_cases c3 : dst + 4 * 64 * k ≤ a ∧ a < dst + 4 * 64 * k + 4 * 64
      · have c2 : dst + 256 * k ≤ a ∧ a < dst + 256 * (k + 1) := by omega
        rw [if_pos c3, if_pos c2]
      · have c2 : ¬ (dst + 256 * k ≤ a ∧ a < dst + 256 * (k + 1)) := by omega
        rw [if_neg c3, if_neg c2]
    · have hkv : o.verifyOk k = true := h k (le_refl _) (by omega)
      simp only [hkv, Bool.true_eq_false, if_false]
      obtain ⟨i1, i2⟩ := ih (k + 1) (XMC_FLASH_ProgramPage true o.junk (dst + PAGE_BYTES * k)
        (fun i => ram (PAGE_BYTES * k + i)) hw) (by omega) (by omega)
        (fun j h1 h2 => h j (by omega) h2)
      refine ⟨i1, ?_⟩
      rw [i2]
      simp only [XMC_FLASH_ProgramPage, PAGE_BYTES, E_EEPROM_XMC4_MIN_WORDS_PER_PAGE, if_true]
      by_cases c1 : dst + 256 * (k + 1) ≤ a ∧ a < dst + 256 * f
      · have c2 : dst + 256 * k ≤ a ∧ a < dst + 256 * f := by omega
        rw [if_pos c1, if_pos c2]
      · rw [if_neg c1]
        by_cases c4 : dst + 256 * f ≤ a ∧ a < dst + 256 * (f + 1)
        · have c2 : ¬ (dst + 256 * k ≤ a ∧ a < dst + 256 * f) := by omega
          rw [if_pos c4, if_neg c2, if_pos c4]
        · rw [if_neg c4]
          by_cases c3 : dst + 4 * 64 * k ≤ a ∧ a < dst + 4 * 64 * k + 4 * 64
          · have c2 : dst + 256 * k ≤ a ∧ a < dst + 256 * f := by omega
            have e : 4 * 64 * k + (a - (dst + 4 * 64 * k)) = a - dst := by omega
            rw [if_pos c3, if_pos c2, e]
          · have c2 : ¬ (dst + 256 * k ≤ a ∧ a < dst + 256 * f) := by omega
            rw [if_neg c3, if_neg c2, if_neg c4]

/-- Restart after a persist on a settled ring that got to the write step and left at
the cursor a block that is not valid: the initialisation from reset takes the block
that was the latest before that persist, with its counter and its payload. -/
theorem settled_abort {d : Device} (hd : d.placed) (o2 o3 : Outcomes) (L : Nat) (s : State)
    (hS : Settled d s) (hne : s.fda ≠ 0) (he3 : ∀ m, m < 4 → o3.eraseOk m = true)
    (hst : (E_EEPROM_XMC4_UpdateFlashContents d o2 s).1 ≠ ERASE_ERROR)
    (hinv : ¬ validBlock d (E_EEPROM_XMC4_UpdateFlashContents d o2 s).2.hw.mem s.nf) :
    ((booted d o3 L (E_EEPROM_XMC4_UpdateFlashContents d o2 s).2.hw.mem).1 = OK ∨
      (booted d o3 L (E_EEPROM_XMC4_UpdateFlashContents d o2 s).2.hw.mem).1 = ERROR_OLD_DATA) ∧
    (booted d o3 L (E_EEPROM_XMC4_UpdateFlashContents d o2 s).2.hw.mem).2.fda = s.fda ∧
    (booted d o3 L (E_EEPROM_XMC4_UpdateFlashContents d o2 s).2.hw.mem).2.bcc
      = cycleCount s.hw.mem s.fda ∧
    (∀ i, i < 8184 →
      (booted d o3 L (E_EEPROM_XMC4_UpdateFlashContents d o2 s).2.hw.mem).2.e_eeprom_xmc4_data_buffer.eeprom_data i
        = s.hw.mem (s.fda + 8 + i) % 256) ∧
    s.fda ≠ s.nf := by
  obtain ⟨happ, hcs, p, hp, hnf, _, hcase⟩ := hS
  rcases hcase with ⟨_, hf, _⟩ | ⟨hbne, q, hq, hfq, hvq, hcq, hmq, hpq⟩
  · exact absurd hf hne
  have hqp : q ≠ p := by omega
  rw [hnf] at hinv
  -- the blocks of the ring after the persist
  have hblocks : ∀ i, i < 8 → i ≠ p →
      sameBlock (E_EEPROM_XMC4_UpdateFlashContents d o2 s).2.hw.mem s.hw.mem (blockAddr d i) ∨
      cycleCount (E_EEPROM_XMC4_UpdateFlashContents d o2 s).2.hw.mem (blockAddr d i) = 0 := by
    intro i hi hip
    rcases update_view hd o2 s p q hnf hcs (fun _ => ⟨hq, hfq⟩) hst with ⟨_, _, h⟩ | ⟨_, _, h1, h2⟩
    · exact Or.inl (h i hi hip)
    · by_cases hsec : i / 2 = q / 2
      · exact Or.inl (h1 i hi hip hsec)
      · exact Or.inr (h2 i hi hip hsec)
  have hsq : sameBlock (E_EEPROM_XMC4_UpdateFlashContents d o2 s).2.hw.mem s.hw.mem (blockAddr d q) := by
    rcases update_view hd o2 s p q hnf hcs (fun _ => ⟨hq, hfq⟩) hst with ⟨_, _, h⟩ | ⟨_, _, h1, _⟩
    · exact h q hq hqp
    · exact h1 q hq hqp rfl
  have hold : ∀ i, i < 8 → validBlock d (E_EEPROM_XMC4_UpdateFlashContents d o2 s).2.hw.mem (blockAddr d i) →
      i ≠ p ∧ validBlock d s.hw.mem (blockAddr d i) ∧
      cycleCount (E_EEPROM_XMC4_UpdateFlashContents d o2 s).2.hw.mem (blockAddr d i)
        = cycleCount s.hw.mem (blockAddr d i) := by
    intro i hi hv
    have hip : i ≠ p := fun h => hinv (h ▸ hv)
    rcases hblocks i hi hip with h | h
    · exact ⟨hip, (validBlock_congr d h).1 hv, cycleCount_congr h⟩
    · exact absurd h hv.1
  have happ2 : appendOnly d (E_EEPROM_XMC4_UpdateFlashContents d o2 s).2.hw.mem := by
    intro k hk v1 v2
    obtain ⟨_, w1, c1⟩ := hold (2 * k) (by omega) v1
    obtain ⟨_, w2, c2⟩ := hold (2 * k + 1) (by omega) v2
    rw [c1, c2]
    exact happ k hk w1 w2
  have hvq2 := (validBlock_congr d hsq).2 hvq
  obtain ⟨r1, r2, r3, r4⟩ := boot_recovers hd o3 L _ he3 happ2 q hq hvq2 (by
    intro i hi hiq hv
    obtain ⟨_, w, c⟩ := hold i hi hv
    rw [c, cycleCount_congr hsq, hcq]
    exact hmq i hi hiq w)
  refine ⟨r1, by rw [r2, hfq], by rw [r3, hfq, cycleCount_congr hsq], ?_, ?_⟩
  · intro i hi
    rw [r4 i hi, hfq, hsq _ (by omega) (by omega)]
  · rw [hfq, hnf]
    exact fun h => hqp (blockAddr_inj hd h)

theorem settled_fresh {d : Device} (len : Nat) {flash : Nat → Nat} (h : erasedRing d flash) :
    Settled d (freshState d len flash) := by
  refine ⟨appendOnly_of_zero (fun k _ => Or.inl (h _ (by omega))), (by decide : (0 : Nat) < 4), 0,
    (by decide : (0 : Nat) < 8), ?_,
    fun t _ => h _ (Nat.mod_lt _ (by decide)), Or.inl ⟨rfl, rfl, rfl, rfl, h⟩⟩
  show E_EEPROM_XMC4_SECTOR0_START_ADDR d = blockAddr d 0
  simp only [blockAddr, Nat.mul_zero, Nat.add_zero]

theorem clearBit_self : ∀ es, es < 16 → ∀ k, k < 4 →
    ¬ dirty (es &&& (U32 - 1 - (1 <<< k) % U32)) k := by
  decide

theorem sectorsToErase_succ_pos (s : State) (k n : Nat) (c : k ≠ s.cs ∧ dirty s.es k) :
    sectorsToErase s k (n + 1) = k :: sectorsToErase s (k + 1) n := by
  unfold sectorsToErase
  rw [List.range'_succ, List.filter_cons, if_pos (decide_eq_true c)]

theorem sectorsToErase_succ_neg (s : State) (k n : Nat) (c : ¬ (k ≠ s.cs ∧ dirty s.es k)) :
    sectorsToErase s k (n + 1) = sectorsToErase s (k + 1) n := by
  unfold sectorsToErase
  rw [List.range'_succ, List.filter_cons, if_neg (by simpa using c)]

theorem sectorsToErase_congr {s1 s2 : State} (k n : Nat) (hcs : s2.cs = s1.cs)
    (h : ∀ m, k ≤ m → m < k + n → (dirty s2.es m ↔ dirty s1.es m)) :
    sectorsToErase s2 k n = sectorsToErase s1 k n := by
  unfold sectorsToErase
  apply List.filter_congr
  intro m hm
  rw [List.mem_range'_1] at hm
  rw [hcs]
  have := h m hm.1 hm.2
  simp only [this]

theorem mem_sectorsToErase (s : State) (k n m : Nat) :
    m ∈ sectorsToErase s k n ↔ (k ≤ m ∧ m < k + n) ∧ m ≠ s.cs ∧ dirty s.es m := by
  unfold sectorsToErase
  rw [List.mem_filter, List.mem_range'_1, decide_eq_true_iff]

/-- The erase state machine from sector `k` on when every erase it sends verifies. -/
theorem eraseLoop_trace_ok {d : Device} (hd : d.placed) (o : Outcomes) (n k : Nat) (s : State)
    (hkn : k + n = 4) (hes : s.es < 16)
    (hall : ∀ m ∈ sectorsToErase s k n, o.eraseOk m = true) :
    (eraseLoop d o n k s).1 = OK ∧
    (eraseLoop d o n k s).2.hw.ops
      = s.hw.ops ++ (sectorsToErase s k n).map (fun m => FlashOp.erase (blockAddr d (2 * m))) ∧
    (eraseLoop d o n k s).2.es < 16 ∧
    ∀ m, m < 4 → (dirty (eraseLoop d o n k s).2.es m ↔ (dirty s.es m ∧ (m < k ∨ m = s.cs))) := by
  induction n generalizing k s with
  | zero =>
    refine ⟨rfl, ?_, hes, fun m hm => ?_⟩
    · simp only [sectorsToErase, List.range'_zero, List.filter_nil, List.map_nil, List.append_nil]
      rfl
    · show dirty s.es m ↔ _
      constructor
      · exact fun h => ⟨h, Or.inl (by omega)⟩
      · exact fun h => h.1
  | succ n ih =>
    have hk : k < 4 := by omega
    have haddr := sectorStart_eq hd k hk
    unfold eraseLoop
    by_cases c : s.e_eeprom_xmc4_sector_info.current_sector ≠ k
        ∧ (s.e_eeprom_xmc4_sector_info.erase_state >>> k) &&& 1 ≠ 0
    · have c2 : k ≠ s.cs ∧ dirty s.es k := ⟨fun h => c.1 h.symm, c.2⟩
      rw [sectorsToErase_succ_pos s k n c2] at hall ⊢
      have hok : o.eraseOk k = true := hall k (List.mem_cons_self _ _)
      rw [if_pos c]
      simp only [hok, Bool.true_eq_false, if_false, haddr]
      obtain ⟨f1, f2⟩ := clearBit_facts s.es hes k hk
      have f3 := clearBit_self s.es hes k hk
      have hcong : sectorsToErase
          { s with
            hw := XMC_FLASH_EraseSector true o.junk (blockAddr d (2 * k)) s.hw
            e_eeprom_xmc4_sector_info := { s.e_eeprom_xmc4_sector_info with
              erase_state := s.e_eeprom_xmc4_sector_info.erase_state
                &&& (U32 - 1 - (1 <<< k) % U32) } } (k + 1) n = sectorsToErase s (k + 1) n :=
        sectorsToErase_congr (k + 1) n rfl (fun m h1 h2 => f2 m (by omega) (by omega))
      obtain ⟨i1, i2, i3, i4⟩ := ih (k + 1) _ (by omega) f1
        (by rw [hcong]; exact fun m hm => hall m (List.mem_cons_of_mem _ hm))
      rw [hcong] at i2
      refine ⟨i1, ?_, i3, fun m hm => ?_⟩
      · rw [i2]
        simp only [XMC_FLASH_EraseSector, List.map_cons, List.append_assoc, List.singleton_append]
      · rw [i4 m hm]
        by_cases hmk : m = k
        · subst hmk
          constructor
          · exact fun h => absurd h.1 f3
          · rintro ⟨_, h | h⟩
            · omega
            · exact absurd h c2.1
        · rw [show (dirty (s.e_eeprom_xmc4_sector_info.erase_state &&& (U32 - 1 - (1 <<< k) % U32)) m
            ↔ dirty s.es m) from f2 m hm hmk]
          constructor
          · rintro ⟨h1, h2 | h2⟩
            · exact ⟨h1, Or.inl (by omega)⟩
            · exact ⟨h1, Or.inr h2⟩
          · rintro ⟨h1, h2 | h2⟩
            · exact ⟨h1, Or.inl (by omega)⟩
            · exact ⟨h1, Or.inr h2⟩
    · have c2 : ¬ (k ≠ s.cs ∧ dirty s.es k) := fun h => c ⟨fun e => h.1 e.symm, h.2⟩
      rw [sectorsToErase_succ_neg s k n c2] at hall ⊢
      rw [if_neg c]
      obtain ⟨i1, i2, i3, i4⟩ := ih (k + 1) s (by omega) hes hall
      refine ⟨i1, i2, i3, fun m hm => ?_⟩
      rw [i4 m hm]
      constructor
      · rintro ⟨h1, h2 | h2⟩
        · by_cases hmk : m = k
          · subst hmk
            refine ⟨h1, Or.inr ?_⟩
            by_contra hne
            exact c2 ⟨hne, h1⟩
          · exact ⟨h1, Or.inl (by omega)⟩
        · exact ⟨h1, Or.inr h2⟩
      · rintro ⟨h1, h2 | h2⟩
        · exact ⟨h1, Or.inl (by omega)⟩
        · exact ⟨h1, Or.inr h2⟩

/-- The erase state machine from sector `k` on when the erase of sector `f` is the first
that does not verify. -/
theorem eraseLoop_trace_fail {d : Device} (hd : d.placed) (o : Outcomes) (n k f : Nat) (s : State)
    (hkn : k + n = 4) (hes : s.es < 16) (hkf : k ≤ f) (hf4 : f < 4)
    (hfT : f ≠ s.cs ∧ dirty s.es f) (hff : o.eraseOk f = false)
    (hbefore : ∀ m ∈ sectorsToErase s k (f - k), o.eraseOk m = true) :
    (eraseLoop d o n k s).1 = ERASE_ERROR ∧
    (eraseLoop d o n k s).2.hw.ops
      = s.hw.ops ++ (sectorsToErase s k (f + 1 - k)).map (fun m => FlashOp.erase (blockAddr d (2 * m))) ∧
    ∀ m, f ≤ m → m < 4 → (dirty (eraseLoop d o n k s).2.es m ↔ dirty s.es m) := by
  induction n generalizing k s with
  | zero => exact absurd hkn (by omega)
  | succ n ih =>
    have hk : k < 4 := by omega
    have haddr := sectorStart_eq hd k hk
    unfold eraseLoop
    by_cases hkf2 : k = f
    · subst hkf2
      have c : s.e_eeprom_xmc4_sector_info.current_sector ≠ k
          ∧ (s.e_eeprom_xmc4_sector_info.erase_state >>> k) &&& 1 ≠ 0 :=
        ⟨fun h => hfT.1 h.symm, hfT.2⟩
      rw [if_pos c]
      simp only [haddr]
      rw [if_pos hff]
      have e1 : k + 1 - k = 0 + 1 := by omega
      rw [e1, sectorsToErase_succ_pos s k 0 hfT]
      refine ⟨rfl, ?_, fun m _ _ => Iff.rfl⟩
      simp only [XMC_FLASH_EraseSector, sectorsToErase, List.range'_zero, List.filter_nil,
        List.map_cons, List.map_nil]
    · have e1 : f - k = (f - k - 1) + 1 := by omega
      have e2 : f + 1 - k = (f - k) + 1 := by omega
      have e3 : f - (k + 1) = f - k - 1 := by omega
      have e4 : f + 1 - (k + 1) = f - k := by omega
      by_cases c : s.e_eeprom_xmc4_sector_info.current_sector ≠ k
          ∧ (s.e_eeprom_xmc4_sector_info.erase_state >>> k) &&& 1 ≠ 0
      · have c2 : k ≠ s.cs ∧ dirty s.es k := ⟨fun h => c.1 h.symm, c.2⟩
        rw [e1, sectorsToErase_succ_pos s k _ c2] at hbefore
        rw [e2, sectorsToErase_succ_pos s k _ c2]
        have hok : o.eraseOk k = true := hbefore k (List.mem_cons_self _ _)
        rw [if_pos c]
        simp only [hok, Bool.true_eq_false, if_false, haddr]
        obtain ⟨f1, f2⟩ := clearBit_facts s.es hes k hk
        obtain ⟨s1, hs1⟩ : ∃ s1 : State, s1 = { s with
              hw := XMC_FLASH_EraseSector true o.junk (blockAddr d (2 * k)) s.hw
              e_eeprom_xmc4_sector_info := { s.e_eeprom_xmc4_sector_info with
                erase_state := s.e_eeprom_xmc4_sector_info.erase_state
                  &&& (U32 - 1 - (1 <<< k) % U32) } } := ⟨_, rfl⟩
        rw [← hs1]
        have hcs1 : s1.cs = s.cs := by rw [hs1]
        have hes1 : s1.es = s.es &&& (U32 - 1 - (1 <<< k) % U32) := by rw [hs1]
        have hops1 : s1.hw.ops = s.hw.ops ++ [FlashOp.erase (blockAddr d (2 * k))] := by rw [hs1]; rfl
        have hcong : ∀ n2, k + 1 + n2 ≤ 4 →
            sectorsToErase s1 (k + 1) n2 = sectorsToErase s (k + 1) n2 :=
          fun n2 hn2 => sectorsToErase_congr (k + 1) n2 hcs1
            (fun m h1 h2 => by rw [hes1]; exact f2 m (by omega) (by omega))
        have hfT2 : f ≠ s1.cs ∧ dirty s1.es f := by
          rw [hcs1, hes1]
          exact ⟨hfT.1, (f2 f hf4 (fun h => hkf2 h.symm)).2 hfT.2⟩
        obtain ⟨i1, i2, i3⟩ := ih (k + 1) s1 (by omega) (by rw [hes1]; exact f1) (by omega) hfT2
          (by rw [hcong _ (by omega), e3]; exact fun m hm => hbefore m (List.mem_cons_of_mem _ hm))
        rw [hcong _ (by omega), e4, hops1] at i2
        refine ⟨i1, ?_, fun m h1 h2 => ?_⟩
        · rw [i2]
          simp only [List.map_cons, List.append_assoc, List.singleton_append]
        · rw [i3 m h1 h2, hes1]
          exact f2 m h2 (by omega)
      · have c2 : ¬ (k ≠ s.cs ∧ dirty s.es k) := fun h => c ⟨fun e => h.1 e.symm, h.2⟩
        rw [e1, sectorsToErase_succ_neg s k _ c2] at hbefore
        rw [e2, sectorsToErase_succ_neg s k _ c2]
        rw [if_neg c]
        obtain ⟨i1, i2, i3⟩ := ih (k + 1) s (by omega) hes (by omega) hfT
          (by rw [e3]; exact hbefore)
        rw [e4] at i2
        exact ⟨i1, i2, i3⟩

/-- The commands the erase state machine adds are erases of sectors other than
`current_sector`, whatever the flash module reports. -/
theorem eraseLoop_ops_new {d : Device} (hd : d.placed) (o : Outcomes) (n k : Nat) (s : State)
    (hkn : k + n ≤ 4) :
    ∃ l, (eraseLoop d o n k s).2.hw.ops = s.hw.ops ++ l ∧
      ∀ x ∈ l, ∃ m, m < 4 ∧ m ≠ s.cs ∧ x = FlashOp.erase (blockAddr d (2 * m)) := by
  induction n generalizing k s with
  | zero => exact ⟨[], (List.append_nil _).symm, fun x hx => absurd hx (List.not_mem_nil _)⟩
  | succ n ih =>
    have hk : k < 4 := by omega
    have haddr := sectorStart_eq hd k hk
    unfold eraseLoop
    by_cases c : s.e_eeprom_xmc4_sector_info.current_sector ≠ k
        ∧ (s.e_eeprom_xmc4_sector_info.erase_state >>> k) &&& 1 ≠ 0
    · rw [if_pos c]
      simp only [haddr]
      have hx : ∀ x ∈ [FlashOp.erase (blockAddr d (2 * k))],
          ∃ m, m < 4 ∧ m ≠ s.cs ∧ x = FlashOp.erase (blockAddr d (2 * m)) := by
        intro x hx
        rw [List.mem_singleton] at hx
        exact ⟨k, hk, fun h => c.1 h.symm, hx⟩
      by_cases hok : o.eraseOk k = false
      · rw [if_pos hok]
        exact ⟨[FlashOp.erase (blockAddr d (2 * k))], rfl, hx⟩
      · rw [if_neg hok]
        obtain ⟨l, h1, h2⟩ := ih (k + 1) { s with
            hw := XMC_FLASH_EraseSector (o.eraseOk k) o.junk (blockAddr d (2 * k)) s.hw
            e_eeprom_xmc4_sector_info := { s.e_eeprom_xmc4_sector_info with
              erase_state := s.e_eeprom_xmc4_sector_info.erase_state
                &&& (U32 - 1 - (1 <<< k) % U32) } } (by omega)
        refine ⟨FlashOp.erase (blockAddr d (2 * k)) :: l, ?_, fun x hx => ?_⟩
        · rw [h1]
          simp only [XMC_FLASH_EraseSector, List.append_assoc, List.singleton_append]
        · rcases List.mem_cons.1 hx with h | h
          · exact ⟨k, hk, fun e => c.1 e.symm, h⟩
          · exact h2 x h
    · rw [if_neg c]
      exact ih (k + 1) s (by omega)

/-- The commands the page loop adds are page programs. -/
theorem programPages_ops_new (o : Outcomes) (ram : Nat → Nat) (dst n k : Nat) (hw : Hw) :
    ∃ l, (programPages o ram dst n k hw).2.ops = hw.ops ++ l ∧
      ∀ x ∈ l, ∃ a, x = FlashOp.program a := by
  induction n generalizing k hw with
  | zero => exact ⟨[], (List.append_nil _).symm, fun x hx => absurd hx (List.not_mem_nil _)⟩
  | succ n ih =>
    unfold programPages
    simp only []
    split_ifs
    · exact ⟨[FlashOp.program (dst + PAGE_BYTES * k)], rfl,
        fun x hx => ⟨_, List.mem_singleton.1 hx⟩⟩
    · obtain ⟨l, h1, h2⟩ := ih (k + 1) (XMC_FLASH_ProgramPage (o.verifyOk k) o.junk
        (dst + PAGE_BYTES * k) (fun i => ram (PAGE_BYTES * k + i)) hw)
      refine ⟨FlashOp.program (dst + PAGE_BYTES * k) :: l, ?_, fun x hx => ?_⟩
      · rw [h1]
        simp only [XMC_FLASH_ProgramPage, List.append_assoc, List.singleton_append]
      · rcases List.mem_cons.1 hx with h | h
        · exact ⟨_, h⟩
        · exact h2 x h

theorem updateWrite_ops_new (d : Device) (o : Outcomes) (s : State) :
    ∃ l, (updateWrite d o s).2.hw.ops = s.hw.ops ++ l ∧ ∀ x ∈ l, ∃ a, x = FlashOp.program a := by
  rw [updateWrite_hw]
  unfold E_EEPROM_XMC4_lWriteToFlash
  simp only []
  exact programPages_ops_new o _ _ _ _ _

theorem initFinish_erase_error (d : Device) (o : Outcomes) (s1 : State)
    (hne : (eraseLoop d o 4 0 s1).1 ≠ OK) :
    initFinish d o OK s1
      = ((eraseLoop d o 4 0 s1).1, { (eraseLoop d o 4 0 s1).2 with initialized := true }) := by
  unfold initFinish E_EEPROM_XMC4_lInitEraseStateMachine
  rw [if_pos rfl]
  simp only [E_EEPROM_XMC4_MAX_SECTORS]
  rw [if_neg hne]

theorem initFinish_ok_of_status (d : Device) (o : Outcomes) (s1 : State)
    (hst : (initFinish d o OK s1).1 = OK ∨ (initFinish d o OK s1).1 = ERROR_OLD_DATA) :
    (eraseLoop d o 4 0 s1).1 = OK := by
  by_contra hne
  rw [initFinish_erase_error d o s1 hne] at hst
  rcases eraseLoop_status d o 4 0 s1 with h | h
  · exact hne h
  · rcases hst with h2 | h2
    · exact hne h2
    · rw [h] at h2
      exact E_EEPROM_XMC4_STATUS_t.noConfusion h2

/-- The cursor after an initialisation whose erase state machine has returned `OK`. -/
theorem initFinish_inRing {d : Device} (hd : d.placed) (o : Outcomes) (mem : Nat → Nat) (s1 : State)
    (hb : ScanBasic d mem 4 s1) (hok : (eraseLoop d o 4 0 s1).1 = OK) :
    inRing d (initFinish d o OK s1).2 := by
  rcases hb.2 with ⟨hf0, _⟩ | ⟨j, hj, hfj, _, _, _, hnfj⟩
  · rw [initFinish_empty d o s1 hok hf0]
    refine ⟨0, by decide, ?_⟩
    show E_EEPROM_XMC4_SECTOR0_START_ADDR d = blockAddr d 0
    simp only [blockAddr, Nat.mul_zero, Nat.add_zero]
  · have hne : s1.fda ≠ 0 := by rw [hfj]; exact blockAddr_ne_zero hd j
    obtain ⟨_, _, _, g4, _⟩ := initFinish_data d o s1 hok hne
    have h4 := sector4_eq hd
    have h0 := sector0_eq hd
    have hbe := blockAddr_eq hd
    have h2 := base_lt hd
    rcases hnfj with hn | ⟨_, _, hn⟩
    · refine ⟨(2 * (j / 2) + 2) % 8, Nat.mod_lt _ (by decide), ?_⟩
      rw [g4, hn, h4, h0, hbe, hbe]
      split_ifs <;> omega
    · refine ⟨j + 1, by omega, ?_⟩
      rw [g4, hn, h4, hbe]
      have : ¬ (d.XMC_FLASH_UNCACHED_BASE + 65536 + 8192 * (j + 1)
          ≥ d.XMC_FLASH_UNCACHED_BASE + 131072) := by omega
      rw [if_neg this]

theorem run_inRing {d : Device} (hd : d.placed) (acts : List Action) (s : State) (h : inRing d s) :
    inRing d (run d acts s) := by
  induction acts generalizing s with
  | nil => exact h
  | cons a as ih => exact ih _ (step_inRing hd a s h)

/-- Field `current_sector` after the second half of the initialisation: sector 0 when the
erase state machine returned `OK` and no block was taken, as the scan left it
otherwise. -/
theorem initFinish_cs (d : Device) (o : Outcomes) (s1 : State) :
    (initFinish d o OK s1).2.cs
      = if (eraseLoop d o 4 0 s1).1 = OK ∧ s1.fda = 0 then 0 else s1.cs := by
  obtain ⟨_, _, f3, f4, _⟩ := eraseLoop_frame d o 4 0 s1
  by_cases hok : (eraseLoop d o 4 0 s1).1 = OK
  · by_cases hf : s1.fda = 0
    · rw [initFinish_empty d o s1 hok hf, if_pos ⟨hok, hf⟩]
    · rw [(initFinish_data d o s1 hok hf).2.1, if_neg (fun h => hf h.2)]
  · rw [initFinish_erase_error d o s1 hok, if_neg (fun h => hok h.1)]
    exact f4

/-- Field `current_sector` after a persist: unchanged, except when the persist found the
ring filled, where it is taken from the latest block address of before the call. -/
theorem update_cs (d : Device) (o : Outcomes) (s : State) :
    (¬ ringFilled d s → (E_EEPROM_XMC4_UpdateFlashContents d o s).2.cs = s.cs) ∧
    (ringFilled d s → (E_EEPROM_XMC4_UpdateFlashContents d o s).2.cs = (s.fda &&& 0xC000) >>> 14) := by
  constructor
  · intro h
    rw [update_of_not_filled o h]
    exact (updateWrite_info d o s).2.2.2.2.1
  · intro h
    have f4 := (eraseLoop_frame d o 4 0 (markAllFilled s)).2.2.2.1
    rw [update_of_filled o h]
    split_ifs
    · rw [(updateWrite_info d o _).2.2.2.2.1, f4]
      rfl
    · rw [f4]
      rfl

/-- The latest block and `current_sector` after the second half of the initialisation,
run on a state `s1` the scan can leave. -/
theorem initFinish_active {d : Device} (hd : d.placed) (o : Outcomes) (mem : Nat → Nat) (s1 : State)
    (hb : ScanBasic d mem 4 s1) (hsent : s1.fda = 0 → s1.cs = 0xFFFFFFFF) :
    (∃ j, j < 8 ∧ (initFinish d o OK s1).2.fda = blockAddr d j ∧
        (initFinish d o OK s1).2.cs = j / 2) ∨
      ((initFinish d o OK s1).2.fda = 0 ∧
        (((initFinish d o OK s1).1 = OK ∧ (initFinish d o OK s1).2.cs = 0) ∨
         ((initFinish d o OK s1).1 = ERASE_ERROR ∧ (initFinish d o OK s1).2.cs = 0xFFFFFFFF))) := by
  have hfda := initFinish_fda d o s1
  have hcs := initFinish_cs d o s1
  rcases hb.2 with ⟨hf0, _⟩ | ⟨j, hj, hfj, _, _, hcsj, _⟩
  · right
    refine ⟨hfda.trans hf0, ?_⟩
    by_cases hok : (eraseLoop d o 4 0 s1).1 = OK
    · left
      refine ⟨?_, by rw [hcs, if_pos ⟨hok, hf0⟩]⟩
      rw [initFinish_empty d o _ hok hf0]
    · right
      refine ⟨?_, ?_⟩
      · rw [initFinish_erase_error d o _ hok]
        rcases eraseLoop_status d o 4 0 s1 with h | h
        · exact absurd h hok
        · exact h
      · rw [hcs, if_neg (fun h => hok h.1), hsent hf0]
  · left
    have hne : s1.fda ≠ 0 := by
      rw [hfj]; exact blockAddr_ne_zero hd j
    exact ⟨j, by omega, hfda.trans hfj, by rw [hcs, if_neg (fun h => hne h.2), hcsj]⟩

/-- The result of the scan of one sector, by the tests its two blocks pass. -/
theorem scanned_cases (d : Device) (k : Nat) (s : State) :
    (scanned d k s).hw = s.hw ∧
    (adoptable d s (blockAddr d (2 * k + 1)) →
      (scanned d k s).fda = blockAddr d (2 * k + 1) ∧
      (scanned d k s).bcc = cycleCount s.hw.mem (blockAddr d (2 * k + 1)) ∧
      (scanned d k s).cs = k ∧ (scanned d k s).nf = 8192 + blockAddr d (2 * k + 1)) ∧
    (¬ adoptable d s (blockAddr d (2 * k + 1)) → adoptable d s (blockAddr d (2 * k)) →
      (scanned d k s).fda = blockAddr d (2 * k) ∧
      (scanned d k s).bcc = cycleCount s.hw.mem (blockAddr d (2 * k)) ∧
      (scanned d k s).cs = k ∧
      (scanned d k s).nf = (if cycleCount s.hw.mem (blockAddr d (2 * k + 1)) ≠ 0
        then 8192 + blockAddr d (2 * k + 1) else 8192 + blockAddr d (2 * k))) ∧
    (¬ adoptable d s (blockAddr d (2 * k + 1)) → ¬ adoptable d s (blockAddr d (2 * k)) →
      (scanned d k s).fda = s.fda ∧ (scanned d k s).bcc = s.bcc ∧
      (scanned d k s).cs = s.cs ∧ (scanned d k s).nf = s.nf) := by
  refine ⟨scanned_hw d k s, ?_, ?_, ?_⟩
  · rintro ⟨h1, h2, h3⟩
    unfold scanned
    simp only []
    rw [if_pos h1, if_pos ⟨h2, h3⟩]
    exact ⟨rfl, rfl, rfl, rfl⟩
  · rintro hhi ⟨h1, h2, h3⟩
    unfold scanned
    simp only []
    by_cases c1 : cycleCount s.hw.mem (blockAddr d (2 * k + 1)) ≠ 0
    · have c2 : ¬ (crcOk d s.hw.mem (blockAddr d (2 * k + 1)) ∧
          cycleCount s.hw.mem (blockAddr d (2 * k + 1)) > s.e_eeprom_xmc4_data_buffer.block_cycle_count) :=
        fun h => hhi ⟨c1, h.1, h.2⟩
      rw [if_pos c1, if_neg c2, if_pos h1, if_pos ⟨h2, h3⟩, if_pos c1]
      exact ⟨rfl, rfl, rfl, rfl⟩
    · rw [if_neg c1, if_pos h1, if_pos ⟨h2, h3⟩, if_neg c1]
      exact ⟨rfl, rfl, rfl, rfl⟩
  · intro hhi hlo
    unfold scanned
    simp only []
    by_cases c1 : cycleCount s.hw.mem (blockAddr d (2 * k + 1)) ≠ 0
    · have c3 : ¬ (crcOk d s.hw.mem (blockAddr d (2 * k + 1)) ∧
          cycleCount s.hw.mem (blockAddr d (2 * k + 1)) > s.e_eeprom_xmc4_data_buffer.block_cycle_count) :=
        fun h => hhi ⟨c1, h.1, h.2⟩
      rw [if_pos c1, if_neg c3]
      by_cases c4 : cycleCount s.hw.mem (blockAddr d (2 * k)) ≠ 0
      · have c5 : ¬ (crcOk d s.hw.mem (blockAddr d (2 * k)) ∧
            cycleCount s.hw.mem (blockAddr d (2 * k)) > s.e_eeprom_xmc4_data_buffer.block_cycle_count) :=
          fun h => hlo ⟨c4, h.1, h.2⟩
        rw [if_pos c4, if_neg c5]
        exact ⟨rfl, rfl, rfl, rfl⟩
      · rw [if_neg c4]
        exact ⟨rfl, rfl, rfl, rfl⟩
    · rw [if_neg c1]
      by_cases c4 : cycleCount s.hw.mem (blockAddr d (2 * k)) ≠ 0
      · have c5 : ¬ (crcOk d s.hw.mem (blockAddr d (2 * k)) ∧
            cycleCount s.hw.mem (blockAddr d (2 * k)) > s.e_eeprom_xmc4_data_buffer.block_cycle_count) :=
          fun h => hlo ⟨c4, h.1, h.2⟩
        rw [if_pos c4, if_neg c5]
        exact ⟨rfl, rfl, rfl, rfl⟩
      · rw [if_neg c4]
        exact ⟨rfl, rfl, rfl, rfl⟩

theorem initFinish_hw (d : Device) (o : Outcomes) (s1 : State) :
    (initFinish d o OK s1).2.hw = (eraseLoop d o 4 0 s1).2.hw := by
  unfold initFinish E_EEPROM_XMC4_lInitEraseStateMachine
  rw [if_pos rfl]
  simp only [E_EEPROM_XMC4_MAX_SECTORS]
  split_ifs <;> rfl

/-- An address in sector `m` of the ring has sector index `m` by mask and shift. -/
theorem maskShift_of_inSector {d : Device} (hd : d.placed) {m a : Nat} (hm : m < 4)
    (h : inSector d m a) : (a &&& 0xC000) >>> 14 = m := by
  have h1 := hd.1
  have h2 := base_lt hd
  unfold inSector at h
  rw [blockAddr_eq hd] at h
  simp only [E_EEPROM_XMC4_SECTOR_SIZE] at h
  rw [maskShift_eq]
  omega

/-- The flash commands a persist adds: page programs, and erases of sectors that do
not contain the latest block address of before the call. -/
theorem update_ops_new {d : Device} (hd : d.placed) (o : Outcomes) (s : State) :
    ∃ l, (E_EEPROM_XMC4_UpdateFlashContents d o s).2.hw.ops = s.hw.ops ++ l ∧
      ∀ x ∈ l, (∃ a, x = FlashOp.program a) ∨
        ∃ m, m < 4 ∧ x = FlashOp.erase (blockAddr d (2 * m)) ∧ ¬ inSector d m s.fda := by
  by_cases hf : ringFilled d s
  · obtain ⟨le, hle, hle2⟩ := eraseLoop_ops_new hd o 4 0 (markAllFilled s) (le_refl _)
    have hle3 : ∀ x ∈ le, (∃ a, x = FlashOp.program a) ∨
        ∃ m, m < 4 ∧ x = FlashOp.erase (blockAddr d (2 * m)) ∧ ¬ inSector d m s.fda := by
      intro x hx
      obtain ⟨m, hm, hmcs, hxe⟩ := hle2 x hx
      refine Or.inr ⟨m, hm, hxe, fun hin => hmcs ?_⟩
      exact (maskShift_of_inSector hd hm hin).symm
    rw [update_of_filled o hf]
    split_ifs
    · obtain ⟨lp, hlp, hlp2⟩ := updateWrite_ops_new d o (eraseLoop d o 4 0 (markAllFilled s)).2
      refine ⟨le ++ lp, ?_, fun x hx => ?_⟩
      · rw [hlp, hle, List.append_assoc]
        rfl
      · rcases List.mem_append.1 hx with h | h
        · exact hle3 x h
        · exact Or.inl (hlp2 x h)
    · exact ⟨le, hle, hle3⟩
  · rw [update_of_not_filled o hf]
    obtain ⟨lp, hlp, hlp2⟩ := updateWrite_ops_new d o s
    exact ⟨lp, hlp, fun x hx => Or.inl (hlp2 x hx)⟩

/-- The old-data test of `E_EEPROM_XMC4_Init`, read on the state `s1` the four scans
leave when a block was taken and the erases have verified.  The distance from the
latest block to the cursor (before the relocation to sector 0) is one block or two;
the status is `OK` exactly when that distance is twice the record length, and
`ERROR_OLD_DATA` otherwise. -/
theorem initFinish_stale_test {d : Device} (hd : d.placed) (o : Outcomes) (mem : Nat → Nat)
    (s1 : State) (hb : ScanBasic d mem 4 s1) (hok : (eraseLoop d o 4 0 s1).1 = OK)
    (hf : s1.fda ≠ 0) (hlen : s1.e_eeprom_xmc4_data_buffer.len ≤ 8184) :
    (s1.nf - s1.fda = 8192 ∨ s1.nf - s1.fda = 16384) ∧
    ((initFinish d o OK s1).1 = OK ↔ s1.nf - s1.fda = 2 * s1.e_eeprom_xmc4_data_buffer.len) ∧
    ((initFinish d o OK s1).1 ≠ OK → (initFinish d o OK s1).1 = ERROR_OLD_DATA) := by
  obtain ⟨f1, f2, f3, _, _⟩ := eraseLoop_frame d o 4 0 s1
  have hne : ¬ (eraseLoop d o 4 0 s1).2.e_eeprom_xmc4_sector_info.flash_data_addr
      = E_EEPROM_XMC4_EMPTY := fun h => hf (f3.symm.trans h)
  have h2 := base_lt hd
  have hgap : s1.fda < s1.nf ∧ s1.nf < U32 ∧ (s1.nf - s1.fda = 8192 ∨ s1.nf - s1.fda = 16384) := by
    rcases hb.2 with ⟨h0, _⟩ | ⟨j, hj, hfj, _, _, _, hnf⟩
    · exact absurd h0 hf
    · rcases hnf with hnf | ⟨_, _, hnf⟩
      · rw [hfj, hnf, blockAddr_eq hd, blockAddr_eq hd]
        simp only [U32]
        omega
      · rw [hfj, hnf, blockAddr_eq hd, blockAddr_eq hd]
        simp only [U32]
        omega
  have hst : (initFinish d o OK s1).1 =
      if (s1.nf + U32 - s1.fda) % U32 ≠ (s1.e_eeprom_xmc4_data_buffer.len * 2) % U32
      then ERROR_OLD_DATA else OK := by
    unfold initFinish E_EEPROM_XMC4_lInitEraseStateMachine
    rw [if_pos rfl]
    simp only [E_EEPROM_XMC4_MAX_SECTORS]
    rw [if_pos hok, if_neg hne]
    show (if ((eraseLoop d o 4 0 s1).2.nf + U32 - (eraseLoop d o 4 0 s1).2.fda) % U32
        ≠ ((eraseLoop d o 4 0 s1).2.e_eeprom_xmc4_data_buffer.len * 2) % U32
      then ERROR_OLD_DATA else OK) = _
    rw [f1, f2, f3]
  have hmod : (s1.nf + U32 - s1.fda) % U32 = s1.nf - s1.fda := by
    obtain ⟨g1, g2, _⟩ := hgap
    simp only [U32] at g2 ⊢
    omega
  have hl : (s1.e_eeprom_xmc4_data_buffer.len * 2) % U32 = 2 * s1.e_eeprom_xmc4_data_buffer.len := by
    simp only [U32]
    omega
  rw [hst, hmod, hl]
  refine ⟨hgap.2.2, ?_, ?_⟩
  · split_ifs with h
    · exact ⟨fun h3 => (by cases h3), fun h3 => absurd h3 h⟩
    · exact ⟨fun _ => not_not.1 h, fun _ => rfl⟩
  · split_ifs with h
    · exact fun _ => rfl
    · exact fun h3 => absurd rfl h3

/-- The commands the page loop sends when every page from `k` on verifies: one
program command per page, in ascending order of the pages. -/
theorem programPages_trace_ok (o : Outcomes) (ram : Nat → Nat) (dst n k : Nat) (hw : Hw)
    (h : ∀ j, k ≤ j → j < k + n → o.verifyOk j = true) :
    (programPages o ram dst n k hw).2.ops
      = hw.ops ++ (List.range' k n).map (fun j => FlashOp.program (dst + 256 * j)) := by
  induction n generalizing k hw with
  | zero => exact (List.append_nil _).symm
  | succ n ih =>
    have hkv : o.verifyOk k = true := h k (le_refl _) (by omega)
    unfold programPages
    simp only [hkv, Bool.true_eq_false, if_false]
    rw [ih (k + 1) _ (fun j h1 h2 => h j (by omega) (by omega)), List.range'_succ, List.map_cons]
    simp only [XMC_FLASH_ProgramPage, PAGE_BYTES, E_EEPROM_XMC4_MIN_WORDS_PER_PAGE,
      List.append_assoc, List.singleton_append]

/-- The commands the page loop sends when page `f` is the first that does not verify:
one program command for each of the pages `k` to `f`, in ascending order, and no
other. -/
theorem programPages_trace_fail (o : Outcomes) (ram : Nat → Nat) (dst n k f : Nat) (hw : Hw)
    (hkf : k ≤ f) (hfn : f < k + n)
    (h : ∀ j, k ≤ j → j < f → o.verifyOk j = true) (hf : o.verifyOk f = false) :
    (programPages o ram dst n k hw).2.ops
      = hw.ops ++ (List.range' k (f + 1 - k)).map (fun j => FlashOp.program (dst + 256 * j)) := by
  induction n generalizing k hw with
  | zero => exact absurd hfn (by omega)
  | succ n ih =>
    unfold programPages
    by_cases hk : k = f
    · subst hk
      have e : k + 1 - k = 1 := by omega
      simp only [hf, if_true, e]
      rfl
    · have hkv : o.verifyOk k = true := h k (le_refl _) (by omega)
      have e : f + 1 - k = (f + 1 - (k + 1)) + 1 := by omega
      simp only [hkv, Bool.true_eq_false, if_false]
      rw [ih (k + 1) _ (by omega) (by omega) (fun j h1 h2 => h j (by omega) h2), e,
        List.range'_succ, List.map_cons]
      simp only [XMC_FLASH_ProgramPage, PAGE_BYTES, E_EEPROM_XMC4_MIN_WORDS_PER_PAGE,
        List.append_assoc, List.singleton_append]

/-- Every command the page loop sends is the program command of one of its pages. -/
theorem programPages_programs_at (o : Outcomes) (ram : Nat → Nat) (dst n k : Nat) (hw : Hw) :
    ∃ l, (programPages o ram dst n k hw).2.ops = hw.ops ++ l ∧
      ∀ x ∈ l, ∃ j, k ≤ j ∧ j < k + n ∧ x = FlashOp.program (dst + 256 * j) := by
  induction n generalizing k hw with
  | zero => exact ⟨[], (List.append_nil _).symm, fun x hx => absurd hx (List.not_mem_nil _)⟩
  | succ n ih =>
    have e : FlashOp.program (dst + PAGE_BYTES * k) = FlashOp.program (dst + 256 * k) := rfl
    unfold programPages
    simp only []
    split_ifs
    · exact ⟨[FlashOp.program (dst + PAGE_BYTES * k)], rfl,
        fun x hx => ⟨k, le_refl _, by omega, (List.mem_singleton.1 hx).trans e⟩⟩
    · obtain ⟨l, h1, h2⟩ := ih (k + 1) (XMC_FLASH_ProgramPage (o.verifyOk k) o.junk
        (dst + PAGE_BYTES * k) (fun i => ram (PAGE_BYTES * k + i)) hw)
      refine ⟨FlashOp.program (dst + PAGE_BYTES * k) :: l, ?_, fun x hx => ?_⟩
      · rw [h1]
        simp only [XMC_FLASH_ProgramPage, List.append_assoc, List.singleton_append]
      · rcases List.mem_cons.1 hx with h | h
        · exact ⟨k, le_refl _, by omega, h.trans e⟩
        · obtain ⟨j, j1, j2, j3⟩ := h2 x h
          exact ⟨j, by omega, by omega, j3⟩

/-- Every command the write part of a persist sends is the program command of one of
the 32 pages of the block at the cursor. -/
theorem updateWrite_programs_at (d : Device) (o : Outcomes) (s : State) :
    ∃ l, (updateWrite d o s).2.hw.ops = s.hw.ops ++ l ∧
      ∀ x ∈ l, ∃ j, j < 32 ∧ x = FlashOp.program (s.nf + 256 * j) := by
  rw [updateWrite_hw]
  unfold E_EEPROM_XMC4_lWriteToFlash
  simp only []
  obtain ⟨l, h1, h2⟩ := programPages_programs_at o
    (ramByte { ({ s.e_eeprom_xmc4_data_buffer with
        block_cycle_count := (s.e_eeprom_xmc4_data_buffer.block_cycle_count + 1) % U32 } :
          E_EEPROM_XMC4_RAM_BUFFER_t) with
      crc := E_EEPROM_XMC4_lCalculateCRC d (ramByte { s.e_eeprom_xmc4_data_buffer with
        block_cycle_count := (s.e_eeprom_xmc4_data_buffer.block_cycle_count + 1) % U32 }) 4 })
    s.nf E_EEPROM_XMC4_MAX_PAGES 0 s.hw
  refine ⟨l, h1, fun x hx => ?_⟩
  obtain ⟨j, _, j2, j3⟩ := h2 x hx
  exact ⟨j, by simpa using j2, j3⟩

/-- The commands a persist sends: erase commands of sectors of the ring, and program
commands of pages of the block at the cursor. -/
theorem update_programs_at {d : Device} (hd : d.placed) (o : Outcomes) (s : State) :
    ∃ l, (E_EEPROM_XMC4_UpdateFlashContents d o s).2.hw.ops = s.hw.ops ++ l ∧
      ∀ x ∈ l, (∃ j, j < 32 ∧ x = FlashOp.program (s.nf + 256 * j)) ∨
        ∃ m, m < 4 ∧ x = FlashOp.erase (blockAddr d (2 * m)) := by
  by_cases hf : ringFilled d s
  · obtain ⟨le, hle, hle2⟩ := eraseLoop_ops_new hd o 4 0 (markAllFilled s) (le_refl _)
    have hle3 : ∀ x ∈ le, (∃ j, j < 32 ∧ x = FlashOp.program (s.nf + 256 * j)) ∨
        ∃ m, m < 4 ∧ x = FlashOp.erase (blockAddr d (2 * m)) := by
      intro x hx
      obtain ⟨m, hm, _, hxe⟩ := hle2 x hx
      exact Or.inr ⟨m, hm, hxe⟩
    have hnf : (eraseLoop d o 4 0 (markAllFilled s)).2.nf = s.nf :=
      (eraseLoop_frame d o 4 0 (markAllFilled s)).2.1
    rw [update_of_filled o hf]
    split_ifs
    · obtain ⟨lp, hlp, hlp2⟩ := updateWrite_programs_at d o (eraseLoop d o 4 0 (markAllFilled s)).2
      rw [hnf] at hlp2
      refine ⟨le ++ lp, ?_, fun x hx => ?_⟩
      · rw [hlp, hle, List.append_assoc]
        rfl
      · rcases List.mem_append.1 hx with h | h
        · exact hle3 x h
        · exact Or.inl (hlp2 x h)
    · exact ⟨le, hle, hle3⟩
  · rw [update_of_not_filled o hf]
    obtain ⟨lp, hlp, hlp2⟩ := updateWrite_programs_at d o s
    exact ⟨lp, hlp, fun x hx => Or.inl (hlp2 x hx)⟩

/-- One persist and the distance from the latest block to the cursor: it is 1 after
`OK`, one more than before after `WRITE_ERROR`, and as before after `ERASE_ERROR`. -/
theorem ahead_update {d : Device} (hd : d.placed) (o : Outcomes) (s : State) (c : Nat)
    (h : Ahead d s c) :
    Ahead d (E_EEPROM_XMC4_UpdateFlashContents d o s).2
      (if (E_EEPROM_XMC4_UpdateFlashContents d o s).1 = OK then 0
        else if (E_EEPROM_XMC4_UpdateFlashContents d o s).1 = WRITE_ERROR then c + 1 else c) := by
  obtain ⟨p, hp, hnf, hq⟩ := h
  rcases update_spec d o s with ⟨hst, _, _, hn, hfd⟩ | ⟨hst, _, hn⟩
  · rw [hst, if_neg (by decide), if_neg (by decide)]
    exact ⟨p, hp, hn.trans hnf, by rw [hfd]; exact hq⟩
  · rw [hnf, advance_blockAddr hd p hp] at hn
    rcases hst with ⟨hst, hfd, _⟩ | ⟨hst, hfd, _⟩
    · rw [hst, if_pos rfl]
      exact ⟨(p + 1) % 8, Nat.mod_lt _ (by decide), hn,
        Or.inr ⟨p, hp, hfd.trans hnf, by omega⟩⟩
    · rw [hst, if_neg (by decide), if_pos rfl]
      refine ⟨(p + 1) % 8, Nat.mod_lt _ (by decide), hn, ?_⟩
      rcases hq with h0 | ⟨q, hq, hfq, hpk⟩
      · exact Or.inl (hfd.trans h0)
      · exact Or.inr ⟨q, hq, hfd.trans hfq, by omega⟩

/-- The distance invariant along a sequence of calls. -/
theorem ahead_run {d : Device} (hd : d.placed) (acts : List Action) (s : State) (c : Nat)
    (h : Ahead d s c) : Ahead d (run d acts s) (writeErrorRun d acts s c) := by
  induction acts generalizing s c with
  | nil => exact h
  | cons a as ih =>
    cases a with
    | writeByte off v => exact ih _ c h
    | writeArray off data n => exact ih _ c h
    | persist o => exact ih _ _ (ahead_update hd o s c h)

/-- Unless there is a latest block and the count of write errors in a row is 7, 15,
23, ..., the cursor is not the latest block, and the blocks at the two addresses have
no byte in common. -/
theorem ahead_apart {d : Device} (hd : d.placed) (s : State) (c : Nat) (h : Ahead d s c)
    (hc : s.fda ≠ 0 → c % 8 ≠ 7) :
    s.nf ≠ s.fda ∧ ∀ a, s.nf ≤ a → a < s.nf + 8192 → ¬ (s.fda ≤ a ∧ a < s.fda + 8192) := by
  obtain ⟨p, hp, hnf, hq⟩ := h
  have h2 := base_lt hd
  rcases hq with h0 | ⟨q, hq, hfq, hpk⟩
  · rw [h0, hnf, blockAddr_eq hd]
    exact ⟨by omega, fun a h1 _ => by omega⟩
  · have hc2 := hc (by rw [hfq]; exact blockAddr_ne_zero hd q)
    have hne : p ≠ q := by omega
    rw [hnf, hfq, blockAddr_eq hd, blockAddr_eq hd]
    exact ⟨by omega, fun a h1 h3 => by omega⟩

/-- When there is a latest block and the count of write errors in a row is 7, 15, 23,
..., the cursor is the latest block. -/
theorem ahead_on {d : Device} (s : State) (c : Nat) (h : Ahead d s c)
    (hf : s.fda ≠ 0) (hc : c % 8 = 7) : s.nf = s.fda := by
  obtain ⟨p, hp, hnf, hq⟩ := h
  rcases hq with h0 | ⟨q, hq, hfq, hpk⟩
  · exact absurd h0 hf
  · have hpq : p = q := by omega
    rw [hnf, hfq, hpq]

/-- The distance invariant after an initialisation from reset that returned `OK` or
`ERROR_OLD_DATA`: no block was taken, or the cursor is the block after the latest
block, or it is two blocks on and the run starts with a count of 1. -/
theorem ahead_start {d : Device} (hd : d.placed) (o : Outcomes) (mem : Nat → Nat) (s1 : State)
    (hb : ScanBasic d mem 4 s1)
    (hst : (initFinish d o OK s1).1 = OK ∨ (initFinish d o OK s1).1 = ERROR_OLD_DATA) :
    Ahead d (initFinish d o OK s1).2 (startErrors d (initFinish d o OK s1).2) := by
  have hok := initFinish_ok_of_status d o s1 hst
  have h2 := base_lt hd
  by_cases hf : s1.fda = 0
  · rw [initFinish_empty d o s1 hok hf]
    refine ⟨0, by decide, ?_, Or.inl ?_⟩
    · show E_EEPROM_XMC4_SECTOR0_START_ADDR d = _
      rw [sector0_eq hd, blockAddr_eq hd]
    · exact (eraseLoop_frame d o 4 0 s1).2.2.1.trans hf
  · obtain ⟨g1, _, _, g4, _⟩ := initFinish_data d o s1 hok hf
    rcases hb.2 with ⟨h0, _⟩ | ⟨j, hj, hfj, _, _, _, hnf⟩
    · exact absurd h0 hf
    · have hj8 : j < 8 := by omega
      have hmod : ∀ m, m < 8 → (8192 + blockAddr d m) % U32 = blockAddr d (m + 1) := by
        intro m hm
        rw [blockAddr_eq hd, blockAddr_eq hd]
        simp only [U32]
        omega
      have hwrap : ∀ m, m < 8 →
          (if blockAddr d (m + 1) ≥ E_EEPROM_XMC4_SECTOR4_START_ADDR d
            then E_EEPROM_XMC4_SECTOR0_START_ADDR d else blockAddr d (m + 1))
          = blockAddr d ((m + 1) % 8) := by
        intro m hm
        have := advance_blockAddr hd m hm
        rw [hmod m hm] at this
        exact this
      have hone : (advanceCursor d { (initFinish d o OK s1).2 with e_eeprom_xmc4_sector_info :=
          { (initFinish d o OK s1).2.e_eeprom_xmc4_sector_info with
            next_free_start_addr := (initFinish d o OK s1).2.fda } }).nf
          = blockAddr d ((j + 1) % 8) := by
        show (if (8192 + (initFinish d o OK s1).2.fda) % U32 ≥ E_EEPROM_XMC4_SECTOR4_START_ADDR d
          then E_EEPROM_XMC4_SECTOR0_START_ADDR d else (8192 + (initFinish d o OK s1).2.fda) % U32) = _
        rw [g1, hfj]
        exact advance_blockAddr hd j hj8
      have hfd : (initFinish d o OK s1).2.fda = blockAddr d j := g1.trans hfj
      have hcases : (initFinish d o OK s1).2.nf = blockAddr d ((j + 1) % 8) ∨
          (initFinish d o OK s1).2.nf = blockAddr d ((j + 2) % 8) := by
        rcases hnf with hnf | ⟨_, _, hnf⟩
        · have hc : 2 * (j / 2) + 2 = j + 1 ∨ 2 * (j / 2) + 2 = (j + 1) + 1 := by omega
          rcases hc with hc | hc
          · left
            rw [g4, hnf, hc]
            exact hwrap j hj8
          · right
            have hj7 : j + 1 < 8 := by omega
            have e : (j + 2) % 8 = (j + 1 + 1) % 8 := rfl
            rw [g4, hnf, hc, e]
            exact hwrap (j + 1) hj7
        · left
          rw [g4, hnf]
          exact hwrap j hj8
      unfold startErrors
      rw [hone]
      rcases hcases with hc | hc
      · rw [if_neg (fun h => h.2 hc)]
        exact ⟨(j + 1) % 8, Nat.mod_lt _ (by decide), hc, Or.inr ⟨j, hj8, hfd, by omega⟩⟩
      · by_cases hx : (initFinish d o OK s1).2.fda ≠ 0 ∧
            (initFinish d o OK s1).2.nf ≠ blockAddr d ((j + 1) % 8)
        · rw [if_pos hx]
          exact ⟨(j + 2) % 8, Nat.mod_lt _ (by decide), hc, Or.inr ⟨j, hj8, hfd, by omega⟩⟩
        · exfalso
          apply hx
          refine ⟨by rw [hfd]; exact blockAddr_ne_zero hd j, fun h => ?_⟩
          have := blockAddr_inj hd (hc.symm.trans h)
          omega

/-- C3. For every flash image, every previous state and every iteration bound of at
least two, the start-up scan ends with the local status still `OK` (a checksum
mismatch only skips the block), leaves the flash as it was, and when it leaves
`flash_data_addr` set, that address is a block of the ring (sector 0 start plus a
multiple of the block size, below the ring end), the block has a non-zero cycle
counter, its stored checksum equals the checksum computed over the rest of the block,
and the mirror's cycle counter is the block's. -/
theorem C3_scan_selects_only_valid_blocks (d : Device) (hd : d.placed) (fuel len : Nat)
    (hfuel : 2 ≤ fuel) (s : State) :
    ∃ s1, initScan d fuel len s = some (OK, s1) ∧ s1.hw = s.hw ∧
      (s1.fda ≠ E_EEPROM_XMC4_EMPTY →
        (∃ j, j < 8 ∧ s1.fda
            = E_EEPROM_XMC4_SECTOR0_START_ADDR d + E_EEPROM_XMC4_ACTUAL_FLASH_BLOCK_SIZE * j) ∧
        E_EEPROM_XMC4_SECTOR0_START_ADDR d ≤ s1.fda ∧
        s1.fda + E_EEPROM_XMC4_ACTUAL_FLASH_BLOCK_SIZE ≤ E_EEPROM_XMC4_SECTOR4_START_ADDR d ∧
        readWord s.hw.mem (s1.fda + 4) ≠ 0 ∧
        readWord s.hw.mem s1.fda = E_EEPROM_XMC4_lCalculateCRC d s.hw.mem (s1.fda + 4) ∧
        s1.bcc = readWord s.hw.mem (s1.fda + 4)) := by
  obtain ⟨n, rfl⟩ : ∃ n, fuel = n + 2 := ⟨fuel - 2, by omega⟩
  refine ⟨scannedAll d len s, initScan_eq hd n len s, scannedAll_hw d len s, ?_⟩
  intro hne
  obtain ⟨_, hl⟩ := scanBasic_all d len s
  rcases hl with hl | ⟨j, hj, hf, hv, hc, _⟩
  · exact absurd hl.1 hne
  · have hb := blockAddr_eq hd j
    have h0 := sector0_eq hd
    have h4 := sector4_eq hd
    simp only [validBlock, crcOk, cycleCount] at hv hc
    rw [hf]
    refine ⟨⟨j, by omega, ?_⟩, ?_, ?_, hv.1, hv.2.symm, hc.symm⟩
    · simp only [blockAddr]
    · omega
    · simp only [E_EEPROM_XMC4_ACTUAL_FLASH_BLOCK_SIZE]; omega

/-- Witness of C3 on the XMC4500 window: the scan of the image with one written block. -/
theorem C3_scan_selects_only_valid_blocks_witness :
    sumDevice.placed ∧ 2 ≤ 2 ∧
    ∃ s1, initScan sumDevice 2 16 (powerOn oneBlockImage) = some (OK, s1)
      ∧ s1.hw = (powerOn oneBlockImage).hw ∧
      (s1.fda ≠ E_EEPROM_XMC4_EMPTY →
        (∃ j, j < 8 ∧ s1.fda
            = E_EEPROM_XMC4_SECTOR0_START_ADDR sumDevice + E_EEPROM_XMC4_ACTUAL_FLASH_BLOCK_SIZE * j) ∧
        E_EEPROM_XMC4_SECTOR0_START_ADDR sumDevice ≤ s1.fda ∧
        s1.fda + E_EEPROM_XMC4_ACTUAL_FLASH_BLOCK_SIZE ≤ E_EEPROM_XMC4_SECTOR4_START_ADDR sumDevice ∧
        readWord (powerOn oneBlockImage).hw.mem (s1.fda + 4) ≠ 0 ∧
        readWord (powerOn oneBlockImage).hw.mem s1.fda
          = E_EEPROM_XMC4_lCalculateCRC sumDevice
              (powerOn oneBlockImage).hw.mem (s1.fda + 4) ∧
        s1.bcc = readWord (powerOn oneBlockImage).hw.mem (s1.fda + 4)) :=
  ⟨by decide, by decide,
    C3_scan_selects_only_valid_blocks sumDevice (by decide) 2 16 (by decide)
      (powerOn oneBlockImage)⟩

/-- C2. On every flash image that is append-only within each sector and holds at
least one written block with a matching checksum, the scan of sectors 0, 1, 2, 3
from best count 0 ends with `flash_data_addr` on such a block `j` whose cycle counter
is the largest among all such blocks of the ring; the mirror's cycle counter is that
maximum, `current_sector` is the sector of block `j`, and no sector with a lower index
holds a valid block with the same counter. -/
theorem C2_scan_picks_global_newest (d : Device) (hd : d.placed) (fuel len : Nat)
    (hfuel : 2 ≤ fuel) (s : State) (happ : appendOnly d s.hw.mem)
    (i : Nat) (hi : i < 8) (hv : validBlock d s.hw.mem (blockAddr d i)) :
    ∃ s1 j, initScan d fuel len s = some (OK, s1) ∧ j < 8 ∧ s1.fda = blockAddr d j ∧
      validBlock d s.hw.mem (blockAddr d j) ∧
      (∀ i', i' < 8 → validBlock d s.hw.mem (blockAddr d i') →
        cycleCount s.hw.mem (blockAddr d i') ≤ cycleCount s.hw.mem (blockAddr d j)) ∧
      s1.bcc = cycleCount s.hw.mem (blockAddr d j) ∧
      s1.cs = j / 2 ∧
      (∀ i', i' < 8 → validBlock d s.hw.mem (blockAddr d i') →
        cycleCount s.hw.mem (blockAddr d i') = cycleCount s.hw.mem (blockAddr d j) → j / 2 ≤ i' / 2) := by
  obtain ⟨n, rfl⟩ : ∃ n, fuel = n + 2 := ⟨fuel - 2, by omega⟩
  obtain ⟨_, hl⟩ := scanBasic_all d len s
  obtain ⟨hmax, htie⟩ := scanMax_all len s happ
  have hpos : cycleCount s.hw.mem (blockAddr d i) ≠ 0 := hv.1
  have hle := hmax i (by omega) hv
  rcases hl with hl | ⟨j, hj, hf, hvj, hc, hcs, _⟩
  · rw [hl.2] at hle; omega
  · refine ⟨scannedAll d len s, j, initScan_eq hd n len s, by omega, hf, hvj, ?_, hc.symm, hcs, ?_⟩
    · intro i' hi' hv'
      rw [hc]
      exact hmax i' (by omega) hv'
    · intro i' hi' hv' he
      rw [← hcs]
      exact htie i' (by omega) hv' (by rw [he, hc])

/-- Witness of C2: the image with one written block is append-only and its block 0
is valid under the byte-sum checksum. -/
theorem C2_scan_picks_global_newest_witness :
    sumDevice.placed ∧ 2 ≤ 2 ∧ appendOnly sumDevice (powerOn oneBlockImage).hw.mem ∧ 0 < 8 ∧
    validBlock sumDevice (powerOn oneBlockImage).hw.mem (blockAddr sumDevice 0) ∧
    ∃ s1 j, initScan sumDevice 2 16 (powerOn oneBlockImage) = some (OK, s1) ∧ j < 8 ∧
      s1.fda = blockAddr sumDevice j ∧
      validBlock sumDevice (powerOn oneBlockImage).hw.mem (blockAddr sumDevice j) ∧
      (∀ i', i' < 8 → validBlock sumDevice (powerOn oneBlockImage).hw.mem (blockAddr sumDevice i') →
        cycleCount (powerOn oneBlockImage).hw.mem (blockAddr sumDevice i')
          ≤ cycleCount (powerOn oneBlockImage).hw.mem (blockAddr sumDevice j)) ∧
      s1.bcc = cycleCount (powerOn oneBlockImage).hw.mem (blockAddr sumDevice j) ∧
      s1.cs = j / 2 ∧
      (∀ i', i' < 8 → validBlock sumDevice (powerOn oneBlockImage).hw.mem (blockAddr sumDevice i') →
        cycleCount (powerOn oneBlockImage).hw.mem (blockAddr sumDevice i')
          = cycleCount (powerOn oneBlockImage).hw.mem (blockAddr sumDevice j) → j / 2 ≤ i' / 2) :=
  ⟨by decide, by decide, by decide!, by decide, by decide!,
    C2_scan_picks_global_newest sumDevice (by decide) 2 16 (by decide) (powerOn oneBlockImage)
      (by decide!) 0 (by decide) (by decide!)⟩

/-- C9. On a handle that is not yet initialised, with at least two iterations allowed
to each sector scan, `E_EEPROM_XMC4_Init` returns a result, and the status is
`ERROR_PARAM` exactly when `len` exceeds `E_EEPROM_XMC4_WORKING_BUFFER_SIZE` (8184).
In that case the whole state (mirror, cycle counter, `len`, sector info, the
`initialized` flag, the flash and the list of flash commands) is the one before the
call, the same result comes out with no scan iteration allowed at all, and any later
call behaves as on the original state.  Otherwise the handle is marked initialised. -/
theorem C9_param_error_is_atomic (d : Device) (hd : d.placed) (o : Outcomes) (fuel len : Nat)
    (hfuel : 2 ≤ fuel) (s : State) (hs : s.initialized = false) :
    E_EEPROM_XMC4_WORKING_BUFFER_SIZE = 8184 ∧
    ∃ r, E_EEPROM_XMC4_Init d o fuel len s = some r ∧
      (r.1 = ERROR_PARAM ↔ len > E_EEPROM_XMC4_WORKING_BUFFER_SIZE) ∧
      (len > E_EEPROM_XMC4_WORKING_BUFFER_SIZE →
        r.2 = s ∧ E_EEPROM_XMC4_Init d o 0 len s = some (ERROR_PARAM, s) ∧
        ∀ o2 fuel2 len2, E_EEPROM_XMC4_Init d o2 fuel2 len2 r.2 = E_EEPROM_XMC4_Init d o2 fuel2 len2 s) ∧
      (len ≤ E_EEPROM_XMC4_WORKING_BUFFER_SIZE → r.2.initialized = true) := by
  refine ⟨rfl, ?_⟩
  obtain ⟨n, rfl⟩ : ∃ n, fuel = n + 2 := ⟨fuel - 2, by omega⟩
  by_cases hlen : len > E_EEPROM_XMC4_WORKING_BUFFER_SIZE
  · have h1 : ∀ f, E_EEPROM_XMC4_Init d o f len s = some (ERROR_PARAM, s) := by
      intro f
      unfold E_EEPROM_XMC4_Init
      simp only [hs, if_true, hlen]
    refine ⟨(ERROR_PARAM, s), h1 _, ?_, ?_, ?_⟩
    · simp only [hlen]
    · intro _
      exact ⟨rfl, h1 0, fun _ _ _ => rfl⟩
    · intro h
      exact absurd hlen (Nat.not_lt.mpr h)
  · have hle : len ≤ E_EEPROM_XMC4_WORKING_BUFFER_SIZE := Nat.not_lt.mp hlen
    refine ⟨_, init_eq hd o n len s hs hle, ?_, ?_, ?_⟩
    · simp only [hlen, iff_false]
      exact (initFinish_status d o _).1
    · intro h
      exact absurd h hlen
    · intro _
      exact initFinish_initialized d o OK _

/-- Witness of C9: a request of 9000 bytes on the erased XMC4500 ring. -/
theorem C9_param_error_is_atomic_witness :
    sumDevice.placed ∧ 2 ≤ 2 ∧ (powerOn (fun _ => 0)).initialized = false ∧
    (E_EEPROM_XMC4_WORKING_BUFFER_SIZE = 8184 ∧
    ∃ r, E_EEPROM_XMC4_Init sumDevice allOk 2 9000 (powerOn (fun _ => 0)) = some r ∧
      (r.1 = ERROR_PARAM ↔ 9000 > E_EEPROM_XMC4_WORKING_BUFFER_SIZE) ∧
      (9000 > E_EEPROM_XMC4_WORKING_BUFFER_SIZE →
        r.2 = powerOn (fun _ => 0) ∧
        E_EEPROM_XMC4_Init sumDevice allOk 0 9000 (powerOn (fun _ => 0))
          = some (ERROR_PARAM, powerOn (fun _ => 0)) ∧
        ∀ o2 fuel2 len2, E_EEPROM_XMC4_Init sumDevice o2 fuel2 len2 r.2
          = E_EEPROM_XMC4_Init sumDevice o2 fuel2 len2 (powerOn (fun _ => 0))) ∧
      (9000 ≤ E_EEPROM_XMC4_WORKING_BUFFER_SIZE → r.2.initialized = true)) :=
  ⟨by decide, by decide, rfl,
    C9_param_error_is_atomic sumDevice (by decide) allOk 2 9000 (by decide) (powerOn (fun _ => 0)) rfl⟩

/-- C10 (as amended). For every state and every persist that gets to program the
block (the erase state machine, when it runs, reports no error) and in which the
program of some page of the block does not verify, `E_EEPROM_XMC4_UpdateFlashContents`
returns `WRITE_ERROR` and `flash_data_addr` keeps its value, but the cursor
`next_free_start_addr` has moved on by one block, to the start of sector 0 when it
reaches the end of sector 3. -/
theorem C10_write_error_keeps_latest_and_moves_cursor (d : Device) (o : Outcomes) (s : State)
    (hpage : ∃ j, j < 32 ∧ o.verifyOk j = false)
    (hreach : (E_EEPROM_XMC4_UpdateFlashContents d o s).1 ≠ ERASE_ERROR) :
    (E_EEPROM_XMC4_UpdateFlashContents d o s).1 = WRITE_ERROR ∧
    (E_EEPROM_XMC4_UpdateFlashContents d o s).2.fda = s.fda ∧
    (E_EEPROM_XMC4_UpdateFlashContents d o s).2.nf =
      (if (E_EEPROM_XMC4_ACTUAL_FLASH_BLOCK_SIZE + s.nf) % U32 ≥ E_EEPROM_XMC4_SECTOR4_START_ADDR d
        then E_EEPROM_XMC4_SECTOR0_START_ADDR d
        else (E_EEPROM_XMC4_ACTUAL_FLASH_BLOCK_SIZE + s.nf) % U32) := by
  obtain ⟨j, hj, hjv⟩ := hpage
  rcases update_spec d o s with ⟨he, _⟩ | ⟨⟨_, _, hall⟩ | ⟨hs, hf, _⟩, _, hn⟩
  · exact absurd he hreach
  · rw [hall j hj] at hjv
    exact absurd hjv (by decide)
  · exact ⟨hs, hf, hn⟩

/-- Witness of C10 (as amended): the first persist after initialisation on the erased
XMC4500 ring, with the program of page 0 not verifying. -/
theorem C10_write_error_keeps_latest_and_moves_cursor_witness :
    (∃ j, j < 32 ∧ (failAt 0).verifyOk j = false) ∧
    (E_EEPROM_XMC4_UpdateFlashContents sumDevice (failAt 0)
      (freshState sumDevice 16 (fun _ => 0))).1 ≠ ERASE_ERROR ∧
    (E_EEPROM_XMC4_UpdateFlashContents sumDevice (failAt 0) (freshState sumDevice 16 (fun _ => 0))).1
      = WRITE_ERROR ∧
    (E_EEPROM_XMC4_UpdateFlashContents sumDevice (failAt 0) (freshState sumDevice 16 (fun _ => 0))).2.fda
      = (freshState sumDevice 16 (fun _ => 0)).fda ∧
    (E_EEPROM_XMC4_UpdateFlashContents sumDevice (failAt 0) (freshState sumDevice 16 (fun _ => 0))).2.nf =
      (if (E_EEPROM_XMC4_ACTUAL_FLASH_BLOCK_SIZE + (freshState sumDevice 16 (fun _ => 0)).nf) % U32
          ≥ E_EEPROM_XMC4_SECTOR4_START_ADDR sumDevice
        then E_EEPROM_XMC4_SECTOR0_START_ADDR sumDevice
        else (E_EEPROM_XMC4_ACTUAL_FLASH_BLOCK_SIZE + (freshState sumDevice 16 (fun _ => 0)).nf) % U32) :=
  ⟨⟨0, by decide, by decide⟩, by decide,
    C10_write_error_keeps_latest_and_moves_cursor sumDevice (failAt 0)
      (freshState sumDevice 16 (fun _ => 0)) ⟨0, by decide, by decide⟩ (by decide)⟩

/-- Counterexample to C10 as stated: on the erased XMC4500 ring, initialisation with a
16 byte record leaves the cursor at `0x0C010000`; a persist whose first page program
does not verify returns `WRITE_ERROR` with `flash_data_addr` unchanged, and the cursor
is then `0x0C012000`, not the value it had before the call. -/
theorem C10_counterexample :
    E_EEPROM_XMC4_Init sumDevice allOk 2 16 (powerOn (fun _ => 0))
      = some (OK, freshState sumDevice 16 (fun _ => 0)) ∧
    (freshState sumDevice 16 (fun _ => 0)).nf = 0x0C010000 ∧
    (E_EEPROM_XMC4_UpdateFlashContents sumDevice (failAt 0) (freshState sumDevice 16 (fun _ => 0))).1
      = WRITE_ERROR ∧
    (E_EEPROM_XMC4_UpdateFlashContents sumDevice (failAt 0) (freshState sumDevice 16 (fun _ => 0))).2.fda
      = (freshState sumDevice 16 (fun _ => 0)).fda ∧
    (E_EEPROM_XMC4_UpdateFlashContents sumDevice (failAt 0) (freshState sumDevice 16 (fun _ => 0))).2.nf
      = 0x0C012000 ∧
    ¬ ((E_EEPROM_XMC4_UpdateFlashContents sumDevice (failAt 0) (freshState sumDevice 16 (fun _ => 0))).2.nf
      = (freshState sumDevice 16 (fun _ => 0)).nf) :=
  ⟨init_erased (by decide) allOk 0 16 (by decide) (fun _ => 0) (by decide),
    by decide, by decide, by decide, by decide, by decide⟩

/-- C6. A persist that gets to the write step (it does not return `ERASE_ERROR`) leaves
the mirror's cycle counter at its previous value plus one (modulo 2^32).  For every
state and every sequence of API calls in which all persists return `OK` and the
counter does not reach 2^32, the counters left by the successive persists are
`c+1, c+2, ...` for the initial counter `c`, hence strictly increasing, and each is
the cycle counter stored in flash in the block that persist wrote, whatever sector it
is in. -/
theorem C6_monotonic_versions (d : Device) (acts : List Action) (s : State)
    (hok : ∀ r ∈ persists d acts s, r.1 = OK)
    (hno : s.bcc + (persists d acts s).length < U32) :
    (∀ (o : Outcomes) (s1 : State), (E_EEPROM_XMC4_UpdateFlashContents d o s1).1 ≠ ERASE_ERROR →
      (E_EEPROM_XMC4_UpdateFlashContents d o s1).2.bcc = (s1.bcc + 1) % U32) ∧
    (persists d acts s).map (fun r => r.2.bcc)
      = (List.range (persists d acts s).length).map (fun i => s.bcc + 1 + i) ∧
    List.Pairwise (fun a b => a < b) ((persists d acts s).map (fun r => r.2.bcc)) ∧
    ∀ r ∈ persists d acts s, cycleCount r.2.hw.mem r.2.fda = r.2.bcc := by
  obtain ⟨h1, h2⟩ := persists_counts d acts s hok hno
  refine ⟨?_, h1, ?_, h2⟩
  · intro o s1 hne
    rcases update_spec d o s1 with ⟨he, _⟩ | ⟨_, hb, _⟩
    · exact absurd he hne
    · exact hb
  · rw [h1]
    exact List.Pairwise.map _ (fun a b hab => by omega) (List.pairwise_lt_range _)

/-- Witness of C6: two persists with a byte write in between, from the state left by
initialisation on the erased XMC4500 ring. -/
theorem C6_monotonic_versions_witness :
    (∀ r ∈ persists sumDevice twoPersists (freshState sumDevice 16 (fun _ => 0)), r.1 = OK) ∧
    (freshState sumDevice 16 (fun _ => 0)).bcc
      + (persists sumDevice twoPersists (freshState sumDevice 16 (fun _ => 0))).length < U32 ∧
    (persists sumDevice twoPersists (freshState sumDevice 16 (fun _ => 0))).map (fun r => r.2.bcc)
      = (List.range (persists sumDevice twoPersists (freshState sumDevice 16 (fun _ => 0))).length).map
          (fun i => (freshState sumDevice 16 (fun _ => 0)).bcc + 1 + i) ∧
    List.Pairwise (fun a b => a < b)
      ((persists sumDevice twoPersists (freshState sumDevice 16 (fun _ => 0))).map (fun r => r.2.bcc)) :=
  ⟨by decide, by decide,
    (C6_monotonic_versions sumDevice twoPersists (freshState sumDevice 16 (fun _ => 0))
      (by decide) (by decide)).2.1,
    (C6_monotonic_versions sumDevice twoPersists (freshState sumDevice 16 (fun _ => 0))
      (by decide) (by decide)).2.2.1⟩

/-- C8. On a ring whose eight blocks all have a zero cycle counter, with any record
length up to 8184 and whatever the flash module reports, `E_EEPROM_XMC4_Init` returns
`OK` and `E_EEPROM_XMC4_IsFlashEmpty` is then true; after any sequence of API calls
it is true exactly when no persist of the sequence has returned `OK`: it is true
before the first successful persist, false right after it, and false after every later
call, whatever later persists return. -/
theorem C8_emptiness (d : Device) (hd : d.placed) (o : Outcomes) (fuel len : Nat)
    (hfuel : 2 ≤ fuel) (hlen : len ≤ E_EEPROM_XMC4_WORKING_BUFFER_SIZE) (flash : Nat → Nat)
    (h : erasedRing d flash) :
    ∃ s0, E_EEPROM_XMC4_Init d o fuel len (powerOn flash) = some (OK, s0) ∧
      E_EEPROM_XMC4_IsFlashEmpty s0 = true ∧
      ∀ acts : List Action,
        (E_EEPROM_XMC4_IsFlashEmpty (run d acts s0) = true ↔
          ∀ r ∈ persists d acts s0, r.1 ≠ OK) := by
  obtain ⟨n, rfl⟩ : ∃ n, fuel = n + 2 := ⟨fuel - 2, by omega⟩
  refine ⟨freshState d len flash, init_erased hd o n len hlen flash h, rfl, ?_⟩
  intro acts
  have hr : inRing d (freshState d len flash) := ⟨0, by decide, by
    simp only [blockAddr, freshState, State.nf, Nat.mul_zero, Nat.add_zero]⟩
  rw [isEmpty_run hd acts _ hr]
  exact ⟨fun h => h.2, fun h => ⟨rfl, h⟩⟩

/-- Witness of C8: the erased XMC4500 ring and a 16 byte record. -/
theorem C8_emptiness_witness :
    sumDevice.placed ∧ 2 ≤ 2 ∧ 16 ≤ E_EEPROM_XMC4_WORKING_BUFFER_SIZE ∧
    erasedRing sumDevice (fun _ => 0) ∧
    ∃ s0, E_EEPROM_XMC4_Init sumDevice allOk 2 16 (powerOn (fun _ => 0)) = some (OK, s0) ∧
      E_EEPROM_XMC4_IsFlashEmpty s0 = true ∧
      ∀ acts : List Action,
        (E_EEPROM_XMC4_IsFlashEmpty (run sumDevice acts s0) = true ↔
          ∀ r ∈ persists sumDevice acts s0, r.1 ≠ OK) :=
  ⟨by decide, by decide, by decide, by decide,
    C8_emptiness sumDevice (by decide) allOk 2 16 (by decide) (by decide) (fun _ => 0) (by decide)⟩

/-- C7. On a ring whose eight blocks all have a zero cycle counter (two blocks per
sector, `E_EEPROM_XMC4_SECTOR_SIZE / E_EEPROM_XMC4_ACTUAL_FLASH_BLOCK_SIZE = 2`),
initialisation returns `OK`, and for every sequence of API calls after it that holds
exactly `2 * 4 + 1 = 9` persists, all returning `OK`: the `i`-th persist leaves
`flash_data_addr` on block `i mod 8` of the ring, so each of the sectors 0, 1, 2, 3 has
contained the latest block at some point; none of the first eight persists sends an
erase command; and the ninth finds the cursor back at the start of the active sector,
runs the erase state machine and sends an erase command for sector 0. -/
theorem C7_wear_rotation (d : Device) (hd : d.placed) (o : Outcomes) (fuel len : Nat)
    (hfuel : 2 ≤ fuel) (hlen : len ≤ E_EEPROM_XMC4_WORKING_BUFFER_SIZE) (flash : Nat → Nat)
    (h : erasedRing d flash) (acts : List Action) :
    E_EEPROM_XMC4_SECTOR_SIZE / E_EEPROM_XMC4_ACTUAL_FLASH_BLOCK_SIZE = 2 ∧
    ∃ s0, E_EEPROM_XMC4_Init d o fuel len (powerOn flash) = some (OK, s0) ∧
      ((persists d acts s0).length = 9 → (∀ r ∈ persists d acts s0, r.1 = OK) →
        (∀ i r, (persists d acts s0)[i]? = some r →
          r.2.fda = E_EEPROM_XMC4_SECTOR0_START_ADDR d + E_EEPROM_XMC4_ACTUAL_FLASH_BLOCK_SIZE * (i % 8)) ∧
        (∀ k, k < 4 → ∃ r ∈ persists d acts s0,
          E_EEPROM_XMC4_SECTOR0_START_ADDR d + E_EEPROM_XMC4_SECTOR_SIZE * k ≤ r.2.fda ∧
          r.2.fda < E_EEPROM_XMC4_SECTOR0_START_ADDR d + E_EEPROM_XMC4_SECTOR_SIZE * (k + 1)) ∧
        (∀ i r, i < 8 → (persists d acts s0)[i]? = some r → ∀ a, FlashOp.erase a ∉ r.2.hw.ops) ∧
        (∃ r, (persists d acts s0)[8]? = some r ∧
          FlashOp.erase (E_EEPROM_XMC4_SECTOR0_START_ADDR d) ∈ r.2.hw.ops)) := by
  refine ⟨by decide, ?_⟩
  obtain ⟨n, rfl⟩ : ∃ n, fuel = n + 2 := ⟨fuel - 2, by omega⟩
  refine ⟨freshState d len flash, init_erased hd o n len hlen flash h, ?_⟩
  intro h9 hok
  have hR : RingAt d 0 (freshState d len flash) := by
    refine ⟨?_, rfl, fun _ => rfl, fun h => absurd h (by decide), rfl, fun _ a ha => ?_,
      fun h => absurd h (by decide)⟩
    · simp only [blockAddr, freshState, State.nf, Nat.zero_mod, Nat.mul_zero, Nat.add_zero]
    · simp only [freshState, List.not_mem_nil] at ha
  have hall := ringAt_persists hd acts 0 _ hR (by omega) hok
  have hget : ∀ i, i < 9 → ∃ r, (persists d acts (freshState d len flash))[i]? = some r := by
    intro i hi
    exact ⟨_, List.getElem?_eq_getElem (by omega)⟩
  have hpos : ∀ i r, (persists d acts (freshState d len flash))[i]? = some r →
      r.2.fda = blockAddr d (i % 8) := by
    intro i r hr
    obtain ⟨_, _, _, r4, _⟩ := hall i r hr
    rw [r4 (by omega)]
    congr 1
    omega
  refine ⟨?_, ?_, ?_, ?_⟩
  · intro i r hr
    rw [hpos i r hr]
    simp only [blockAddr]
  · intro k hk
    obtain ⟨r, hr⟩ := hget (2 * k) (by omega)
    refine ⟨r, List.getElem?_mem hr, ?_⟩
    rw [hpos _ r hr, blockAddr_eq hd, sector0_eq hd]
    simp only [E_EEPROM_XMC4_SECTOR_SIZE]
    omega
  · intro i r hi hr a
    obtain ⟨_, _, _, _, _, r6, _⟩ := hall i r hr
    exact r6 (by omega) a
  · obtain ⟨r, hr⟩ := hget 8 (by decide)
    obtain ⟨_, _, _, _, _, _, r7⟩ := hall 8 r hr
    refine ⟨r, hr, ?_⟩
    have := r7 rfl
    simpa only [blockAddr, Nat.mul_zero, Nat.add_zero] using this

/-- Witness of C7: nine persists in a row after initialisation on the erased XMC4500
ring all return `OK`, and the ninth leaves an erase command for sector 0 in the list
of flash commands. -/
theorem C7_wear_rotation_witness :
    sumDevice.placed ∧ 2 ≤ 2 ∧ 16 ≤ E_EEPROM_XMC4_WORKING_BUFFER_SIZE ∧
    erasedRing sumDevice (fun _ => 0) ∧
    (persists sumDevice ninePersists (freshState sumDevice 16 (fun _ => 0))).length = 9 ∧
    (∀ r ∈ persists sumDevice ninePersists (freshState sumDevice 16 (fun _ => 0)), r.1 = OK) ∧
    ∃ r, (persists sumDevice ninePersists (freshState sumDevice 16 (fun _ => 0)))[8]? = some r ∧
      FlashOp.erase (E_EEPROM_XMC4_SECTOR0_START_ADDR sumDevice) ∈ r.2.hw.ops := by
  have h9 : (persists sumDevice ninePersists (freshState sumDevice 16 (fun _ => 0))).length = 9 := by
    decide
  have hok : ∀ r ∈ persists sumDevice ninePersists (freshState sumDevice 16 (fun _ => 0)), r.1 = OK := by
    decide
  obtain ⟨_, s0, hinit, himp⟩ := C7_wear_rotation sumDevice (by decide) allOk 2 16 (by decide)
    (by decide) (fun _ => 0) (by decide) ninePersists
  have hs0 : s0 = freshState sumDevice 16 (fun _ => 0) := by
    rw [init_erased (by decide) allOk 0 16 (by decide) (fun _ => 0) (by decide)] at hinit
    exact (Prod.mk.inj (Option.some.inj hinit)).2.symm
  subst hs0
  exact ⟨by decide, by decide, by decide, by decide, h9, hok, (himp h9 hok).2.2.2⟩

/-- C1 (amended). Round trip.  For every record length `L ≤ 8184` and every payload `P`
of `L` bytes: start from the state an initialisation from reset leaves on an
append-only flash image, with erases that all verify and no block of the image
carrying the cycle counter `2^32 - 1`.  If `P` is written into the mirror at offset 0
and the persist returns `OK`, then an initialisation run again from reset on the
resulting flash, with erases that all verify, returns (with `OK` or `ERROR_OLD_DATA`)
a state whose mirror bytes `[0, L)` are `P` and which is not empty. -/
theorem C1_round_trip (d : Device) (hd : d.placed) (o1 o2 o3 : Outcomes) (n1 n3 L : Nat)
    (P : Nat → Nat) (flash : Nat → Nat)
    (hL : L ≤ E_EEPROM_XMC4_WORKING_BUFFER_SIZE) (hP : ∀ i, i < L → P i < 256)
    (happ : appendOnly d flash)
    (hwrap : ∀ i, i < 8 → cycleCount flash (blockAddr d i) + 1 < U32)
    (he1 : ∀ m, m < 4 → o1.eraseOk m = true) (he3 : ∀ m, m < 4 → o3.eraseOk m = true)
    (hok : (E_EEPROM_XMC4_UpdateFlashContents d o2
      (E_EEPROM_XMC4_WriteArray 0 P L (booted d o1 L flash).2).2).1 = OK) :
    E_EEPROM_XMC4_Init d o1 (n1 + 2) L (powerOn flash) = some (booted d o1 L flash) ∧
    ∃ st3 s3, E_EEPROM_XMC4_Init d o3 (n3 + 2) L (powerOn (E_EEPROM_XMC4_UpdateFlashContents d o2
        (E_EEPROM_XMC4_WriteArray 0 P L (booted d o1 L flash).2).2).2.hw.mem) = some (st3, s3) ∧
      (st3 = OK ∨ st3 = ERROR_OLD_DATA) ∧
      E_EEPROM_XMC4_ReadArray 0 L s3 = (List.range L).map P ∧
      E_EEPROM_XMC4_IsFlashEmpty s3 = false := by
  obtain ⟨hS1, _, hb1⟩ := boot_settled hd o1 L flash he1 happ
  have hno : (booted d o1 L flash).2.bcc + 1 < U32 := by
    rcases hb1 with h0 | ⟨j, hj, hbj⟩
    · rw [h0]; simp only [U32]; omega
    · rw [hbj]; exact hwrap j hj
  obtain ⟨r1, r2, r3⟩ := settled_roundTrip hd o2 o3 L P (booted d o1 L flash).2
    (by simpa using hL) hP hS1 hno he3 hok
  exact ⟨init_booted hd o1 n1 L hL flash, _, _, init_booted_pair hd o3 n3 L hL _, r1, r2, r3⟩

/-- Witness for C1: on an erased ring with the byte-sum device and a flash module on
which every command verifies, the record `[7, 7]` of length 2 is written, persisted
with `OK`, and read back after a restart. -/
theorem C1_round_trip_witness :
    appendOnly sumDevice (fun _ => 0) ∧
    (E_EEPROM_XMC4_UpdateFlashContents sumDevice allOk
      (E_EEPROM_XMC4_WriteArray 0 (fun _ => 7) 2 (booted sumDevice allOk 2 (fun _ => 0)).2).2).1 = OK ∧
    ∃ st3 s3, E_EEPROM_XMC4_Init sumDevice allOk 2 2 (powerOn (E_EEPROM_XMC4_UpdateFlashContents
        sumDevice allOk (E_EEPROM_XMC4_WriteArray 0 (fun _ => 7) 2
          (booted sumDevice allOk 2 (fun _ => 0)).2).2).2.hw.mem) = some (st3, s3) ∧
      E_EEPROM_XMC4_ReadArray 0 2 s3 = [7, 7] ∧ E_EEPROM_XMC4_IsFlashEmpty s3 = false := by
  have happ : appendOnly sumDevice (fun _ => 0) := by decide!
  have hok : (E_EEPROM_XMC4_UpdateFlashContents sumDevice allOk
      (E_EEPROM_XMC4_WriteArray 0 (fun _ => 7) 2 (booted sumDevice allOk 2 (fun _ => 0)).2).2).1 = OK := by
    decide!
  obtain ⟨_, st3, s3, h1, _, h2, h3⟩ := C1_round_trip sumDevice (by decide) allOk allOk allOk 0 0 2
    (fun _ => 7) (fun _ => 0) (by decide) (fun _ _ => (by decide : (7 : Nat) < 256)) happ (by decide!)
    (fun _ _ => rfl) (fun _ _ => rfl) hok
  exact ⟨happ, hok, st3, s3, h1, h2, h3⟩

/-- Counterexample to C1 as stated.  With the byte-sum device and a flash module on
which every command verifies, initialisation with record length 4096 on `staleImage`
returns `OK`; the record of 4096 bytes `7` is written at offset 0 and the persist
returns `OK`; the initialisation run again from reset on the resulting flash does not
load that record: the first byte of the mirror is 9, the payload of the stale lower
block of sector 3, so the array read back is not the record. -/
theorem C1_counterexample :
    E_EEPROM_XMC4_Init sumDevice allOk 2 4096 (powerOn staleImage)
      = some (booted sumDevice allOk 4096 staleImage) ∧
    (booted sumDevice allOk 4096 staleImage).1 = OK ∧
    (E_EEPROM_XMC4_UpdateFlashContents sumDevice allOk
      (E_EEPROM_XMC4_WriteArray 0 (fun _ => 7) 4096 (booted sumDevice allOk 4096 staleImage).2).2).1 = OK ∧
    E_EEPROM_XMC4_Init sumDevice allOk 2 4096 (powerOn (E_EEPROM_XMC4_UpdateFlashContents sumDevice allOk
        (E_EEPROM_XMC4_WriteArray 0 (fun _ => 7) 4096 (booted sumDevice allOk 4096 staleImage).2).2).2.hw.mem)
      = some (booted sumDevice allOk 4096 (E_EEPROM_XMC4_UpdateFlashContents sumDevice allOk
        (E_EEPROM_XMC4_WriteArray 0 (fun _ => 7) 4096 (booted sumDevice allOk 4096 staleImage).2).2).2.hw.mem) ∧
    E_EEPROM_XMC4_ReadByte 0 (booted sumDevice allOk 4096 (E_EEPROM_XMC4_UpdateFlashContents sumDevice allOk
        (E_EEPROM_XMC4_WriteArray 0 (fun _ => 7) 4096 (booted sumDevice allOk 4096 staleImage).2).2).2.hw.mem).2
      = 9 ∧
    E_EEPROM_XMC4_ReadArray 0 4096 (booted sumDevice allOk 4096 (E_EEPROM_XMC4_UpdateFlashContents sumDevice allOk
        (E_EEPROM_XMC4_WriteArray 0 (fun _ => 7) 4096 (booted sumDevice allOk 4096 staleImage).2).2).2.hw.mem).2
      ≠ (List.range 4096).map (fun _ => 7) := by
  have hd : sumDevice.placed := by decide
  have he : ∀ m, m < 4 → allOk.eraseOk m = true := fun _ _ => rfl
  have hB : (booted sumDevice allOk 4096 staleImage).1 = OK ∧
      (booted sumDevice allOk 4096 staleImage).2.nf = blockAddr sumDevice 0 ∧
      (booted sumDevice allOk 4096 staleImage).2.fda = blockAddr sumDevice 7 ∧
      (booted sumDevice allOk 4096 staleImage).2.cs = 3 ∧
      (booted sumDevice allOk 4096 staleImage).2.bcc = 3 := by decide!
  obtain ⟨b1, b2, b3, b4, b5⟩ := hB
  have hI : cycleCount staleImage (blockAddr sumDevice 7) = 3 ∧
      cycleCount staleImage (blockAddr sumDevice 6) = 100 ∧
      validBlock sumDevice staleImage (blockAddr sumDevice 6) ∧
      staleImage (blockAddr sumDevice 6 + 8 + 0) % 256 = 9 := by decide!
  obtain ⟨i1, i2, i3, i4⟩ := hI
  have hok : (E_EEPROM_XMC4_UpdateFlashContents sumDevice allOk
      (E_EEPROM_XMC4_WriteArray 0 (fun _ => 7) 4096 (booted sumDevice allOk 4096 staleImage).2).2).1
      = OK := by decide!
  have hview : (∀ i, i < 6 → cycleCount (booted sumDevice allOk 4096 staleImage).2.hw.mem
        (blockAddr sumDevice i) = 0) ∧
      sameBlock (booted sumDevice allOk 4096 staleImage).2.hw.mem staleImage (blockAddr sumDevice 6) ∧
      sameBlock (booted sumDevice allOk 4096 staleImage).2.hw.mem staleImage (blockAddr sumDevice 7) := by
    rcases booted_view hd allOk 4096 staleImage he with ⟨_, _, hf0, _⟩ |
      ⟨j, hj, _, _, _, _, hf, _, _, hsame, hzero, _⟩
    · rw [b3] at hf0
      exact absurd hf0 (blockAddr_ne_zero hd 7)
    · rw [b3] at hf
      have hj7 : 7 = j := blockAddr_inj hd hf
      subst hj7
      exact ⟨fun i hi => hzero i (by omega) (by omega), hsame 6 (by decide) (by decide),
        hsame 7 (by decide) (by decide)⟩
  obtain ⟨hz, h6, h7⟩ := hview
  have hdata := stale_restart hd allOk allOk 4096 (fun _ => 7) (booted sumDevice allOk 4096 staleImage).2
    staleImage b2 b3 b4 (by rw [i1, b5]) hz h6 h7 i3 (by rw [i1]; decide) (by rw [b5, i2]; decide)
    (by rw [b5]; simp only [U32]; omega) he hok 0 (by omega)
  have hbyte : E_EEPROM_XMC4_ReadByte 0 (booted sumDevice allOk 4096 (E_EEPROM_XMC4_UpdateFlashContents
      sumDevice allOk (E_EEPROM_XMC4_WriteArray 0 (fun _ => 7) 4096
        (booted sumDevice allOk 4096 staleImage).2).2).2.hw.mem).2 = 9 := by
    refine (readByte_eq 0 _).trans ?_
    rw [hdata, Nat.mod_mod]
    exact i4
  refine ⟨init_booted hd allOk 0 4096 (by decide) staleImage, b1, hok,
    init_booted hd allOk 0 4096 (by decide) _, hbyte, ?_⟩
  intro h
  have h0 := congrArg (fun l => l[0]?) h
  simp only [] at h0
  rw [readArray_first 4096 (by decide), hbyte, List.getElem?_map,
    List.getElem?_range (by decide)] at h0
  exact absurd h0 (by decide)

/-- C4. Checksum rejection with fallback.  Take the flash left by any sequence of API
calls whose persists all return `OK` (counter not reaching 2^32), started from the
state an initialisation leaves on an append-only image with erases that verify, with a
latest block present.  Let `mem2` be that flash with the latest block damaged so that
its stored checksum differs from the recomputed one, the flash outside that block being
kept.  Then an initialisation from reset on `mem2` returns, and it does not take the
damaged block as the latest block.  If no block of the ring is valid in `mem2` it
reports empty.  Otherwise it takes a valid block, older than the damaged one, whose
cycle counter is the largest among the valid blocks, wherever that block lies (also
below the damaged one in the same sector), and it does not report empty. -/
theorem C4_checksum_rejection_with_fallback (d : Device) (hd : d.placed) (o1 o3 : Outcomes)
    (n3 L : Nat) (flash : Nat → Nat) (acts : List Action) (mem2 : Nat → Nat)
    (hL : L ≤ E_EEPROM_XMC4_WORKING_BUFFER_SIZE)
    (he1 : ∀ m, m < 4 → o1.eraseOk m = true) (happ : appendOnly d flash)
    (hall : ∀ r ∈ persists d acts (booted d o1 L flash).2, r.1 = OK)
    (hno : (booted d o1 L flash).2.bcc + (persists d acts (booted d o1 L flash).2).length < U32)
    (hne : E_EEPROM_XMC4_IsFlashEmpty (run d acts (booted d o1 L flash).2) = false)
    (hrest : ∀ a, ¬ ((run d acts (booted d o1 L flash).2).fda ≤ a ∧
        a < (run d acts (booted d o1 L flash).2).fda + 8192) →
      mem2 a = (run d acts (booted d o1 L flash).2).hw.mem a)
    (hbad : ¬ crcOk d mem2 (run d acts (booted d o1 L flash).2).fda) :
    ∃ st3 s3, E_EEPROM_XMC4_Init d o3 (n3 + 2) L (powerOn mem2) = some (st3, s3) ∧
      s3.fda ≠ (run d acts (booted d o1 L flash).2).fda ∧
      ((∀ i, i < 8 → ¬ validBlock d mem2 (blockAddr d i)) →
        E_EEPROM_XMC4_IsFlashEmpty s3 = true) ∧
      ((∃ i, i < 8 ∧ validBlock d mem2 (blockAddr d i)) →
        E_EEPROM_XMC4_IsFlashEmpty s3 = false ∧
        ∃ j, j < 8 ∧ s3.fda = blockAddr d j ∧ validBlock d mem2 (blockAddr d j) ∧
          cycleCount mem2 (blockAddr d j) < (run d acts (booted d o1 L flash).2).bcc ∧
          ∀ i, i < 8 → validBlock d mem2 (blockAddr d i) →
            cycleCount mem2 (blockAddr d i) ≤ cycleCount mem2 (blockAddr d j)) := by
  have hS := settled_run hd acts _ (boot_settled hd o1 L flash he1 happ).1 hall hno
  have hf : (run d acts (booted d o1 L flash).2).fda ≠ 0 := by
    intro h
    rw [(isFlashEmpty_iff _).2 h] at hne
    exact Bool.noConfusion hne
  obtain ⟨c1, c2, c3⟩ := settled_corrupt hd o3 L _ mem2 hS hf hrest hbad
  refine ⟨_, _, init_booted_pair hd o3 n3 L hL mem2, c1, fun h => (isFlashEmpty_iff _).2 (c2 h),
    fun h => ?_⟩
  obtain ⟨j, hj, hfj, rest⟩ := c3 h
  refine ⟨?_, j, hj, hfj, rest⟩
  cases hE : E_EEPROM_XMC4_IsFlashEmpty (booted d o3 L mem2).2 with
  | false => rfl
  | true =>
    have := (isFlashEmpty_iff _).1 hE
    rw [hfj] at this
    exact absurd this (blockAddr_ne_zero hd j)

/-- Witness for C4: on an erased ring with the byte-sum device two records are persisted
(blocks 0 and 1 of sector 0), then the lowest bit of the stored checksum of the latest
block is inverted.  The initialisation from reset on that flash does not take the
damaged block and does not report empty: it falls back to the older block below it. -/
theorem C4_checksum_rejection_with_fallback_witness :
    (∀ r ∈ persists sumDevice twoPersists (booted sumDevice allOk 16 (fun _ => 0)).2, r.1 = OK) ∧
    E_EEPROM_XMC4_IsFlashEmpty (run sumDevice twoPersists (booted sumDevice allOk 16 (fun _ => 0)).2)
      = false ∧
    ¬ crcOk sumDevice (flipChecksum (run sumDevice twoPersists (booted sumDevice allOk 16 (fun _ => 0)).2))
      (run sumDevice twoPersists (booted sumDevice allOk 16 (fun _ => 0)).2).fda ∧
    ∃ st3 s3, E_EEPROM_XMC4_Init sumDevice allOk 2 16
        (powerOn (flipChecksum (run sumDevice twoPersists (booted sumDevice allOk 16 (fun _ => 0)).2)))
        = some (st3, s3) ∧
      s3.fda ≠ (run sumDevice twoPersists (booted sumDevice allOk 16 (fun _ => 0)).2).fda ∧
      E_EEPROM_XMC4_IsFlashEmpty s3 = false := by
  have hd : sumDevice.placed := by decide
  have he : ∀ m, m < 4 → allOk.eraseOk m = true := fun _ _ => rfl
  have happ : appendOnly sumDevice (fun _ => 0) := by decide!
  have hall : ∀ r ∈ persists sumDevice twoPersists (booted sumDevice allOk 16 (fun _ => 0)).2,
      r.1 = OK := by decide!
  have hno : (booted sumDevice allOk 16 (fun _ => 0)).2.bcc
      + (persists sumDevice twoPersists (booted sumDevice allOk 16 (fun _ => 0)).2).length < U32 := by
    decide!
  have hne : E_EEPROM_XMC4_IsFlashEmpty
      (run sumDevice twoPersists (booted sumDevice allOk 16 (fun _ => 0)).2) = false := by decide!
  have hS0 := (boot_settled hd allOk 16 (fun _ => 0) he happ).1
  have hSX := settled_run hd twoPersists _ hS0 hall hno
  have hfX : (run sumDevice twoPersists (booted sumDevice allOk 16 (fun _ => 0)).2).fda ≠ 0 := by
    intro h
    rw [(isFlashEmpty_iff _).2 h] at hne
    exact Bool.noConfusion hne
  obtain ⟨q, hq, hfq, hvq⟩ := settled_latest_valid hSX hfX
  have hbad := flipChecksum_bad sumDevice _ (by rw [hfq]; exact hvq.2)
  have hrest := flipChecksum_rest (run sumDevice twoPersists (booted sumDevice allOk 16 (fun _ => 0)).2)
  obtain ⟨st3, s3, h1, h2, _, h4⟩ := C4_checksum_rejection_with_fallback sumDevice hd allOk allOk 0 16
    (fun _ => 0) twoPersists _ (by decide) he happ hall hno hne hrest hbad
  -- the first record is still valid below the damaged block
  have hA : (E_EEPROM_XMC4_UpdateFlashContents sumDevice allOk
        (booted sumDevice allOk 16 (fun _ => 0)).2).1 = OK ∧
      (booted sumDevice allOk 16 (fun _ => 0)).2.bcc + 1 < U32 := by decide!
  have hB : (E_EEPROM_XMC4_WriteByte 0 7 (E_EEPROM_XMC4_UpdateFlashContents sumDevice allOk
        (booted sumDevice allOk 16 (fun _ => 0)).2).2).2.fda ≠ 0 ∧
      (E_EEPROM_XMC4_WriteByte 0 7 (E_EEPROM_XMC4_UpdateFlashContents sumDevice allOk
        (booted sumDevice allOk 16 (fun _ => 0)).2).2).2.nf ≠
      (E_EEPROM_XMC4_WriteByte 0 7 (E_EEPROM_XMC4_UpdateFlashContents sumDevice allOk
        (booted sumDevice allOk 16 (fun _ => 0)).2).2).2.fda ∧
      (E_EEPROM_XMC4_UpdateFlashContents sumDevice allOk (E_EEPROM_XMC4_WriteByte 0 7
        (E_EEPROM_XMC4_UpdateFlashContents sumDevice allOk
          (booted sumDevice allOk 16 (fun _ => 0)).2).2).2).1 ≠ ERASE_ERROR ∧
      (run sumDevice twoPersists (booted sumDevice allOk 16 (fun _ => 0)).2).fda ≠
      (E_EEPROM_XMC4_WriteByte 0 7 (E_EEPROM_XMC4_UpdateFlashContents sumDevice allOk
        (booted sumDevice allOk 16 (fun _ => 0)).2).2).2.fda := by decide!
  have hSB := settled_writeByte 0 7 (settled_update hd allOk _ hS0 hA.2 hA.1)
  obtain ⟨q1, hq1, hfq1, _, hv1⟩ := settled_previous_kept hd allOk _ hSB hB.1 hB.2.1 hB.2.2.1
  rw [← run_twoPersists] at hv1
  have hqq : q1 ≠ q := by
    intro h
    apply hB.2.2.2
    rw [hfq, hfq1, h]
  rw [hfq] at hrest
  have hv2 := (validBlock_congr sumDevice (sameBlock_of_frame hd hqq hrest)).2 hv1
  exact ⟨hall, hne, hbad, st3, s3, h1, h2, (h4 ⟨q1, hq1, hv2⟩).1⟩

/-- C12. Erase state machine postcondition.  For every state whose dirty mask has only
the four sector bits, and every pattern of erase outcomes: the sectors concerned are
those of `sectorsToErase`, i.e. the sectors marked dirty other than `current_sector`, in
ascending order.  If the erase of each of them verifies the machine returns `OK`, has
sent exactly one erase for each of them in that order, and the new mask has the bit of
a sector set exactly when it is `current_sector` and was set before.  If the erase of
sector `k` is the first that does not verify it returns `ERASE_ERROR`, has sent the
erases of the concerned sectors up to `k` and none above, and the dirty bits of sectors
`k..3` are as before.  In all cases the mirror, the cursor, the latest block address
and `current_sector` are unchanged. -/
theorem C12_erase_housekeeper_postcondition (d : Device) (hd : d.placed) (o : Outcomes) (s : State)
    (hes : s.es < 16) :
    (∀ m, m ∈ sectorsToErase s 0 4 ↔ (m < 4 ∧ m ≠ s.cs ∧ dirty s.es m)) ∧
    List.Pairwise (fun a b => a < b) (sectorsToErase s 0 4) ∧
    ((∀ m ∈ sectorsToErase s 0 4, o.eraseOk m = true) →
      (E_EEPROM_XMC4_lInitEraseStateMachine d o s).1 = OK ∧
      (E_EEPROM_XMC4_lInitEraseStateMachine d o s).2.hw.ops
        = s.hw.ops ++ (sectorsToErase s 0 4).map (fun m => FlashOp.erase (blockAddr d (2 * m))) ∧
      (E_EEPROM_XMC4_lInitEraseStateMachine d o s).2.es < 16 ∧
      ∀ m, m < 4 → (dirty (E_EEPROM_XMC4_lInitEraseStateMachine d o s).2.es m
        ↔ (m = s.cs ∧ dirty s.es m))) ∧
    (∀ k, k ∈ sectorsToErase s 0 4 → o.eraseOk k = false →
      (∀ m ∈ sectorsToErase s 0 k, o.eraseOk m = true) →
      (E_EEPROM_XMC4_lInitEraseStateMachine d o s).1 = ERASE_ERROR ∧
      (E_EEPROM_XMC4_lInitEraseStateMachine d o s).2.hw.ops
        = s.hw.ops ++ (sectorsToErase s 0 (k + 1)).map (fun m => FlashOp.erase (blockAddr d (2 * m))) ∧
      ∀ m, k ≤ m → m < 4 → (dirty (E_EEPROM_XMC4_lInitEraseStateMachine d o s).2.es m
        ↔ dirty s.es m)) ∧
    (E_EEPROM_XMC4_lInitEraseStateMachine d o s).2.e_eeprom_xmc4_data_buffer
      = s.e_eeprom_xmc4_data_buffer ∧
    (E_EEPROM_XMC4_lInitEraseStateMachine d o s).2.nf = s.nf ∧
    (E_EEPROM_XMC4_lInitEraseStateMachine d o s).2.fda = s.fda ∧
    (E_EEPROM_XMC4_lInitEraseStateMachine d o s).2.cs = s.cs := by
  have hmem : ∀ m, m ∈ sectorsToErase s 0 4 ↔ (m < 4 ∧ m ≠ s.cs ∧ dirty s.es m) := by
    intro m
    rw [mem_sectorsToErase]
    constructor
    · rintro ⟨⟨_, h1⟩, h2⟩
      exact ⟨by omega, h2⟩
    · rintro ⟨h1, h2⟩
      exact ⟨⟨Nat.zero_le _, by omega⟩, h2⟩
  obtain ⟨f1, f2, f3, f4, _⟩ := eraseLoop_frame d o 4 0 s
  unfold E_EEPROM_XMC4_lInitEraseStateMachine
  simp only [E_EEPROM_XMC4_MAX_SECTORS]
  refine ⟨hmem, ?_, fun hall => ?_, fun k hk hfail hbefore => ?_, f1, f2, f3, f4⟩
  · unfold sectorsToErase
    exact List.Pairwise.filter _ (List.pairwise_lt_range' 0 4)
  · obtain ⟨i1, i2, i3, i4⟩ := eraseLoop_trace_ok hd o 4 0 s rfl hes hall
    refine ⟨i1, i2, i3, fun m hm => ?_⟩
    rw [i4 m hm]
    constructor
    · rintro ⟨h1, h2 | h2⟩
      · exact absurd h2 (by omega)
      · exact ⟨h2, h1⟩
    · rintro ⟨h1, h2⟩
      exact ⟨h2, Or.inr h1⟩
  · obtain ⟨hk4, hkT⟩ := (hmem k).1 hk
    exact eraseLoop_trace_fail hd o 4 0 k s rfl hes (Nat.zero_le _) hk4 hkT hfail hbefore

/-- Witness for C12: with all four sectors marked and sector 0 active, on a flash
module on which every erase verifies the machine returns `OK` after the erases of
sectors 1, 2 and 3, in that order; when the erase of sector 2 does not verify it
returns `ERASE_ERROR` after the erases of sectors 1 and 2 only. -/
theorem C12_erase_housekeeper_postcondition_witness :
    markedState.es < 16 ∧
    (E_EEPROM_XMC4_lInitEraseStateMachine sumDevice allOk markedState).1 = OK ∧
    (E_EEPROM_XMC4_lInitEraseStateMachine sumDevice allOk markedState).2.hw.ops
      = [FlashOp.erase 0x0C014000, FlashOp.erase 0x0C018000, FlashOp.erase 0x0C01C000] ∧
    (E_EEPROM_XMC4_lInitEraseStateMachine sumDevice (eraseFailsAt 2) markedState).1 = ERASE_ERROR ∧
    (E_EEPROM_XMC4_lInitEraseStateMachine sumDevice (eraseFailsAt 2) markedState).2.hw.ops
      = [FlashOp.erase 0x0C014000, FlashOp.erase 0x0C018000] := by
  have hes : markedState.es < 16 := by decide
  have h1 := (C12_erase_housekeeper_postcondition sumDevice (by decide) allOk markedState hes).2.2.1
    (fun _ _ => rfl)
  have h2 := (C12_erase_housekeeper_postcondition sumDevice (by decide) (eraseFailsAt 2) markedState
    hes).2.2.2.1 2 (by decide!) (by decide) (by decide!)
  have e1 : markedState.hw.ops ++ (sectorsToErase markedState 0 4).map
      (fun m => FlashOp.erase (blockAddr sumDevice (2 * m)))
      = [FlashOp.erase 0x0C014000, FlashOp.erase 0x0C018000, FlashOp.erase 0x0C01C000] := by decide!
  have e2 : markedState.hw.ops ++ (sectorsToErase markedState 0 (2 + 1)).map
      (fun m => FlashOp.erase (blockAddr sumDevice (2 * m)))
      = [FlashOp.erase 0x0C014000, FlashOp.erase 0x0C018000] := by decide!
  exact ⟨hes, h1.1, h1.2.1.trans e1, h2.1, h2.2.1.trans e2⟩

/-- C13. Persist aborts on erase failure.  When a persist finds the cursor at the start
of the active sector with a non-zero cycle counter, the state handed to the erase
state machine has all four sectors marked and `current_sector` taken from
`flash_data_addr` by mask and shift, the rest being as before.  If the machine returns
`OK` the persist goes on with the write step on the state the machine left, so the page
programs come after the erases in the list of flash commands.  If the machine does not
return `OK`, the persist returns `ERASE_ERROR`, the commands it has added are erases
only (no page program), and the mirror (cycle counter, checksum field, payload, length),
`flash_data_addr` and `next_free_start_addr` are as before the call. -/
theorem C13_persist_aborts_on_erase_failure (d : Device) (hd : d.placed) (o : Outcomes) (s : State)
    (hf : ringFilled d s) :
    (markAllFilled s).es = E_EEPROM_XMC4_ALL_SECTORS_FILLED ∧
    (markAllFilled s).cs = (s.fda &&& 0xC000) >>> 14 ∧
    (markAllFilled s).e_eeprom_xmc4_data_buffer = s.e_eeprom_xmc4_data_buffer ∧
    (markAllFilled s).nf = s.nf ∧ (markAllFilled s).fda = s.fda ∧ (markAllFilled s).hw = s.hw ∧
    ((E_EEPROM_XMC4_lInitEraseStateMachine d o (markAllFilled s)).1 = OK →
      E_EEPROM_XMC4_UpdateFlashContents d o s
        = updateWrite d o (E_EEPROM_XMC4_lInitEraseStateMachine d o (markAllFilled s)).2 ∧
      ∃ le lp, (E_EEPROM_XMC4_UpdateFlashContents d o s).2.hw.ops = s.hw.ops ++ le ++ lp ∧
        (∀ x ∈ le, ∃ a, x = FlashOp.erase a) ∧ (∀ x ∈ lp, ∃ a, x = FlashOp.program a)) ∧
    ((E_EEPROM_XMC4_lInitEraseStateMachine d o (markAllFilled s)).1 ≠ OK →
      (E_EEPROM_XMC4_UpdateFlashContents d o s).1 = ERASE_ERROR ∧
      (∃ le, (E_EEPROM_XMC4_UpdateFlashContents d o s).2.hw.ops = s.hw.ops ++ le ∧
        ∀ x ∈ le, ∃ a, x = FlashOp.erase a) ∧
      (E_EEPROM_XMC4_UpdateFlashContents d o s).2.e_eeprom_xmc4_data_buffer
        = s.e_eeprom_xmc4_data_buffer ∧
      (E_EEPROM_XMC4_UpdateFlashContents d o s).2.fda = s.fda ∧
      (E_EEPROM_XMC4_UpdateFlashContents d o s).2.nf = s.nf) := by
  obtain ⟨f1, f2, f3, _, _⟩ := eraseLoop_frame d o 4 0 (markAllFilled s)
  obtain ⟨le, hle, hle2⟩ := eraseLoop_ops_new hd o 4 0 (markAllFilled s) (le_refl _)
  have hle3 : ∀ x ∈ le, ∃ a, x = FlashOp.erase a := by
    intro x hx
    obtain ⟨m, _, _, h⟩ := hle2 x hx
    exact ⟨_, h⟩
  have hu := update_of_filled o hf
  unfold E_EEPROM_XMC4_lInitEraseStateMachine
  simp only [E_EEPROM_XMC4_MAX_SECTORS]
  refine ⟨rfl, rfl, rfl, rfl, rfl, rfl, fun hok => ?_, fun hne => ?_⟩
  · rw [if_pos hok] at hu
    refine ⟨hu, ?_⟩
    obtain ⟨lp, hlp, hlp2⟩ := updateWrite_ops_new d o (eraseLoop d o 4 0 (markAllFilled s)).2
    refine ⟨le, lp, ?_, hle3, hlp2⟩
    rw [hu, hlp, hle]
    rfl
  · rw [if_neg hne] at hu
    rw [hu]
    refine ⟨?_, ⟨le, hle, hle3⟩, f1, f3, f2⟩
    rcases eraseLoop_status d o 4 0 (markAllFilled s) with h | h
    · exact absurd h hne
    · exact h

/-- Witness for C13: after eight persists with write errors on an erased ring the
cursor is back at the start of the active sector 0; the next persist, on a flash module
on which the erase of sector 1 does not verify, returns `ERASE_ERROR` with the cycle
counter, the latest block address and the cursor unchanged. -/
theorem C13_persist_aborts_on_erase_failure_witness :
    ringFilled sumDevice wrappedState ∧
    (E_EEPROM_XMC4_UpdateFlashContents sumDevice (eraseFailsAt 1) wrappedState).1 = ERASE_ERROR ∧
    (E_EEPROM_XMC4_UpdateFlashContents sumDevice (eraseFailsAt 1) wrappedState).2.bcc
      = wrappedState.bcc ∧
    (E_EEPROM_XMC4_UpdateFlashContents sumDevice (eraseFailsAt 1) wrappedState).2.fda
      = wrappedState.fda ∧
    (E_EEPROM_XMC4_UpdateFlashContents sumDevice (eraseFailsAt 1) wrappedState).2.nf
      = wrappedState.nf := by
  have hf : ringFilled sumDevice wrappedState := by decide!
  have hne : (E_EEPROM_XMC4_lInitEraseStateMachine sumDevice (eraseFailsAt 1)
      (markAllFilled wrappedState)).1 ≠ OK := by decide!
  obtain ⟨h1, _, h3, h4, h5⟩ := (C13_persist_aborts_on_erase_failure sumDevice (by decide)
    (eraseFailsAt 1) wrappedState hf).2.2.2.2.2.2.2 hne
  exact ⟨hf, h1, by rw [State.bcc, h3], h4, h5⟩

/-- C15. Mutators report change and touch only their range.  For every state, every
range `[offset, offset + length)` within the payload area and every array of bytes:
`E_EEPROM_XMC4_WriteArray` returns true exactly when some mirror byte of the range
differed from the corresponding data byte; afterwards the bytes of the range are the
data, a read of the same range returns the data, every other payload byte is as before,
and the cycle counter, the checksum field, the length, the ring bookkeeping, the
`initialized` flag and the flash (bytes and list of commands) are unchanged.  The same
holds for `E_EEPROM_XMC4_WriteByte` with a range of one byte. -/
theorem C15_mutators_report_change_and_touch_only_their_range (s : State)
    (offset_address : Nat) (data : Nat → Nat) (length value : Nat)
    (_hb : offset_address + length ≤ E_EEPROM_XMC4_WORKING_BUFFER_SIZE)
    (hdata : ∀ i, i < length → data i < 256) (hv : value < 256) :
    (((E_EEPROM_XMC4_WriteArray offset_address data length s).1 = true ↔
        ∃ i, i < length ∧ E_EEPROM_XMC4_ReadByte (offset_address + i) s ≠ data i) ∧
      (∀ i, i < length →
        E_EEPROM_XMC4_ReadByte (offset_address + i)
          (E_EEPROM_XMC4_WriteArray offset_address data length s).2 = data i) ∧
      E_EEPROM_XMC4_ReadArray offset_address length
          (E_EEPROM_XMC4_WriteArray offset_address data length s).2 = (List.range length).map data ∧
      (∀ j, ¬ (offset_address ≤ j ∧ j < offset_address + length) →
        (E_EEPROM_XMC4_WriteArray offset_address data length s).2.e_eeprom_xmc4_data_buffer.eeprom_data j
          = s.e_eeprom_xmc4_data_buffer.eeprom_data j) ∧
      (E_EEPROM_XMC4_WriteArray offset_address data length s).2.e_eeprom_xmc4_data_buffer.block_cycle_count
        = s.e_eeprom_xmc4_data_buffer.block_cycle_count ∧
      (E_EEPROM_XMC4_WriteArray offset_address data length s).2.e_eeprom_xmc4_data_buffer.crc
        = s.e_eeprom_xmc4_data_buffer.crc ∧
      (E_EEPROM_XMC4_WriteArray offset_address data length s).2.e_eeprom_xmc4_data_buffer.len
        = s.e_eeprom_xmc4_data_buffer.len ∧
      (E_EEPROM_XMC4_WriteArray offset_address data length s).2.e_eeprom_xmc4_sector_info
        = s.e_eeprom_xmc4_sector_info ∧
      (E_EEPROM_XMC4_WriteArray offset_address data length s).2.initialized = s.initialized ∧
      (E_EEPROM_XMC4_WriteArray offset_address data length s).2.hw = s.hw) ∧
    (((E_EEPROM_XMC4_WriteByte offset_address value s).1 = true ↔
        E_EEPROM_XMC4_ReadByte offset_address s ≠ value) ∧
      E_EEPROM_XMC4_ReadByte offset_address (E_EEPROM_XMC4_WriteByte offset_address value s).2 = value ∧
      (∀ j, j ≠ offset_address →
        (E_EEPROM_XMC4_WriteByte offset_address value s).2.e_eeprom_xmc4_data_buffer.eeprom_data j
          = s.e_eeprom_xmc4_data_buffer.eeprom_data j) ∧
      (E_EEPROM_XMC4_WriteByte offset_address value s).2.e_eeprom_xmc4_data_buffer.block_cycle_count
        = s.e_eeprom_xmc4_data_buffer.block_cycle_count ∧
      (E_EEPROM_XMC4_WriteByte offset_address value s).2.e_eeprom_xmc4_data_buffer.crc
        = s.e_eeprom_xmc4_data_buffer.crc ∧
      (E_EEPROM_XMC4_WriteByte offset_address value s).2.e_eeprom_xmc4_data_buffer.len
        = s.e_eeprom_xmc4_data_buffer.len ∧
      (E_EEPROM_XMC4_WriteByte offset_address value s).2.e_eeprom_xmc4_sector_info
        = s.e_eeprom_xmc4_sector_info ∧
      (E_EEPROM_XMC4_WriteByte offset_address value s).2.initialized = s.initialized ∧
      (E_EEPROM_XMC4_WriteByte offset_address value s).2.hw = s.hw) := by
  have hbyte : ∀ i, i < length →
      E_EEPROM_XMC4_ReadByte (offset_address + i)
        (E_EEPROM_XMC4_WriteArray offset_address data length s).2 = data i := by
    intro i hi
    show (if offset_address ≤ offset_address + i ∧ offset_address + i < offset_address + length
      then data (offset_address + i - offset_address) % 256 else _) % 256 = data i
    rw [if_pos ⟨by omega, by omega⟩, Nat.add_sub_cancel_left, Nat.mod_mod]
    exact Nat.mod_eq_of_lt (hdata i hi)
  refine ⟨⟨?_, hbyte, ?_, fun j hj => ?_, rfl, rfl, rfl, rfl, rfl, rfl⟩,
    ⟨?_, ?_, fun j hj => ?_, rfl, rfl, rfl, rfl, rfl, rfl⟩⟩
  · show ((List.range length).any (fun i =>
      decide (s.e_eeprom_xmc4_data_buffer.eeprom_data (offset_address + i) % 256 ≠ data i % 256))) = true
      ↔ _
    rw [List.any_eq_true]
    constructor
    · rintro ⟨i, hi, h⟩
      have hil := List.mem_range.1 hi
      rw [decide_eq_true_iff, Nat.mod_eq_of_lt (hdata i hil)] at h
      exact ⟨i, hil, h⟩
    · rintro ⟨i, hi, h⟩
      refine ⟨i, List.mem_range.2 hi, ?_⟩
      rw [decide_eq_true_iff, Nat.mod_eq_of_lt (hdata i hi)]
      exact h
  · unfold E_EEPROM_XMC4_ReadArray
    apply List.map_congr_left
    intro i hi
    exact hbyte i (List.mem_range.1 hi)
  · show (if offset_address ≤ j ∧ j < offset_address + length then _ else
      s.e_eeprom_xmc4_data_buffer.eeprom_data j) = _
    rw [if_neg hj]
  · show decide (s.e_eeprom_xmc4_data_buffer.eeprom_data offset_address % 256 ≠ value % 256) = true ↔ _
    rw [decide_eq_true_iff, Nat.mod_eq_of_lt hv]
    rfl
  · show (if offset_address = offset_address then value % 256 else _) % 256 = value
    rw [if_pos rfl, Nat.mod_mod]
    exact Nat.mod_eq_of_lt hv
  · show (if j = offset_address then _ else s.e_eeprom_xmc4_data_buffer.eeprom_data j) = _
    rw [if_neg hj]

/-- Witness for C15: on the state initialisation leaves on an erased ring, writing the
bytes 1, 2, 3 at offset 2 reports a change and a read of that range returns them;
writing the byte 0 over the zero byte at offset 2 reports no change. -/
theorem C15_mutators_report_change_and_touch_only_their_range_witness :
    2 + 3 ≤ E_EEPROM_XMC4_WORKING_BUFFER_SIZE ∧
    (E_EEPROM_XMC4_WriteArray 2 (fun i => i + 1) 3 (freshState sumDevice 16 (fun _ => 0))).1 = true ∧
    E_EEPROM_XMC4_ReadArray 2 3
      (E_EEPROM_XMC4_WriteArray 2 (fun i => i + 1) 3 (freshState sumDevice 16 (fun _ => 0))).2
      = [1, 2, 3] ∧
    (E_EEPROM_XMC4_WriteByte 2 0 (freshState sumDevice 16 (fun _ => 0))).1 = false := by
  obtain ⟨⟨h1, _, h3, _⟩, ⟨h4, _⟩⟩ := C15_mutators_report_change_and_touch_only_their_range
    (freshState sumDevice 16 (fun _ => 0)) 2 (fun i => i + 1) 3 0 (by decide)
    (fun i hi => by show i + 1 < 256; omega) (by decide)
  refine ⟨by decide, h1.2 ⟨0, by decide, by decide⟩, h3, ?_⟩
  cases hE : (E_EEPROM_XMC4_WriteByte 2 0 (freshState sumDevice 16 (fun _ => 0))).1 with
  | false => rfl
  | true => exact absurd rfl (h4.1 hE)

/-- C14 (evaluation of the code). The two `XMC_ASSERT` conditions of the array accessors
hold exactly when `offset + length < len`, with a strict comparison: the access to the
whole record (offset 0, length `len`) does not pass them, for any record length, and
so for the record length 16, although its range `[0, 16)` lies inside the record. -/
theorem C14_array_check_is_strict :
    (∀ offset_address length len, arrayAssert offset_address length len ↔
      offset_address + length < len) ∧
    (∀ len, ¬ arrayAssert 0 len len) ∧
    ¬ arrayAssert 0 16 16 ∧ 0 + 16 ≤ 16 := by
  refine ⟨fun a n len => ?_, fun len h => ?_, by decide, by decide⟩
  · unfold arrayAssert
    constructor
    · exact fun h => h.2
    · exact fun h => ⟨by omega, h⟩
  · unfold arrayAssert at h
    omega

/-- C11 (evaluation of the code). On the image with one valid block (block 0 of the
ring, cycle counter 1) the scan leaves the cursor exactly one block (8192 bytes) above
the latest block.  With the record length 16 the initialisation, all erases verifying,
returns `ERROR_OLD_DATA` all the same, with the block loaded into the mirror (cycle
counter 1); with the record length 4096 it returns `OK` on the same image. -/
theorem C11_old_data_with_one_block_gap :
    E_EEPROM_XMC4_Init sumDevice allOk 2 16 (powerOn oneBlockImage)
      = some (booted sumDevice allOk 16 oneBlockImage) ∧
    (scannedAll sumDevice 16 (powerOn oneBlockImage)).nf
      - (scannedAll sumDevice 16 (powerOn oneBlockImage)).fda = E_EEPROM_XMC4_ACTUAL_FLASH_BLOCK_SIZE ∧
    (booted sumDevice allOk 16 oneBlockImage).1 = ERROR_OLD_DATA ∧
    (booted sumDevice allOk 16 oneBlockImage).2.bcc = 1 ∧
    (booted sumDevice allOk 4096 oneBlockImage).1 = OK :=
  ⟨init_booted (by decide) allOk 0 16 (by decide) oneBlockImage, by decide!, by decide!, by decide!,
    by decide!⟩

/-- C16 (amended). Cursor invariant.  When the initialisation from reset returns `OK` or
`ERROR_OLD_DATA`, then in the state it leaves, and after any sequence of API calls
that follows (writes to the mirror and persists, with arbitrary erase and page-verify
outcomes), `next_free_start_addr` lies in the ring, from the start of sector 0 to
below that start plus four sectors, at a multiple of the block size from the start of
sector 0. -/
theorem C16_cursor_invariant (d : Device) (hd : d.placed) (o : Outcomes) (n len : Nat)
    (flash : Nat → Nat) (acts : List Action)
    (hlen : len ≤ E_EEPROM_XMC4_WORKING_BUFFER_SIZE)
    (hst : (booted d o len flash).1 = OK ∨ (booted d o len flash).1 = ERROR_OLD_DATA) :
    E_EEPROM_XMC4_Init d o (n + 2) len (powerOn flash) = some (booted d o len flash) ∧
    E_EEPROM_XMC4_SECTOR0_START_ADDR d ≤ (run d acts (booted d o len flash).2).nf ∧
    (run d acts (booted d o len flash).2).nf
      < E_EEPROM_XMC4_SECTOR0_START_ADDR d + 4 * E_EEPROM_XMC4_SECTOR_SIZE ∧
    ((run d acts (booted d o len flash).2).nf - E_EEPROM_XMC4_SECTOR0_START_ADDR d)
      % E_EEPROM_XMC4_ACTUAL_FLASH_BLOCK_SIZE = 0 := by
  have hb : ScanBasic d flash 4 (scannedAll d len (powerOn flash)) := scanBasic_all d len (powerOn flash)
  have hok := initFinish_ok_of_status d o _ hst
  have h0 : inRing d (booted d o len flash).2 := initFinish_inRing hd o flash _ hb hok
  obtain ⟨p, hp, hnf⟩ := run_inRing hd acts _ h0
  have h2 := base_lt hd
  rw [hnf, blockAddr_eq hd, sector0_eq hd]
  simp only [E_EEPROM_XMC4_SECTOR_SIZE, E_EEPROM_XMC4_ACTUAL_FLASH_BLOCK_SIZE]
  exact ⟨init_booted hd o n len hlen flash, by omega, by omega, by omega⟩

/-- Witness for C16: initialisation on an erased ring returns `OK`, and after two
persists the cursor is the third block of the ring. -/
theorem C16_cursor_invariant_witness :
    (booted sumDevice allOk 16 (fun _ => 0)).1 = OK ∧
    E_EEPROM_XMC4_SECTOR0_START_ADDR sumDevice
      ≤ (run sumDevice twoPersists (booted sumDevice allOk 16 (fun _ => 0)).2).nf ∧
    (run sumDevice twoPersists (booted sumDevice allOk 16 (fun _ => 0)).2).nf
      < E_EEPROM_XMC4_SECTOR0_START_ADDR sumDevice + 4 * E_EEPROM_XMC4_SECTOR_SIZE := by
  have hst : (booted sumDevice allOk 16 (fun _ => 0)).1 = OK := by decide!
  obtain ⟨_, h1, h2, _⟩ := C16_cursor_invariant sumDevice (by decide) allOk 0 16 (fun _ => 0)
    twoPersists (by decide) (Or.inl hst)
  exact ⟨hst, h1, h2⟩

/-- Counterexample to C16 as stated.  On `garbageImage`, with a flash module on which
the erase of sector 0 does not verify, the initialisation returns `ERASE_ERROR`, a
status other than `ERROR_PARAM`, and leaves `next_free_start_addr` at 0, below the start
of sector 0. -/
theorem C16_counterexample :
    E_EEPROM_XMC4_Init sumDevice (eraseFailsAt 0) 2 16 (powerOn garbageImage)
      = some (booted sumDevice (eraseFailsAt 0) 16 garbageImage) ∧
    (booted sumDevice (eraseFailsAt 0) 16 garbageImage).1 = ERASE_ERROR ∧
    (booted sumDevice (eraseFailsAt 0) 16 garbageImage).1 ≠ ERROR_PARAM ∧
    (booted sumDevice (eraseFailsAt 0) 16 garbageImage).2.nf = 0 ∧
    ¬ (E_EEPROM_XMC4_SECTOR0_START_ADDR sumDevice
      ≤ (booted sumDevice (eraseFailsAt 0) 16 garbageImage).2.nf) :=
  ⟨init_booted (by decide) (eraseFailsAt 0) 0 16 (by decide) garbageImage, by decide!, by decide!,
    by decide!, by decide!⟩

/-- C17 (amended). Active sector.  In the state the initialisation from reset leaves:
when a latest block was found it is a block `j` of the ring and `current_sector` is the
index `j / 2` of the sector that contains it; when none was found `current_sector` is
0 if the erase state machine returned `OK`, and still the reset value `0xFFFFFFFF` if
it did not.  A persist leaves `current_sector` unchanged unless it finds the ring
filled; in that case `current_sector` becomes the sector index taken by mask and shift
from the latest block address of before the call, which for a block `q` of the ring is
`q / 2`. -/
theorem C17_active_sector (d : Device) (hd : d.placed) (o : Outcomes) (len : Nat)
    (flash : Nat → Nat) :
    ((∃ j, j < 8 ∧ (booted d o len flash).2.fda = blockAddr d j ∧
        (booted d o len flash).2.cs = j / 2) ∨
      ((booted d o len flash).2.fda = 0 ∧
        (((booted d o len flash).1 = OK ∧ (booted d o len flash).2.cs = 0) ∨
         ((booted d o len flash).1 = ERASE_ERROR ∧ (booted d o len flash).2.cs = 0xFFFFFFFF)))) ∧
    (∀ (o2 : Outcomes) (s : State),
      (¬ ringFilled d s → (E_EEPROM_XMC4_UpdateFlashContents d o2 s).2.cs = s.cs) ∧
      (ringFilled d s →
        (E_EEPROM_XMC4_UpdateFlashContents d o2 s).2.cs = (s.fda &&& 0xC000) >>> 14 ∧
        ∀ q, q < 8 → s.fda = blockAddr d q → (E_EEPROM_XMC4_UpdateFlashContents d o2 s).2.cs = q / 2)) := by
  constructor
  · have hb : ScanBasic d flash 4 (scannedAll d len (powerOn flash)) :=
      scanBasic_all d len (powerOn flash)
    have hsent : (scannedAll d len (powerOn flash)).fda = 0 →
        (scannedAll d len (powerOn flash)).cs = 0xFFFFFFFF := by
      intro h
      rw [scannedAll_of_fda_zero hd len _ h]
      rfl
    unfold booted
    exact initFinish_active hd o flash _ hb hsent
  · intro o2 s
    obtain ⟨u1, u2⟩ := update_cs d o2 s
    refine ⟨u1, fun h => ⟨u2 h, fun q hq hfq => ?_⟩⟩
    rw [u2 h, hfq, sectorOf_blockAddr hd q hq]

/-- Witness for C17: on `garbageImage`, all erases verifying, the initialisation finds
no latest block, returns `OK` and leaves `current_sector` at 0. -/
theorem C17_active_sector_witness :
    (booted sumDevice allOk 16 garbageImage).2.fda = 0 ∧
    (booted sumDevice allOk 16 garbageImage).1 = OK ∧
    (booted sumDevice allOk 16 garbageImage).2.cs = 0 := by
  have h := (C17_active_sector sumDevice (by decide) allOk 16 garbageImage).1
  have hst : (booted sumDevice allOk 16 garbageImage).1 ≠ ERASE_ERROR := by decide!
  rcases h with ⟨j, _, hj, _⟩ | ⟨h0, ⟨h1, h2⟩ | ⟨h1, _⟩⟩
  · have hf0 : (booted sumDevice allOk 16 garbageImage).2.fda = 0 := by decide!
    rw [hf0] at hj
    exact absurd hj.symm (blockAddr_ne_zero (by decide) j)
  · exact ⟨h0, h1, h2⟩
  · exact absurd h1 hst

/-- Counterexample to C17 as stated.  After initialisation on an erased ring the ring
holds no record (`E_EEPROM_XMC4_IsFlashEmpty` is true) and `current_sector` is 0, not
the reset value `0xFFFFFFFF`.  After three persists that return `OK` the latest block
is block 2 of the ring, in sector 1, and `current_sector` is still 0. -/
theorem C17_counterexample :
    E_EEPROM_XMC4_Init sumDevice allOk 2 16 (powerOn (fun _ => 0))
      = some (OK, freshState sumDevice 16 (fun _ => 0)) ∧
    E_EEPROM_XMC4_IsFlashEmpty (freshState sumDevice 16 (fun _ => 0)) = true ∧
    (freshState sumDevice 16 (fun _ => 0)).cs = 0 ∧
    (powerOn (fun _ => 0)).cs = 0xFFFFFFFF ∧
    (∀ r ∈ persists sumDevice threePersists (freshState sumDevice 16 (fun _ => 0)), r.1 = OK) ∧
    (run sumDevice threePersists (freshState sumDevice 16 (fun _ => 0))).fda = blockAddr sumDevice 2 ∧
    ((run sumDevice threePersists (freshState sumDevice 16 (fun _ => 0))).fda &&& 0xC000) >>> 14 = 1 ∧
    (run sumDevice threePersists (freshState sumDevice 16 (fun _ => 0))).cs = 0 :=
  ⟨init_erased (by decide) allOk 0 16 (by decide) (fun _ => 0) (by decide!), by decide, by decide,
    by decide, by decide!, by decide!, by decide!, by decide!⟩

/-- C18 (amended). Sector scan.  For every sector `k < 4` and every state, the scan of
the sector returns (two loop iterations suffice) without changing the flash.  It walks
from the upper block of the sector to the lower one and takes the first block that
is written, has a matching checksum and carries a cycle counter above the mirror's
(`adoptable`).  When the upper block is such a block it is taken and the lower block is
not looked at.  When the upper block is not (empty, wrong checksum, or not newer) the
lower block is examined and is taken when it passes the three tests; the cursor is
then one block above the highest written block of the sector.  When neither passes,
the latest block, the mirror's counter, `current_sector` and the cursor are unchanged. -/
theorem C18_sector_scan (d : Device) (hd : d.placed) (n k : Nat) (hk : k < 4) (s : State) :
    ∃ s1, E_EEPROM_XMC4_lInitReadSectorInfo d (n + 2) k s = some s1 ∧ s1.hw = s.hw ∧
      (adoptable d s (blockAddr d (2 * k + 1)) →
        s1.fda = blockAddr d (2 * k + 1) ∧
        s1.bcc = cycleCount s.hw.mem (blockAddr d (2 * k + 1)) ∧
        s1.cs = k ∧ s1.nf = 8192 + blockAddr d (2 * k + 1)) ∧
      (¬ adoptable d s (blockAddr d (2 * k + 1)) → adoptable d s (blockAddr d (2 * k)) →
        s1.fda = blockAddr d (2 * k) ∧
        s1.bcc = cycleCount s.hw.mem (blockAddr d (2 * k)) ∧
        s1.cs = k ∧
        s1.nf = (if cycleCount s.hw.mem (blockAddr d (2 * k + 1)) ≠ 0
          then 8192 + blockAddr d (2 * k + 1) else 8192 + blockAddr d (2 * k))) ∧
      (¬ adoptable d s (blockAddr d (2 * k + 1)) → ¬ adoptable d s (blockAddr d (2 * k)) →
        s1.fda = s.fda ∧ s1.bcc = s.bcc ∧ s1.cs = s.cs ∧ s1.nf = s.nf) :=
  ⟨scanned d k s, readSector_eq hd n k hk s, scanned_cases d k s⟩

/-- Witness for C18: in the scan of sector 0 of `oneBlockImage` the upper block is empty
and the lower block passes the three tests: it is taken, and the cursor is the block
above it. -/
theorem C18_sector_scan_witness :
    ¬ adoptable sumDevice (scanStart 16 (powerOn oneBlockImage)) (blockAddr sumDevice 1) ∧
    adoptable sumDevice (scanStart 16 (powerOn oneBlockImage)) (blockAddr sumDevice 0) ∧
    ∃ s1, E_EEPROM_XMC4_lInitReadSectorInfo sumDevice 2 0 (scanStart 16 (powerOn oneBlockImage))
        = some s1 ∧
      s1.fda = blockAddr sumDevice 0 ∧ s1.nf = blockAddr sumDevice 1 := by
  have h1 : ¬ adoptable sumDevice (scanStart 16 (powerOn oneBlockImage)) (blockAddr sumDevice 1) := by
    decide!
  have h2 : adoptable sumDevice (scanStart 16 (powerOn oneBlockImage)) (blockAddr sumDevice 0) := by
    decide!
  obtain ⟨s1, e, _, _, hlo, _⟩ := C18_sector_scan sumDevice (by decide) 0 0 (by decide)
    (scanStart 16 (powerOn oneBlockImage))
  obtain ⟨f1, _, _, f4⟩ := hlo h1 h2
  refine ⟨h1, h2, s1, e, f1, ?_⟩
  rw [f4]
  decide!

/-- Counterexample to C18 as stated.  In sector 0 of `shadowedImage` the first non-empty
block met in the walk from the last block is the upper block; it does not pass the
checksum test.  The scan of the sector does not stop there: it goes on to the lower
block and takes it as the latest block. -/
theorem C18_counterexample :
    cycleCount shadowedImage (blockAddr sumDevice 1) ≠ 0 ∧
    ¬ crcOk sumDevice shadowedImage (blockAddr sumDevice 1) ∧
    (E_EEPROM_XMC4_lInitReadSectorInfo sumDevice 2 0 (scanStart 16 (powerOn shadowedImage))).map
      (fun s1 => s1.fda) = some (blockAddr sumDevice 0) ∧
    (E_EEPROM_XMC4_lInitReadSectorInfo sumDevice 2 0 (scanStart 16 (powerOn shadowedImage))).map
      (fun s1 => s1.bcc) = some 1 := by
  have e := readSector_eq (by decide : sumDevice.placed) 0 0 (by decide)
    (scanStart 16 (powerOn shadowedImage))
  have h1 : cycleCount shadowedImage (blockAddr sumDevice 1) ≠ 0 := by decide!
  have h2 : ¬ crcOk sumDevice shadowedImage (blockAddr sumDevice 1) := by decide!
  have h3 : adoptable sumDevice (scanStart 16 (powerOn shadowedImage)) (blockAddr sumDevice 0) ∧
      cycleCount shadowedImage (blockAddr sumDevice 0) = 1 := by decide!
  obtain ⟨_, _, hlo, _⟩ := scanned_cases sumDevice 0 (scanStart 16 (powerOn shadowedImage))
  obtain ⟨f1, f2, _, _⟩ := hlo (fun h => h2 h.2.1) h3.1
  refine ⟨h1, h2, ?_, ?_⟩
  · rw [e, Option.map_some']
    exact congrArg some f1
  · rw [e, Option.map_some']
    exact congrArg some (f2.trans h3.2)

/-- C19 (amended). No valid candidate.  For every flash image in which no block of the
ring is written with a matching checksum (written blocks with a wrong checksum
included), the initialisation from reset, all erases verifying, returns `OK`; in the
state it leaves `E_EEPROM_XMC4_IsFlashEmpty` is true, the cursor is the start of sector 0,
the mirror's cycle counter is 0, every block of the ring is erased, and
`current_sector` is 0 (sector 0, not the reset value `0xFFFFFFFF`). -/
theorem C19_no_valid_candidate (d : Device) (hd : d.placed) (o : Outcomes) (n len : Nat)
    (flash : Nat → Nat) (hlen : len ≤ E_EEPROM_XMC4_WORKING_BUFFER_SIZE)
    (he : ∀ m, m < 4 → o.eraseOk m = true)
    (hnone : ∀ i, i < 8 → ¬ validBlock d flash (blockAddr d i)) :
    ∃ s, E_EEPROM_XMC4_Init d o (n + 2) len (powerOn flash) = some (OK, s) ∧
      E_EEPROM_XMC4_IsFlashEmpty s = true ∧
      s.nf = E_EEPROM_XMC4_SECTOR0_START_ADDR d ∧
      s.cs = 0 ∧ s.bcc = 0 ∧ erasedRing d s.hw.mem := by
  rcases booted_view hd o len flash he with ⟨_, hst, hf, hb, hcs, hnf, her⟩ | ⟨j, hj, _, hvj, _⟩
  · refine ⟨(booted d o len flash).2, ?_, (isFlashEmpty_iff _).2 hf, ?_, hcs, hb, her⟩
    · rw [init_booted_pair hd o n len hlen flash, hst]
    · rw [hnf]
      simp only [blockAddr, Nat.mul_zero, Nat.add_zero]
  · exact absurd hvj (hnone j hj)

/-- Witness for C19: `garbageImage` holds a written block with a wrong checksum and no
valid block; the initialisation returns `OK` with an empty ring and the cursor at the
start of sector 0. -/
theorem C19_no_valid_candidate_witness :
    (∀ i, i < 8 → ¬ validBlock sumDevice garbageImage (blockAddr sumDevice i)) ∧
    cycleCount garbageImage (blockAddr sumDevice 0) ≠ 0 ∧
    ∃ s, E_EEPROM_XMC4_Init sumDevice allOk 2 16 (powerOn garbageImage) = some (OK, s) ∧
      E_EEPROM_XMC4_IsFlashEmpty s = true ∧ s.nf = 0x0C010000 := by
  have hnone : ∀ i, i < 8 → ¬ validBlock sumDevice garbageImage (blockAddr sumDevice i) := by decide!
  obtain ⟨s, h1, h2, h3, _⟩ := C19_no_valid_candidate sumDevice (by decide) allOk 0 16 garbageImage
    (by decide) (fun _ _ => rfl) hnone
  exact ⟨hnone, by decide!, s, h1, h2, h3.trans (by decide)⟩

/-- Counterexample to C19 as stated.  `garbageImage` holds no valid block.  After the
initialisation, all erases verifying, the status is `OK` and the ring is empty, but
`current_sector` is 0, which is not the value `0xFFFFFFFF` the field has at reset. -/
theorem C19_counterexample :
    (∀ i, i < 8 → ¬ validBlock sumDevice garbageImage (blockAddr sumDevice i)) ∧
    E_EEPROM_XMC4_Init sumDevice allOk 2 16 (powerOn garbageImage)
      = some (booted sumDevice allOk 16 garbageImage) ∧
    (booted sumDevice allOk 16 garbageImage).1 = OK ∧
    E_EEPROM_XMC4_IsFlashEmpty (booted sumDevice allOk 16 garbageImage).2 = true ∧
    (booted sumDevice allOk 16 garbageImage).2.cs = 0 ∧
    (powerOn garbageImage).cs = 0xFFFFFFFF ∧
    (booted sumDevice allOk 16 garbageImage).2.cs ≠ (powerOn garbageImage).cs :=
  ⟨by decide!, init_booted (by decide) allOk 0 16 (by decide) garbageImage, by decide!, by decide!,
    by decide!, by decide, by decide!⟩

/-- C20. The sector of the latest block is never erased.  At the initialisation, when the
scan has found a latest block it is a block `j` of the ring and the `current_sector`
handed to the erase state machine is `j / 2`, the sector that contains it; every flash
command of the initialisation is the erase of a sector of the ring that does not
contain the latest block address.  At a persist that finds the ring filled, the
`current_sector` handed to the erase state machine is, for a latest block `q` of the
ring, `q / 2`; for every state and all outcomes, every flash command a persist adds is a
page program or the erase of a sector of the ring that does not contain the latest
block address the state had when the persist was called. -/
theorem C20_latest_sector_never_erased (d : Device) (hd : d.placed) :
    (∀ (o : Outcomes) (len : Nat) (flash : Nat → Nat),
      ((scannedAll d len (powerOn flash)).fda ≠ 0 →
        ∃ j, j < 8 ∧ (scannedAll d len (powerOn flash)).fda = blockAddr d j ∧
          (scannedAll d len (powerOn flash)).cs = j / 2 ∧ inSector d (j / 2) (blockAddr d j)) ∧
      (booted d o len flash).2.fda = (scannedAll d len (powerOn flash)).fda ∧
      ∀ x ∈ (booted d o len flash).2.hw.ops,
        ∃ m, m < 4 ∧ x = FlashOp.erase (blockAddr d (2 * m)) ∧
          ¬ inSector d m (booted d o len flash).2.fda) ∧
    (∀ (o : Outcomes) (s : State),
      (∀ q, q < 8 → s.fda = blockAddr d q →
        (markAllFilled s).cs = q / 2 ∧ inSector d (q / 2) s.fda) ∧
      ∃ l, (E_EEPROM_XMC4_UpdateFlashContents d o s).2.hw.ops = s.hw.ops ++ l ∧
        ∀ x ∈ l, (∃ a, x = FlashOp.program a) ∨
          ∃ m, m < 4 ∧ x = FlashOp.erase (blockAddr d (2 * m)) ∧ ¬ inSector d m s.fda) := by
  have hblock : ∀ j, inSector d (j / 2) (blockAddr d j) := by
    intro j
    exact inSector_of_block hd (le_refl _) (by omega)
  constructor
  · intro o len flash
    have hb : ScanBasic d flash 4 (scannedAll d len (powerOn flash)) :=
      scanBasic_all d len (powerOn flash)
    have hfda := booted_fda d o len flash
    have hsite : (scannedAll d len (powerOn flash)).fda ≠ 0 →
        ∃ j, j < 8 ∧ (scannedAll d len (powerOn flash)).fda = blockAddr d j ∧
          (scannedAll d len (powerOn flash)).cs = j / 2 ∧ inSector d (j / 2) (blockAddr d j) := by
      intro hne
      rcases hb.2 with ⟨hf0, _⟩ | ⟨j, hj, hfj, _, _, hcsj, _⟩
      · exact absurd hf0 hne
      · exact ⟨j, by omega, hfj, hcsj, hblock j⟩
    refine ⟨hsite, hfda, ?_⟩
    obtain ⟨l, hl, hl2⟩ := eraseLoop_ops_new hd o 4 0 (scannedAll d len (powerOn flash)) (le_refl _)
    have hops : (booted d o len flash).2.hw.ops = l := by
      have e : (booted d o len flash).2.hw = (eraseLoop d o 4 0 (scannedAll d len (powerOn flash))).2.hw := by
        unfold booted
        exact initFinish_hw d o _
      rw [e, hl, scannedAll_hw]
      rfl
    intro x hx
    rw [hops] at hx
    obtain ⟨m, hm, hmcs, hxe⟩ := hl2 x hx
    refine ⟨m, hm, hxe, ?_⟩
    rw [hfda]
    by_cases hne : (scannedAll d len (powerOn flash)).fda = 0
    · rw [hne]
      intro hin
      unfold inSector at hin
      rw [blockAddr_eq hd] at hin
      omega
    · obtain ⟨j, _, hfj, hcsj, hin⟩ := hsite hne
      rw [hfj]
      intro hin2
      exact hmcs ((inSector_disjoint hd hin2 hin).trans hcsj.symm)
  · intro o s
    refine ⟨fun q hq hfq => ?_, update_ops_new hd o s⟩
    have e : (markAllFilled s).cs = (s.fda &&& 0xC000) >>> 14 := rfl
    rw [e, hfq, sectorOf_blockAddr hd q hq]
    exact ⟨rfl, hblock q⟩

/-- Witness for C20: after eight persists on an erased ring the ninth finds the ring
filled with the latest block in sector 3; the commands it adds are page programs and
erases of sectors that do not contain that block. -/
theorem C20_latest_sector_never_erased_witness :
    ringFilled sumDevice (run sumDevice eightPersists (freshState sumDevice 16 (fun _ => 0))) ∧
    (run sumDevice eightPersists (freshState sumDevice 16 (fun _ => 0))).fda = blockAddr sumDevice 7 ∧
    ∃ l, (E_EEPROM_XMC4_UpdateFlashContents sumDevice allOk
        (run sumDevice eightPersists (freshState sumDevice 16 (fun _ => 0)))).2.hw.ops
        = (run sumDevice eightPersists (freshState sumDevice 16 (fun _ => 0))).hw.ops ++ l ∧
      ∀ x ∈ l, (∃ a, x = FlashOp.program a) ∨
        ∃ m, m < 4 ∧ x = FlashOp.erase (blockAddr sumDevice (2 * m)) ∧
          ¬ inSector sumDevice m
            (run sumDevice eightPersists (freshState sumDevice 16 (fun _ => 0))).fda :=
  ⟨by decide!, by decide!,
    ((C20_latest_sector_never_erased sumDevice (by decide)).2 allOk
      (run sumDevice eightPersists (freshState sumDevice 16 (fun _ => 0)))).2⟩

/-- C21 (amended). The latest record is not programmed over, except when the cursor
has gone once round the ring.  After an initialisation from reset that returned `OK`
or `ERROR_OLD_DATA`, and any sequence of API calls (writes to the mirror and persists,
with arbitrary erase and page-verify outcomes), count the persists that have ended in
`WRITE_ERROR` since the last persist that returned `OK`, or since the initialisation
when none has (the initialisation counting as one when it left the cursor two blocks
past the latest block).  When there is a latest block and the count is 7, 15, 23, ...
(one less than a multiple of eight, the number of blocks of the ring), the cursor
`next_free_start_addr` is `flash_data_addr`.  In every other state the cursor is not
`flash_data_addr`, and every program command the next persist sends, whatever its
outcomes, has its address in the block at the cursor and outside the block at
`flash_data_addr`. -/
theorem C21_latest_block_not_programmed (d : Device) (hd : d.placed) (o o2 : Outcomes)
    (n len : Nat) (flash : Nat → Nat) (acts : List Action)
    (hlen : len ≤ E_EEPROM_XMC4_WORKING_BUFFER_SIZE)
    (hst : (booted d o len flash).1 = OK ∨ (booted d o len flash).1 = ERROR_OLD_DATA) :
    E_EEPROM_XMC4_Init d o (n + 2) len (powerOn flash) = some (booted d o len flash) ∧
    ((run d acts (booted d o len flash).2).fda ≠ 0 →
      writeErrorRun d acts (booted d o len flash).2
        (startErrors d (booted d o len flash).2) % 8 = 7 →
      (run d acts (booted d o len flash).2).nf = (run d acts (booted d o len flash).2).fda) ∧
    (((run d acts (booted d o len flash).2).fda ≠ 0 →
        writeErrorRun d acts (booted d o len flash).2
          (startErrors d (booted d o len flash).2) % 8 ≠ 7) →
      (run d acts (booted d o len flash).2).nf ≠ (run d acts (booted d o len flash).2).fda ∧
      ∃ l, (E_EEPROM_XMC4_UpdateFlashContents d o2 (run d acts (booted d o len flash).2)).2.hw.ops
          = (run d acts (booted d o len flash).2).hw.ops ++ l ∧
        ∀ a, FlashOp.program a ∈ l →
          ((run d acts (booted d o len flash).2).nf ≤ a ∧
            a < (run d acts (booted d o len flash).2).nf + E_EEPROM_XMC4_ACTUAL_FLASH_BLOCK_SIZE) ∧
          ¬ ((run d acts (booted d o len flash).2).fda ≤ a ∧
            a < (run d acts (booted d o len flash).2).fda
              + E_EEPROM_XMC4_ACTUAL_FLASH_BLOCK_SIZE)) := by
  have hA0 : Ahead d (booted d o len flash).2 (startErrors d (booted d o len flash).2) := by
    unfold booted at hst ⊢
    exact ahead_start hd o flash _ (scanBasic_all d len (powerOn flash)) hst
  have hA := ahead_run hd acts _ _ hA0
  refine ⟨init_booted hd o n len hlen flash, fun hf hc => ahead_on _ _ hA hf hc, fun hrun => ?_⟩
  obtain ⟨h1, h2⟩ := ahead_apart hd _ _ hA hrun
  obtain ⟨l, hl, hl2⟩ := update_programs_at hd o2 (run d acts (booted d o len flash).2)
  refine ⟨h1, l, hl, fun a ha => ?_⟩
  simp only [E_EEPROM_XMC4_ACTUAL_FLASH_BLOCK_SIZE]
  rcases hl2 _ ha with ⟨j, hj, hx⟩ | ⟨m, _, hx⟩
  · have ha2 : a = (run d acts (booted d o len flash).2).nf + 256 * j := FlashOp.program.inj hx
    exact ⟨⟨by omega, by omega⟩, h2 a (by omega) (by omega)⟩
  · cases hx

/-- Witness for C21.  After an initialisation on an erased ring (`OK`), a persist that
verifies and six persists whose first page does not verify, the count is 6 and the
cursor is not the latest block; after two more such persists the count is 8 and the
cursor is not the latest block either.  After an initialisation on `shadowedImage`
(`ERROR_OLD_DATA`, the cursor two blocks past the latest block) and five such persists
the count is 6 and the cursor is not the latest block. -/
theorem C21_latest_block_not_programmed_witness :
    ((booted sumDevice allOk 16 (fun _ => 0)).1 = OK ∧
      writeErrorRun sumDevice (Action.persist allOk :: sixWriteErrors)
        (booted sumDevice allOk 16 (fun _ => 0)).2
        (startErrors sumDevice (booted sumDevice allOk 16 (fun _ => 0)).2) = 6 ∧
      (run sumDevice (Action.persist allOk :: sixWriteErrors)
          (booted sumDevice allOk 16 (fun _ => 0)).2).nf
        ≠ (run sumDevice (Action.persist allOk :: sixWriteErrors)
          (booted sumDevice allOk 16 (fun _ => 0)).2).fda) ∧
    (writeErrorRun sumDevice eightWriteErrors (booted sumDevice allOk 16 (fun _ => 0)).2
        (startErrors sumDevice (booted sumDevice allOk 16 (fun _ => 0)).2) = 8 ∧
      (run sumDevice eightWriteErrors (booted sumDevice allOk 16 (fun _ => 0)).2).nf
        ≠ (run sumDevice eightWriteErrors (booted sumDevice allOk 16 (fun _ => 0)).2).fda) ∧
    ((booted sumDevice allOk 16 shadowedImage).1 = ERROR_OLD_DATA ∧
      writeErrorRun sumDevice (List.replicate 5 (Action.persist (failAt 0)))
        (booted sumDevice allOk 16 shadowedImage).2
        (startErrors sumDevice (booted sumDevice allOk 16 shadowedImage).2) = 6 ∧
      (run sumDevice (List.replicate 5 (Action.persist (failAt 0)))
          (booted sumDevice allOk 16 shadowedImage).2).nf
        ≠ (run sumDevice (List.replicate 5 (Action.persist (failAt 0)))
          (booted sumDevice allOk 16 shadowedImage).2).fda) := by
  have hst : (booted sumDevice allOk 16 (fun _ => 0)).1 = OK := by decide!
  have hrun : writeErrorRun sumDevice (Action.persist allOk :: sixWriteErrors)
      (booted sumDevice allOk 16 (fun _ => 0)).2
      (startErrors sumDevice (booted sumDevice allOk 16 (fun _ => 0)).2) = 6 := by decide!
  have hrun8 : writeErrorRun sumDevice eightWriteErrors (booted sumDevice allOk 16 (fun _ => 0)).2
      (startErrors sumDevice (booted sumDevice allOk 16 (fun _ => 0)).2) = 8 := by decide!
  obtain ⟨hst2, hrun2⟩ := shadowed_fiveWriteErrors
  exact ⟨⟨hst, hrun, ((C21_latest_block_not_programmed sumDevice (by decide) allOk allOk 0 16
      (fun _ => 0) (Action.persist allOk :: sixWriteErrors)
      (by decide) (Or.inl hst)).2.2 (fun _ => by rw [hrun]; decide)).1⟩,
    ⟨hrun8, ((C21_latest_block_not_programmed sumDevice (by decide) allOk allOk 0 16
      (fun _ => 0) eightWriteErrors
      (by decide) (Or.inl hst)).2.2 (fun _ => by rw [hrun8]; decide)).1⟩,
    ⟨hst2, hrun2, ((C21_latest_block_not_programmed sumDevice (by decide) allOk allOk 0 16
      shadowedImage (List.replicate 5 (Action.persist (failAt 0)))
      (by decide) (Or.inr hst2)).2.2 (fun _ => by rw [hrun2]; decide)).1⟩⟩

/-- Counterexample to C21 as stated, on the byte-sum device.  (1) An initialisation on
an erased ring returns `OK`; a persist then returns `OK` and records block 0; the next
seven persists, whose first page program does not verify, return `WRITE_ERROR` and
bring the cursor round the ring back to block 0, which is still `flash_data_addr`; and
the persist that follows, with every command verifying, sends a program command for
the address `flash_data_addr`.  (2) An initialisation on `shadowedImage` returns
`ERROR_OLD_DATA` with block 0 as the latest block and the cursor two blocks on; six
persists whose first page program does not verify bring the cursor back to block 0,
and the persist that follows sends a program command for `flash_data_addr`. -/
theorem C21_counterexample :
    ((booted sumDevice allOk 16 (fun _ => 0)).1 = OK ∧
      (persists sumDevice sevenWriteErrors (booted sumDevice allOk 16 (fun _ => 0)).2).map
          (fun r => r.1)
        = [OK, WRITE_ERROR, WRITE_ERROR, WRITE_ERROR, WRITE_ERROR, WRITE_ERROR, WRITE_ERROR,
            WRITE_ERROR] ∧
      writeErrorRun sumDevice sevenWriteErrors (booted sumDevice allOk 16 (fun _ => 0)).2
        (startErrors sumDevice (booted sumDevice allOk 16 (fun _ => 0)).2) = 7 ∧
      (run sumDevice sevenWriteErrors (booted sumDevice allOk 16 (fun _ => 0)).2).fda
        = E_EEPROM_XMC4_SECTOR0_START_ADDR sumDevice ∧
      (run sumDevice sevenWriteErrors (booted sumDevice allOk 16 (fun _ => 0)).2).nf
        = (run sumDevice sevenWriteErrors (booted sumDevice allOk 16 (fun _ => 0)).2).fda ∧
      FlashOp.program (run sumDevice sevenWriteErrors (booted sumDevice allOk 16 (fun _ => 0)).2).fda
        ∈ ((E_EEPROM_XMC4_UpdateFlashContents sumDevice allOk
            (run sumDevice sevenWriteErrors (booted sumDevice allOk 16 (fun _ => 0)).2)).2.hw.ops.drop
          (run sumDevice sevenWriteErrors (booted sumDevice allOk 16 (fun _ => 0)).2).hw.ops.length)) ∧
    ((booted sumDevice allOk 16 shadowedImage).1 = ERROR_OLD_DATA ∧
      (booted sumDevice allOk 16 shadowedImage).2.fda = E_EEPROM_XMC4_SECTOR0_START_ADDR sumDevice ∧
      (booted sumDevice allOk 16 shadowedImage).2.nf = E_EEPROM_XMC4_SECTOR1_START_ADDR sumDevice ∧
      (persists sumDevice sixWriteErrors (booted sumDevice allOk 16 shadowedImage).2).map
          (fun r => r.1)
        = [WRITE_ERROR, WRITE_ERROR, WRITE_ERROR, WRITE_ERROR, WRITE_ERROR, WRITE_ERROR] ∧
      writeErrorRun sumDevice sixWriteErrors (booted sumDevice allOk 16 shadowedImage).2
        (startErrors sumDevice (booted sumDevice allOk 16 shadowedImage).2) = 7 ∧
      (run sumDevice sixWriteErrors (booted sumDevice allOk 16 shadowedImage).2).fda
        = E_EEPROM_XMC4_SECTOR0_START_ADDR sumDevice ∧
      (run sumDevice sixWriteErrors (booted sumDevice allOk 16 shadowedImage).2).nf
        = (run sumDevice sixWriteErrors (booted sumDevice allOk 16 shadowedImage).2).fda ∧
      FlashOp.program (run sumDevice sixWriteErrors (booted sumDevice allOk 16 shadowedImage).2).fda
        ∈ ((E_EEPROM_XMC4_UpdateFlashContents sumDevice allOk
            (run sumDevice sixWriteErrors (booted sumDevice allOk 16 shadowedImage).2)).2.hw.ops.drop
          (run sumDevice sixWriteErrors (booted sumDevice allOk 16 shadowedImage).2).hw.ops.length)) :=
  ⟨sevenWriteErrors_on_latest, shadowed_sixWriteErrors_on_latest⟩

/-- C22. Page-by-page programming.  For every device, outcome of the page programs and
state, `E_EEPROM_XMC4_lWriteToFlash` (1) stores in the mirror the checksum computed
over the `E_EEPROM_XMC4_DATA_SIZE_FOR_CRC` (block size minus 4) bytes made of the cycle counter
followed by the payload area, and changes nothing else of the mirror and of the sector
bookkeeping; (2) when every page verifies it returns `OK`, having sent exactly the 32
program commands of the pages 0, 1, ..., 31 of the block at `next_free_start_addr`, in
this order, each of 64 words; the 8192 bytes of the block then hold the bytes of the
mirror (checksum, cycle counter, payload) and the flash outside the block is
unchanged; (3) when page `k` is the first not to verify it returns `WRITE_ERROR`,
having sent exactly the program commands of the pages 0 to `k`, in this order, so
none for a page after `k`, and the flash from the end of page `k` on is unchanged. -/
theorem C22_page_by_page_programming (d : Device) (o : Outcomes) (s : State) :
    ((E_EEPROM_XMC4_lWriteToFlash d o s).2.e_eeprom_xmc4_data_buffer
        = { s.e_eeprom_xmc4_data_buffer with
            crc := d.XMC_FCE_CalculateCRC32
              ((List.range E_EEPROM_XMC4_DATA_SIZE_FOR_CRC).map (fun i =>
                if i < 4 then wordByte s.bcc i
                else s.e_eeprom_xmc4_data_buffer.eeprom_data (i - 4) % 256)) % U32 } ∧
      (E_EEPROM_XMC4_lWriteToFlash d o s).2.e_eeprom_xmc4_sector_info = s.e_eeprom_xmc4_sector_info) ∧
    ((∀ j, j < E_EEPROM_XMC4_MAX_PAGES → o.verifyOk j = true) →
      (E_EEPROM_XMC4_lWriteToFlash d o s).1 = OK ∧
      (E_EEPROM_XMC4_lWriteToFlash d o s).2.hw.ops = s.hw.ops ++
        (List.range 32).map (fun j => FlashOp.program (s.nf + 4 * E_EEPROM_XMC4_MIN_WORDS_PER_PAGE * j)) ∧
      (∀ a, s.nf ≤ a → a < s.nf + 8192 → (E_EEPROM_XMC4_lWriteToFlash d o s).2.hw.mem a
        = ramByte (E_EEPROM_XMC4_lWriteToFlash d o s).2.e_eeprom_xmc4_data_buffer (a - s.nf)) ∧
      (∀ a, ¬ (s.nf ≤ a ∧ a < s.nf + 8192) →
        (E_EEPROM_XMC4_lWriteToFlash d o s).2.hw.mem a = s.hw.mem a)) ∧
    (∀ k, k < E_EEPROM_XMC4_MAX_PAGES → (∀ j, j < k → o.verifyOk j = true) → o.verifyOk k = false →
      (E_EEPROM_XMC4_lWriteToFlash d o s).1 = WRITE_ERROR ∧
      (E_EEPROM_XMC4_lWriteToFlash d o s).2.hw.ops = s.hw.ops ++
        (List.range (k + 1)).map (fun j => FlashOp.program (s.nf + 4 * E_EEPROM_XMC4_MIN_WORDS_PER_PAGE * j)) ∧
      (∀ a, s.nf ≤ a → a < s.nf + 256 * k → (E_EEPROM_XMC4_lWriteToFlash d o s).2.hw.mem a
        = ramByte (E_EEPROM_XMC4_lWriteToFlash d o s).2.e_eeprom_xmc4_data_buffer (a - s.nf)) ∧
      (∀ a, ¬ (s.nf ≤ a ∧ a < s.nf + 256 * (k + 1)) →
        (E_EEPROM_XMC4_lWriteToFlash d o s).2.hw.mem a = s.hw.mem a)) := by
  have e32 : E_EEPROM_XMC4_MAX_PAGES = 32 := by decide
  have hbuf : (E_EEPROM_XMC4_lWriteToFlash d o s).2.e_eeprom_xmc4_data_buffer
      = { s.e_eeprom_xmc4_data_buffer with
          crc := E_EEPROM_XMC4_lCalculateCRC d (ramByte s.e_eeprom_xmc4_data_buffer) 4 } := rfl
  have hhw : (E_EEPROM_XMC4_lWriteToFlash d o s).2.hw
      = (programPages o (ramByte { s.e_eeprom_xmc4_data_buffer with
          crc := E_EEPROM_XMC4_lCalculateCRC d (ramByte s.e_eeprom_xmc4_data_buffer) 4 })
        s.nf 32 0 s.hw).2 := rfl
  have hst : (E_EEPROM_XMC4_lWriteToFlash d o s).1
      = (programPages o (ramByte { s.e_eeprom_xmc4_data_buffer with
          crc := E_EEPROM_XMC4_lCalculateCRC d (ramByte s.e_eeprom_xmc4_data_buffer) 4 })
        s.nf 32 0 s.hw).1 := rfl
  have hbyte : ∀ (b : E_EEPROM_XMC4_RAM_BUFFER_t) (i : Nat), i < 8192 → ramByte b i % 256 = ramByte b i := by
    intro b i hi
    unfold ramByte
    simp only [E_EEPROM_XMC4_WORKING_BUFFER_SIZE, E_EEPROM_XMC4_ACTUAL_FLASH_BLOCK_SIZE]
    split_ifs
    · exact wordByte_mod _ _
    · exact wordByte_mod _ _
    · exact Nat.mod_mod _ _
  rw [e32]
  refine ⟨⟨?_, rfl⟩, fun hv => ?_, fun k hk hv hf => ?_⟩
  · have e : (List.range E_EEPROM_XMC4_DATA_SIZE_FOR_CRC).map
          (fun i => ramByte s.e_eeprom_xmc4_data_buffer (4 + i) % 256)
        = (List.range E_EEPROM_XMC4_DATA_SIZE_FOR_CRC).map (fun i =>
            if i < 4 then wordByte s.bcc i
            else s.e_eeprom_xmc4_data_buffer.eeprom_data (i - 4) % 256) := by
      apply List.map_congr_left
      intro i hi
      have hi2 : i < 8188 := by simpa using hi
      by_cases c : i < 4
      · rw [if_pos c, ramByte_bcc _ i c, wordByte_mod]
      · have e : 4 + i = 8 + (i - 4) := by omega
        rw [if_neg c, e, ramByte_data _ _ (by omega), Nat.mod_mod]
    have hcrc : E_EEPROM_XMC4_lCalculateCRC d (ramByte s.e_eeprom_xmc4_data_buffer) 4
        = d.XMC_FCE_CalculateCRC32 ((List.range E_EEPROM_XMC4_DATA_SIZE_FOR_CRC).map (fun i =>
            if i < 4 then wordByte s.bcc i
            else s.e_eeprom_xmc4_data_buffer.eeprom_data (i - 4) % 256)) % U32 := by
      unfold E_EEPROM_XMC4_lCalculateCRC
      rw [e]
    rw [hbuf, hcrc]
  · have hv0 : ∀ j, 0 ≤ j → j < 0 + 32 → o.verifyOk j = true := fun j _ h2 => hv j (by omega)
    refine ⟨?_, ?_, fun a h1 h2 => ?_, fun a ha => ?_⟩
    · rcases writeToFlash_status d o s with ⟨h1, _⟩ | ⟨_, j, hj, hjf⟩
      · exact h1
      · rw [hv j hj] at hjf; exact absurd hjf (by decide)
    · rw [hhw, programPages_trace_ok o _ _ 32 0 _ hv0, List.range_eq_range']
      simp only [E_EEPROM_XMC4_MIN_WORDS_PER_PAGE]
    · rw [writeToFlash_mem_ok d o s hv a, if_pos ⟨h1, h2⟩, hbuf]
      exact hbyte _ _ (by omega)
    · rw [writeToFlash_mem_ok d o s hv a, if_neg ha]
  · have hv0 : ∀ j, 0 ≤ j → j < k → o.verifyOk j = true := fun j _ h2 => hv j h2
    have hm := programPages_mem_fail o (ramByte { s.e_eeprom_xmc4_data_buffer with
          crc := E_EEPROM_XMC4_lCalculateCRC d (ramByte s.e_eeprom_xmc4_data_buffer) 4 })
        s.nf 32 0 k s.hw (Nat.zero_le _) (by omega) hv0 hf
    refine ⟨?_, ?_, fun a h1 h2 => ?_, fun a ha => ?_⟩
    · rw [hst]; exact (hm 0).1
    · rw [hhw, programPages_trace_fail o _ _ 32 0 k _ (Nat.zero_le _) (by omega) hv0 hf,
        List.range_eq_range']
      simp only [E_EEPROM_XMC4_MIN_WORDS_PER_PAGE, Nat.sub_zero]
    · rw [hhw, (hm a).2, if_pos ⟨by omega, h2⟩, hbuf]
      exact hbyte _ _ (by omega)
    · rw [hhw, (hm a).2, if_neg (by omega), if_neg (by omega)]

/-- Witness for C22 on the state an initialisation leaves on an erased ring: with all
pages verifying the write returns `OK` and leaves the cycle counter byte 0 of the
mirror at offset 4 of block 0; with page 2 the first not to verify it returns
`WRITE_ERROR` after the program commands of pages 0, 1 and 2. -/
theorem C22_page_by_page_programming_witness :
    (E_EEPROM_XMC4_lWriteToFlash sumDevice allOk (freshState sumDevice 16 (fun _ => 0))).1 = OK ∧
    ((E_EEPROM_XMC4_lWriteToFlash sumDevice allOk (freshState sumDevice 16 (fun _ => 0))).2.hw.ops).length
      = 32 ∧
    (E_EEPROM_XMC4_lWriteToFlash sumDevice (failAt 2) (freshState sumDevice 16 (fun _ => 0))).1
      = WRITE_ERROR ∧
    (E_EEPROM_XMC4_lWriteToFlash sumDevice (failAt 2) (freshState sumDevice 16 (fun _ => 0))).2.hw.ops
      = [FlashOp.program 0x0C010000, FlashOp.program 0x0C010100, FlashOp.program 0x0C010200] := by
  obtain ⟨h1, h2, _⟩ := (C22_page_by_page_programming sumDevice allOk
    (freshState sumDevice 16 (fun _ => 0))).2.1 (fun _ _ => rfl)
  obtain ⟨h3, h4, _⟩ := (C22_page_by_page_programming sumDevice (failAt 2)
    (freshState sumDevice 16 (fun _ => 0))).2.2 2 (by decide) (by decide) (by decide)
  refine ⟨h1, ?_, h3, h4.trans (by decide)⟩
  rw [h2]
  decide

/-- C23. Dirty marking.  For every flash image, every device (so every checksum
function) and every record length: when the part of the initialisation that scans
sectors 0 to 3 starts from an all-clear `erase_state`, it ends, and in the mask it
leaves no bit from 4 on is set and bit `m` (`m < 4`) is set if and only if one of the
two blocks of sector `m` has a non-zero cycle counter field.  No condition on the
checksums or on the sector taken as the active one enters: a device that differs
only in its checksum function leaves the same mask. -/
theorem C23_dirty_marking (d : Device) (hd : d.placed) (n len : Nat) (s : State)
    (hes : s.es = 0) :
    initScan d (n + 2) len s = some (OK, scannedAll d len s) ∧
    (scannedAll d len s).es < 16 ∧
    (∀ m, m < 4 → (dirty (scannedAll d len s).es m ↔
      ∃ i, i < 8 ∧ i / 2 = m ∧ cycleCount s.hw.mem (blockAddr d i) ≠ 0)) ∧
    (∀ crc2 : List Nat → Nat,
      (scannedAll { d with XMC_FCE_CalculateCRC32 := crc2 } len s).es = (scannedAll d len s).es) := by
  have key : ∀ d2 : Device, (scannedAll d2 len s).es < 16 ∧
      ∀ m, m < 4 → (dirty (scannedAll d2 len s).es m ↔
        ∃ i, i < 8 ∧ i / 2 = m ∧ cycleCount s.hw.mem (blockAddr d2 i) ≠ 0) := by
    intro d2
    obtain ⟨h1, h2⟩ := scanDirty_all d2 len s hes
    refine ⟨h1, fun m hm => (h2 m hm).trans ⟨fun h => ?_, fun h => ?_⟩⟩
    · rcases h with h | h
      · exact ⟨2 * m, by omega, by omega, h⟩
      · exact ⟨2 * m + 1, by omega, by omega, h⟩
    · obtain ⟨i, _, hi2, hi3⟩ := h
      have hc : i = 2 * m ∨ i = 2 * m + 1 := by omega
      rcases hc with hc | hc
      · exact Or.inl (hc ▸ hi3)
      · exact Or.inr (hc ▸ hi3)
  have hext : ∀ a, a < 16 → ∀ b, b < 16 → (∀ m, m < 4 → (dirty a m ↔ dirty b m)) → a = b := by
    decide
  refine ⟨initScan_eq hd n len s, (key d).1, (key d).2, fun crc2 => ?_⟩
  have hd2 : ({ d with XMC_FCE_CalculateCRC32 := crc2 } : Device).placed := hd
  refine hext _ (key _).1 _ (key d).1 (fun m hm => ?_)
  rw [(key _).2 m hm, (key d).2 m hm]
  simp only [blockAddr_eq hd2, blockAddr_eq hd]

/-- Witness for C23: on `garbageImage`, whose only written block (block 0) fails its
checksum, the scan marks sector 0 and leaves sector 1 unmarked. -/
theorem C23_dirty_marking_witness :
    (powerOn garbageImage).es = 0 ∧
    dirty (scannedAll sumDevice 16 (powerOn garbageImage)).es 0 ∧
    ¬ dirty (scannedAll sumDevice 16 (powerOn garbageImage)).es 1 ∧
    ¬ validBlock sumDevice garbageImage (blockAddr sumDevice 0) := by
  obtain ⟨_, _, h, _⟩ := C23_dirty_marking sumDevice (by decide) 0 16 (powerOn garbageImage) rfl
  have h0 : cycleCount garbageImage (blockAddr sumDevice 0) ≠ 0 := by decide!
  have h2 : cycleCount garbageImage (blockAddr sumDevice 2) = 0 := by decide!
  have h3 : cycleCount garbageImage (blockAddr sumDevice 3) = 0 := by decide!
  refine ⟨rfl, (h 0 (by decide)).2 ⟨0, by decide, by decide, h0⟩, fun hdty => ?_, by decide!⟩
  obtain ⟨i, _, hi2, hi3⟩ := (h 1 (by decide)).1 hdty
  have hc : i = 2 ∨ i = 3 := by omega
  rcases hc with hc | hc
  · subst hc; exact hi3 h2
  · subst hc; exact hi3 h3

/-- C24. Address ring consistency.  On a device whose flash window is placed on a
64 KiB boundary (so that the start of sector 0, the base plus `0x10000`, has bits 14
and 15 clear), with `E_EEPROM_XMC4_SECTOR_SIZE = 0x4000`: for every address in the
ring, from the start of sector 0 to below that start plus four sectors, the sector
index the persist derives from it by mask and shift (`current_sector` after
`markAllFilled`) is the offset from the start of sector 0 divided by the sector size,
is below 4, and the address lies in the sector with that index; and when a cursor at
a block boundary of the ring is advanced by one block with relocation, the result is
the start of sector 0 exactly when the cursor was the last block of sector 3, and the
cursor plus one block otherwise. -/
theorem C24_address_ring_consistency (d : Device) (hd : d.placed) :
    E_EEPROM_XMC4_SECTOR_SIZE = 0x4000 ∧
    (E_EEPROM_XMC4_SECTOR0_START_ADDR d &&& E_EEPROM_XMC4_SECTOR_POSITION_MASK)
      >>> E_EEPROM_XMC4_SECTOR_POSITION = 0 ∧
    (∀ s : State, E_EEPROM_XMC4_SECTOR0_START_ADDR d ≤ s.fda →
      s.fda < E_EEPROM_XMC4_SECTOR0_START_ADDR d + 4 * E_EEPROM_XMC4_SECTOR_SIZE →
      (markAllFilled s).cs = (s.fda &&& 0xC000) >>> 14 ∧
      (markAllFilled s).cs = (s.fda - E_EEPROM_XMC4_SECTOR0_START_ADDR d) / E_EEPROM_XMC4_SECTOR_SIZE ∧
      (markAllFilled s).cs < 4 ∧
      E_EEPROM_XMC4_SECTOR0_START_ADDR d + E_EEPROM_XMC4_SECTOR_SIZE * (markAllFilled s).cs ≤ s.fda ∧
      s.fda < E_EEPROM_XMC4_SECTOR0_START_ADDR d + E_EEPROM_XMC4_SECTOR_SIZE * (markAllFilled s).cs
        + E_EEPROM_XMC4_SECTOR_SIZE) ∧
    (∀ s : State, E_EEPROM_XMC4_SECTOR0_START_ADDR d ≤ s.nf →
      s.nf < E_EEPROM_XMC4_SECTOR0_START_ADDR d + 4 * E_EEPROM_XMC4_SECTOR_SIZE →
      (s.nf - E_EEPROM_XMC4_SECTOR0_START_ADDR d) % E_EEPROM_XMC4_ACTUAL_FLASH_BLOCK_SIZE = 0 →
      ((advanceCursor d s).nf = E_EEPROM_XMC4_SECTOR0_START_ADDR d ↔
        s.nf = E_EEPROM_XMC4_SECTOR3_START_ADDR d + E_EEPROM_XMC4_ACTUAL_FLASH_BLOCK_SIZE) ∧
      (s.nf ≠ E_EEPROM_XMC4_SECTOR3_START_ADDR d + E_EEPROM_XMC4_ACTUAL_FLASH_BLOCK_SIZE →
        (advanceCursor d s).nf = s.nf + E_EEPROM_XMC4_ACTUAL_FLASH_BLOCK_SIZE)) := by
  have h1 := hd.1
  have h2 := base_lt hd
  have e0 := sector0_eq hd
  have e4 := sector4_eq hd
  have e3 : E_EEPROM_XMC4_SECTOR3_START_ADDR d = d.XMC_FLASH_UNCACHED_BASE + 0x1C000 := by
    unfold E_EEPROM_XMC4_SECTOR3_START_ADDR
    simp only [U32]
    omega
  refine ⟨rfl, ?_, fun s ha hb => ?_, fun s ha hb hc => ?_⟩
  · simp only [E_EEPROM_XMC4_SECTOR_POSITION_MASK, E_EEPROM_XMC4_SECTOR_POSITION]
    rw [maskShift_eq, e0]
    omega
  · have hcs : (markAllFilled s).cs = (s.fda &&& 0xC000) >>> 14 := rfl
    rw [hcs, maskShift_eq]
    rw [e0] at ha hb ⊢
    simp only [E_EEPROM_XMC4_SECTOR_SIZE] at ha hb ⊢
    refine ⟨trivial, ?_, ?_, ?_, ?_⟩ <;> omega
  · have hnf : (advanceCursor d s).nf =
        if (8192 + s.nf) % U32 ≥ E_EEPROM_XMC4_SECTOR4_START_ADDR d
          then E_EEPROM_XMC4_SECTOR0_START_ADDR d else (8192 + s.nf) % U32 := rfl
    rw [hnf, e4, e3]
    rw [e0] at ha hb hc ⊢
    simp only [E_EEPROM_XMC4_SECTOR_SIZE, E_EEPROM_XMC4_ACTUAL_FLASH_BLOCK_SIZE, U32] at ha hb hc ⊢
    have hm : (8192 + s.nf) % 4294967296 = 8192 + s.nf := Nat.mod_eq_of_lt (by omega)
    rw [hm]
    split_ifs with h
    · exact ⟨⟨fun _ => by omega, fun _ => rfl⟩, fun h3 => absurd (by omega) h3⟩
    · exact ⟨⟨fun h3 => by omega, fun h3 => by omega⟩, fun _ => by omega⟩

/-- Witness for C24 on the XMC4500 flash window: the address `0x0C01FFFF` gives the
sector index 3, and a cursor on the last block of sector 3 (`0x0C01E000`) is advanced
to the start of sector 0. -/
theorem C24_address_ring_consistency_witness :
    (markAllFilled { powerOn (fun _ => 0) with e_eeprom_xmc4_sector_info :=
      { next_free_start_addr := 0x0C01E000, flash_data_addr := 0x0C01FFFF,
        current_sector := 0, erase_state := 0 } }).cs = 3 ∧
    (advanceCursor sumDevice { powerOn (fun _ => 0) with e_eeprom_xmc4_sector_info :=
      { next_free_start_addr := 0x0C01E000, flash_data_addr := 0x0C01FFFF,
        current_sector := 0, erase_state := 0 } }).nf = 0x0C010000 := by
  obtain ⟨_, _, h1, h2⟩ := C24_address_ring_consistency sumDevice (by decide)
  refine ⟨((h1 _ (by decide) (by decide)).2.1).trans (by decide), ?_⟩
  exact ((h2 { powerOn (fun _ => 0) with e_eeprom_xmc4_sector_info :=
      { next_free_start_addr := 0x0C01E000, flash_data_addr := 0x0C01FFFF,
        current_sector := 0, erase_state := 0 } } (by decide) (by decide) (by decide)).1.2
    (by decide)).trans (by decide)

/-- C25. The stale-data test depends on the record length.  For every record length
`len` within the buffer size: (1) when the scan of an initialisation from reset takes
a block (`flash_data_addr` is set) and the erase state machine returns `OK`, the
initialisation returns `OK` if and only if `next_free_start_addr - flash_data_addr`,
taken before the relocation of the cursor, equals `2 * len`, and `ERROR_OLD_DATA`
otherwise; hence for `len ≠ 4096` it returns `ERROR_OLD_DATA`.  (2) In particular, for
`len ≠ 4096`, after an initialisation on an erased ring and one persist that
returned `OK`, an initialisation from reset whose erases verify takes the block just
written (block 0 of the ring) and returns `ERROR_OLD_DATA`. -/
theorem C25_stale_test_depends_on_record_length (d : Device) (hd : d.placed) (len : Nat)
    (hlen : len ≤ E_EEPROM_XMC4_WORKING_BUFFER_SIZE) :
    (∀ (o : Outcomes) (n : Nat) (flash : Nat → Nat),
      (scannedAll d len (powerOn flash)).fda ≠ 0 →
      (E_EEPROM_XMC4_lInitEraseStateMachine d o (scannedAll d len (powerOn flash))).1 = OK →
      E_EEPROM_XMC4_Init d o (n + 2) len (powerOn flash) = some (booted d o len flash) ∧
      ((booted d o len flash).1 = OK ↔
        (scannedAll d len (powerOn flash)).nf - (scannedAll d len (powerOn flash)).fda = 2 * len) ∧
      ((booted d o len flash).1 ≠ OK → (booted d o len flash).1 = ERROR_OLD_DATA) ∧
      (len ≠ 4096 → (booted d o len flash).1 = ERROR_OLD_DATA)) ∧
    (∀ (o0 o1 o2 : Outcomes) (n0 n2 : Nat) (flash : Nat → Nat), erasedRing d flash →
      (E_EEPROM_XMC4_UpdateFlashContents d o1 (freshState d len flash)).1 = OK →
      (∀ m, m < 4 → o2.eraseOk m = true) → len ≠ 4096 →
      E_EEPROM_XMC4_Init d o0 (n0 + 2) len (powerOn flash) = some (OK, freshState d len flash) ∧
      E_EEPROM_XMC4_Init d o2 (n2 + 2) len
          (powerOn (E_EEPROM_XMC4_UpdateFlashContents d o1 (freshState d len flash)).2.hw.mem)
        = some (booted d o2 len (E_EEPROM_XMC4_UpdateFlashContents d o1 (freshState d len flash)).2.hw.mem) ∧
      (booted d o2 len (E_EEPROM_XMC4_UpdateFlashContents d o1 (freshState d len flash)).2.hw.mem).2.fda
        = blockAddr d 0 ∧
      (booted d o2 len (E_EEPROM_XMC4_UpdateFlashContents d o1 (freshState d len flash)).2.hw.mem).1
        = ERROR_OLD_DATA) := by
  have hlen2 : len ≤ 8184 := by simpa using hlen
  have key : ∀ (o : Outcomes) (flash : Nat → Nat),
      (scannedAll d len (powerOn flash)).fda ≠ 0 →
      (eraseLoop d o 4 0 (scannedAll d len (powerOn flash))).1 = OK →
      ((booted d o len flash).1 = OK ↔
        (scannedAll d len (powerOn flash)).nf - (scannedAll d len (powerOn flash)).fda = 2 * len) ∧
      ((booted d o len flash).1 ≠ OK → (booted d o len flash).1 = ERROR_OLD_DATA) ∧
      (len ≠ 4096 → (booted d o len flash).1 = ERROR_OLD_DATA) := by
    intro o flash hf hok
    have hl := scannedAll_len d len (powerOn flash)
    obtain ⟨g, h1, h2⟩ := initFinish_stale_test hd o flash (scannedAll d len (powerOn flash))
      (scanBasic_all d len (powerOn flash)) hok hf (by rw [hl]; exact hlen2)
    rw [hl] at h1
    unfold booted
    refine ⟨h1, h2, fun h4 => h2 (fun h3 => ?_)⟩
    have := h1.1 h3
    omega
  refine ⟨fun o n flash hf hok => ⟨init_booted hd o n len hlen flash, key o flash hf hok⟩,
    fun o0 o1 o2 n0 n2 flash her hok he2 h4 => ?_⟩
  have hS := settled_update hd o1 _ (settled_fresh len her)
    (show (0 : Nat) + 1 < U32 by simp only [U32]; omega) hok
  obtain ⟨u1, u2, _⟩ := update_ok_block d o1 _ hok
  have hb1 : (E_EEPROM_XMC4_UpdateFlashContents d o1 (freshState d len flash)).2.bcc = 1 := by
    rw [u2]; rfl
  have hfda : (E_EEPROM_XMC4_UpdateFlashContents d o1 (freshState d len flash)).2.fda
      = blockAddr d 0 := by
    rw [u1, blockAddr_eq hd, ← sector0_eq hd]; rfl
  obtain ⟨happ, q, hq, hfq, hvq, hcq, hmq⟩ := settled_recorded hS (by rw [hb1]; decide)
  rw [← hcq] at hmq
  obtain ⟨_, r2, _⟩ := boot_recovers hd o2 len _ he2 happ q hq hvq hmq
  have r3 := r2.trans (hfq.symm.trans hfda)
  have hf : (scannedAll d len (powerOn
      (E_EEPROM_XMC4_UpdateFlashContents d o1 (freshState d len flash)).2.hw.mem)).fda ≠ 0 := by
    rw [← booted_fda d o2, r3]
    exact blockAddr_ne_zero hd 0
  exact ⟨init_erased hd o0 n0 len hlen flash her, init_booted hd o2 n2 len hlen _, r3,
    (key o2 _ hf (eraseLoop_allOk_status d o2 4 0 _ (le_refl _) he2)).2.2 h4⟩

/-- Witness for C25: with the record length 16 on the byte-sum device, the image with
one valid block gives `ERROR_OLD_DATA`, and so does the image left by one persist on
an erased ring. -/
theorem C25_stale_test_depends_on_record_length_witness :
    (booted sumDevice allOk 16 oneBlockImage).1 = ERROR_OLD_DATA ∧
    (booted sumDevice allOk 16
      (E_EEPROM_XMC4_UpdateFlashContents sumDevice allOk
        (freshState sumDevice 16 (fun _ => 0))).2.hw.mem).1 = ERROR_OLD_DATA := by
  have h := C25_stale_test_depends_on_record_length sumDevice (by decide) 16 (by decide)
  have hf : (scannedAll sumDevice 16 (powerOn oneBlockImage)).fda ≠ 0 := by decide!
  have he : (E_EEPROM_XMC4_lInitEraseStateMachine sumDevice allOk
      (scannedAll sumDevice 16 (powerOn oneBlockImage))).1 = OK := by decide!
  have her : erasedRing sumDevice (fun _ => 0) := by decide!
  have hok : (E_EEPROM_XMC4_UpdateFlashContents sumDevice allOk
      (freshState sumDevice 16 (fun _ => 0))).1 = OK := by decide!
  exact ⟨(h.1 allOk 0 oneBlockImage hf he).2.2.2 (by decide),
    (h.2 allOk allOk allOk 0 0 (fun _ => 0) her hok (fun _ _ => rfl) (by decide)).2.2.2⟩

end EEPROM
